import Mathlib

/-!
The file `goapi.go` of slene/margo: API extraction and API diffing.

A shallow embedding of the feature emitter, the build-context merge, the API
differ and the cursor resolution of `goapi.go`, with the properties proved
about them.

Conventions of the embedding.

* A Go `string` is a sequence of bytes: `GoString := List Nat`, one number per
  byte.  `<` on Go strings is the byte-wise lexicographic order, which is the
  order of `List Nat`.  `len(s)` is `s.length`.
* A Go `map[string]V` is an association list whose keys are pairwise distinct;
  a `map[string]bool` that only ever stores `true` is the list of its keys.
  Go iterates over a map in an unspecified order; every iteration embedded here
  is followed by `sort.Strings`, or only collects into another map.
* `sort.Strings` is a sort for the byte-wise order (`List.insertionSort`).
* An `io.Writer` is the list of the texts written to it, one per `Fprintf`.
* The flags (`*allowNew`, `*showpos`, ...) are parameters.
* A run-time panic (slice bounds out of range) is `none`.
* A recursion of the source whose depth the code does not bound takes a
  `fuel`: the embedding gives `none`, or `Outcome.diverge`, when the fuel is
  used up, and the result of the source otherwise.
* Nodes of the syntax tree carry no position: the test `inRange(node, p)` of
  the cursor resolution is a parameter.
-/

namespace GoApi

/-! ## Strings -/

/-- A Go string: its bytes. -/
abbrev GoString := List Nat

/-- The UTF-8 bytes of one character. -/
def utf8Bytes (c : Char) : List Nat :=
  let n := c.toNat
  if n < 128 then [n]
  else if n < 2048 then [192 + n / 64, 128 + n % 64]
  else if n < 65536 then [224 + n / 4096, 128 + (n / 64) % 64, 128 + n % 64]
  else [240 + n / 262144, 128 + (n / 4096) % 64, 128 + (n / 64) % 64, 128 + n % 64]

/-- The Go string written as the literal `s`. -/
def str (s : String) : GoString := s.toList.flatMap utf8Bytes

/-- The Go function `strings.Index(s, sub)` for a one-byte `sub`: the index of
the first occurrence of `b`, or `-1`. -/
def indexByte (s : GoString) (b : Nat) : Int :=
  match s with
  | [] => -1
  | c :: cs => if c = b then 0 else
      let i := indexByte cs b
      if i < 0 then -1 else i + 1

/-- The Go function `strings.Contains(s, sub)` for a one-byte `sub`. -/
def containsByte (s : GoString) (b : Nat) : Bool := decide (0 ≤ indexByte s b)

/-- The Go function `strings.Join`. -/
def join : List GoString → GoString → GoString
  | [], _ => []
  | [a], _ => a
  | a :: b :: rest, sep => a ++ sep ++ join (b :: rest) sep

/-- The Go function `strings.Replace(s, old, new, n)` for a one-byte `old` and a
one-byte `new`: the first `n` occurrences are replaced, all of them when
`n < 0`. -/
def replaceByte : GoString → Nat → Nat → Int → GoString
  | [], _, _, _ => []
  | c :: cs, old, new, n =>
    if n = 0 then c :: cs
    else if c = old then new :: replaceByte cs old new (n - 1)
    else c :: replaceByte cs old new n

/-- The decimal digits of `n`, most significant first, in front of `acc`;
`fuel` bounds the number of digits. -/
def digitsAux : Nat → Nat → GoString → GoString
  | 0, _, acc => acc
  | fuel + 1, n, acc =>
    if n < 10 then (48 + n) :: acc
    else digitsAux fuel (n / 10) ((48 + n % 10) :: acc)

/-- The Go function `strconv.Itoa`. -/
def itoa (i : Int) : GoString :=
  if i < 0 then 45 :: digitsAux (i.natAbs + 1) i.natAbs []
  else digitsAux (i.natAbs + 1) i.natAbs []

/-- The Go function `sort.Strings`. -/
def sortStrings (l : List GoString) : List GoString :=
  l.insertionSort (fun a b => a ≤ b)

/-! ## `set`, `featureWithoutContext` -/

/-- The function `set`: the keys of the map that sends every item to `true`. -/
def set (items : List GoString) : List GoString := items.dedup

/-- Lookup `m[k]` in a `map[string]bool` whose stored values are all `true`. -/
def setHas (m : List GoString) (k : GoString) : Bool := decide (k ∈ m)

/-- The Go builtin `delete(m, k)` on a `map[string]bool`. -/
def setDelete (m : List GoString) (k : GoString) : List GoString :=
  m.filter (fun x => decide (x ≠ k))

/-- The class `\s` of Go regular expressions: `[\t\n\f\r ]`. -/
def isSpace (b : Nat) : Bool := b = 9 || b = 10 || b = 12 || b = 13 || b = 32

/-- The rest of a match of `\S+?\)` once a first `\S` has been consumed: the
number of further bytes the lazy match takes, up to and including the closing
parenthesis.  A non-ASCII rune is made of bytes above 127, none of them in
`\s`, so that matching bytes and matching runes agree. -/
def matchClose : GoString → Option Nat
  | [] => none
  | c :: cs =>
    if c = 41 then some 1
    else if isSpace c then none
    else (matchClose cs).map (· + 1)

/-- The length of the match of `spaceParensRx`, the regular expression
` \(\S+?\)`, at the start of `s`, if there is one. -/
def matchSpaceParens : GoString → Option Nat
  | 32 :: 40 :: c :: cs => if isSpace c then none else (matchClose cs).map (· + 3)
  | _ => none

/-- The call `spaceParensRx.ReplaceAllString(s, "")`: every match, found
leftmost first and not overlapping, is deleted.  `skip` counts the bytes of the
current match still to be dropped. -/
def replaceAllSpaceParens : Nat → GoString → GoString
  | _, [] => []
  | skip + 1, _ :: cs => replaceAllSpaceParens skip cs
  | 0, c :: cs =>
    match matchSpaceParens (c :: cs) with
    | some n => replaceAllSpaceParens (n - 1) cs
    | none => c :: replaceAllSpaceParens 0 cs

/-- The function `featureWithoutContext`. -/
def featureWithoutContext (f : GoString) : GoString :=
  if !containsByte f 40 then f else replaceAllSpaceParens 0 f

/-! ## `compareAPI` -/

/-- The variables of the loop of `compareAPI`. -/
structure CompareState where
  required : List GoString
  features : List GoString
  optionalSet : List GoString
  out : List GoString
  ok : Bool
deriving DecidableEq

/-- The first case of the `switch` in `compareAPI`: `feature` has been taken
from `required`, whose rest is `rest`. -/
def takeRequired (exceptionSet featureSet : List GoString) (s : CompareState)
    (feature : GoString) (rest : List GoString) : CompareState :=
  if setHas exceptionSet feature then
    { s with required := rest, out := s.out ++ [str "~" ++ feature ++ str "\n"] }
  else if setHas featureSet (featureWithoutContext feature) then
    { s with required := rest }
  else
    { s with required := rest, out := s.out ++ [str "-" ++ feature ++ str "\n"], ok := false }

/-- The second case of the `switch` in `compareAPI`: `newFeature` has been
taken from `features`, whose rest is `rest`. -/
def takeFeature (allowNew : Bool) (s : CompareState)
    (newFeature : GoString) (rest : List GoString) : CompareState :=
  if setHas s.optionalSet newFeature then
    { s with features := rest, optionalSet := setDelete s.optionalSet newFeature }
  else
    { s with features := rest, out := s.out ++ [str "+" ++ newFeature ++ str "\n"],
             ok := if !allowNew then false else s.ok }

/-- One iteration of the loop of `compareAPI`, entered when `required` or
`features` is not empty.  The first case is taken when `features` is empty or
`required[0] < features[0]`, the second when `required` is empty or
`required[0] > features[0]`, the default case otherwise. -/
def compareStep (allowNew : Bool) (exceptionSet featureSet : List GoString)
    (s : CompareState) : CompareState :=
  match s.required, s.features with
  | [], [] => s
  | r :: rs, [] => takeRequired exceptionSet featureSet s r rs
  | [], f :: fs => takeFeature allowNew s f fs
  | r :: rs, f :: fs =>
    if r < f then takeRequired exceptionSet featureSet s r rs
    else if r > f then takeFeature allowNew s f fs
    else { s with required := rs, features := fs }

/-- The loop `for len(required) > 0 || len(features) > 0` of `compareAPI`,
run for at most `fuel` iterations. -/
def compareLoop (allowNew : Bool) (exceptionSet featureSet : List GoString) :
    Nat → CompareState → CompareState
  | 0, s => s
  | fuel + 1, s =>
    if 0 < s.required.length ∨ 0 < s.features.length then
      compareLoop allowNew exceptionSet featureSet fuel
        (compareStep allowNew exceptionSet featureSet s)
    else s

/-- The function `compareAPI`: what is written to `w`, and the result `ok`.
Every iteration takes a line from `required` or from `features`, so that
`len(required) + len(features)` iterations end the loop. -/
def compareAPI (allowNew : Bool) (features required optional exception : List GoString) :
    List GoString × Bool :=
  let optionalSet := set optional
  let exceptionSet := set exception
  let featureSet := set features
  let features := sortStrings features
  let required := sortStrings required
  let s := compareLoop allowNew exceptionSet featureSet (required.length + features.length)
    { required := required, features := features, optionalSet := optionalSet,
      out := [], ok := true }
  let missing := sortStrings s.optionalSet
  (s.out ++ missing.map (fun feature => str "±" ++ feature ++ str "\n"), s.ok)

/-- The lines of `required` and `features` still to be read. -/
def CompareState.size (s : CompareState) : Nat := s.required.length + s.features.length

/-- No compatibility break is found from state `s` on: `ok` holds, every line
left in `required` only is excused, and in lock-down mode every line left in
`features` only is a key of `optionalSet`. -/
def CompareState.Passes (allowNew : Bool) (exc fs : List GoString) (s : CompareState) : Prop :=
  s.ok = true ∧
  (∀ r ∈ s.required, r ∉ s.features → r ∈ exc ∨ featureWithoutContext r ∈ fs) ∧
  (allowNew = false → ∀ f ∈ s.features, f ∉ s.required → f ∈ s.optionalSet)

/-! ## The syntax tree -/

/-- The tokens of `go/token` that the resolver tells apart: the kinds of basic
literals and the operators. -/
inductive Token where
  | IDENT | INT | FLOAT | IMAG | CHAR | STRING
  | ADD | SUB | MUL | QUO | REM
  | AND | OR | XOR | SHL | SHR | AND_NOT
  | LAND | LOR | ARROW
  | EQL | LSS | GTR | NOT | NEQ | LEQ | GEQ
deriving DecidableEq

/-- The direction of a channel type, `ast.ChanDir`. -/
inductive ChanDir where
  | SEND | RECV | BOTH
deriving DecidableEq

mutual
/-- The expressions and type expressions of `go/ast`. -/
inductive Expr where
  | ident (name : GoString)
  | star (x : Expr)
  | selector (x : Expr) (sel : GoString)
  | arrayType (len : Option Expr) (elt : Expr)
  | funcType (params results : Option (List Field))
  | basicLit (kind : Token) (value : GoString)
  | compositeLit (type : Option Expr) (elts : List Expr)
  | funcLit (params results : Option (List Field))
  | interfaceType (methods : List Field)
  | structType (fields : List Field)
  | ellipsis (elt : Option Expr)
  | unary (op : Token) (x : Expr)
  | binary (x : Expr) (op : Token) (y : Expr)
  | paren (x : Expr)
  | call (fn : Expr) (args : List Expr)
  | index (x : Expr) (idx : Expr)
  | slice (x : Expr)
  | mapType (key value : Expr)
  | chanType (dir : ChanDir) (value : Expr)
  | typeAssert (x : Expr) (type : Option Expr)
/-- The Go type `ast.Field`: the names it lists and its type. -/
inductive Field where
  | mk (names : List GoString) (type : Expr)
end

/-- The names of a field. -/
def Field.names : Field → List GoString
  | .mk names _ => names

/-- The type of a field. -/
def Field.type : Field → Expr
  | .mk _ type => type

/-- The Go type `ExprType`: a type string and the node it was found at. -/
structure ExprType where
  X : Expr
  T : GoString

/-- The Go type `ast.ValueSpec` of a `const` or `var` declaration. -/
structure ValueSpec where
  names : List GoString
  type : Option Expr
  values : List Expr

/-- The Go type `ast.ImportSpec`: the local name, when there is one, and the
path literal `Path.Value`, with its quotes. -/
structure ImportSpec where
  name : Option GoString
  path : GoString

/-- The fields of `ast.File` that the loader reads: the name of the package
clause `f.Name.Name` and the imports `f.Imports`. -/
structure File where
  name : GoString
  imports : List ImportSpec

/-- The Go type `loadState`. -/
inductive LoadState where
  | notLoaded | loading | loaded
deriving DecidableEq

/-- The fields of `CursorInfo` that the loader reads and writes. -/
structure CursorInfo where
  pkg : GoString
  file : GoString
  std : Bool := false

/-- The Go type `method`: a method of an interface, or a function. -/
structure Method where
  name : GoString
  sig : GoString
  params : Option (List Field)
  results : Option (List Field)
  pos : Int
  recv : Option Expr := none

/-- What the embedding takes from `go/printer`, `go/ast`, `go/token` and the
flags: the printer behind `Walker.nodeString`, the test `ast.IsExported`, the
flag `*alldecls`, and the position table behind `Pos()`, for expressions and
for fields. -/
structure Env where
  nodeString : Expr → GoString
  isExported : GoString → Bool
  alldecls : Bool
  pos : Expr → Int
  fieldPos : Field → Int

/-- The function `isExtract`. -/
def Env.isExtract (env : Env) (name : GoString) : Bool :=
  if env.alldecls then true else env.isExported name

/-! ## Packages and the feature map -/

/-- The Go type `map[string]V`: pairs with pairwise distinct keys. -/
abbrev GoMap (V : Type) := List (GoString × V)

/-- The keys of a map. -/
def GoMap.keys {V : Type} (m : GoMap V) : List GoString := m.map Prod.fst

/-- The test `_, ok := m[k]`. -/
def GoMap.has {V : Type} (m : GoMap V) (k : GoString) : Bool := decide (k ∈ m.keys)

/-- The lookup `m[k]`, `none` for a key that is absent. -/
def GoMap.get {V : Type} (m : GoMap V) (k : GoString) : Option V :=
  (m.find? (fun kv => decide (kv.1 = k))).map Prod.snd

/-- The assignment `m[k] = v`. -/
def GoMap.put {V : Type} (m : GoMap V) (k : GoString) (v : V) : GoMap V :=
  if m.has k then m.map (fun kv => if kv.1 = k then (k, v) else kv) else m ++ [(k, v)]

/-- The fields of `Package` that the embedding reads and writes.  The field
`varSpecs` stands for the `var` declarations of the files of `apkg`, in the
order in which `resolveName` meets them, and the field `files` for the map
`apkg.Files`. -/
structure Package where
  name : GoString
  sep : GoString
  features : GoMap Int
  interfaceMethods : GoMap (List Method) := []
  interfaces : GoMap (List Field) := []
  structs : GoMap (List Field) := []
  types : GoMap Expr := []
  consts : GoMap ExprType := []
  vars : GoMap ExprType := []
  varSpecs : List ValueSpec := []
  functions : GoMap Method := []
  deps : List GoString := []
  files : GoMap File := []
  dir : GoString := []

/-- The method `Package.Features`; `showpos` is the flag `*showpos`. -/
def Package.Features (showpos : Bool) (p : Package) : List GoString :=
  sortStrings (p.features.map (fun fps =>
    if showpos then fps.1 ++ p.sep ++ itoa fps.2 else fps.1))

/-- The fields of `Walker` that the embedding reads and writes.  The current
package is held by value: `w.packageMap[w.curPackageName]` and `w.curPackage`
are one `*Package` in the source, and an update through either is an update of
`curPackage` here. -/
structure Walker where
  scope : List GoString
  sep : GoString
  curPackage : Package
  wantedPkg : List GoString
  lastConstType : GoString := []
  curPackageName : GoString := []
  ctxName : GoString := []
  constDep : GoMap ExprType := []
  packageMap : GoMap Package := []
  interfaces : List ((GoString × GoString) × List Field) := []
  selectorFullPkg : GoMap GoString := []
  localvar : GoMap ExprType := []
  packageState : GoMap LoadState := []
  cursorInfo : Option CursorInfo := none

/-- The text that `emitFeature` stores for `feature`, before the scope is put
in front of it. -/
def featureLine (feature : GoString) : GoString :=
  let more := indexByte feature 10
  if more ≠ -1 then
    if feature.length ≤ 1024 then
      replaceByte (replaceByte (replaceByte feature 10 32 1) 10 59 (-1)) 9 32 (-1)
    else
      feature.take more.toNat ++ str " ...more"
  else feature

/-- The key under which `emitFeature` records `feature`. -/
def scopedFeature (w : Walker) (feature : GoString) : GoString :=
  join w.scope w.sep ++ w.sep ++ featureLine feature

/-- The method `Walker.emitFeature` (the log line written under `*verbose` is
left out). -/
def emitFeature (w : Walker) (feature : GoString) (pos : Int) : Walker :=
  if !setHas w.wantedPkg w.curPackage.name then w
  else
    let f := scopedFeature w feature
    if w.curPackage.features.has f then w
    else { w with curPackage :=
            { w.curPackage with features := w.curPackage.features.put f pos } }

/-! ## The merge of the build contexts in `GoApi` -/

/-- The fields of `build.Context` that name a context. -/
structure Context where
  GOOS : GoString
  GOARCH : GoString
  CgoEnabled : Bool
deriving DecidableEq

/-- The function `contextName`. -/
def contextName (c : Context) : GoString :=
  let s := c.GOOS ++ str "-" ++ c.GOARCH
  if c.CgoEnabled then s ++ str "-cgo" else s

/-- The statement `featureCtx[f][ctxName] = true`, the inner map being made
when it is `nil`. -/
def recordFeature (featureCtx : GoMap (List GoString)) (f ctxName : GoString) :
    GoMap (List GoString) :=
  match featureCtx.get f with
  | none => featureCtx.put f [ctxName]
  | some cmap => if setHas cmap ctxName then featureCtx else featureCtx.put f (cmap ++ [ctxName])

/-- The body of the loop `for pkg, p := range w.packageMap` of `GoApi`: the
features of a wanted package stored under a key with a colon are recorded for
the context named before the colon. -/
def collectPackage (showpos : Bool) (wantedPkg : List GoString)
    (featureCtx : GoMap (List GoString)) (pkg : GoString) (p : Package) :
    GoMap (List GoString) :=
  if setHas wantedPkg p.name then
    let pos := indexByte pkg 58
    if pos = -1 then featureCtx
    else
      let ctxName := pkg.take pos.toNat
      (p.Features showpos).foldl (fun acc f => recordFeature acc f ctxName) featureCtx
  else featureCtx

/-- The loop `for pkg, p := range w.packageMap` of `GoApi`, which fills
`featureCtx`: feature -> context name -> true. -/
def collectFeatures (showpos : Bool) (wantedPkg : List GoString)
    (packageMap : GoMap Package) : GoMap (List GoString) :=
  packageMap.foldl (fun featureCtx kv =>
    collectPackage showpos wantedPkg featureCtx kv.1 kv.2) []

/-- The variant of feature `f` for the context named `cname`:
`fmt.Sprintf("%s (%s)%s", f[:comma], cname, f[comma:])` with
`comma := strings.Index(f, ",")`.  The slice `f[:comma]` panics when `f` has no
comma. -/
def annotate (f cname : GoString) : Option GoString :=
  let comma := indexByte f 44
  if comma < 0 then none
  else some (f.take comma.toNat ++ str " (" ++ cname ++ str ")" ++ f.drop comma.toNat)

/-- The body of the loop `for f, cmap := range featureCtx` of `GoApi`: the
lines that feature `f` adds to `features`. -/
def mergeEntry (ncontexts : Nat) (f : GoString) (cmap : List GoString) :
    Option (List GoString) :=
  if cmap.length = ncontexts then some [f]
  else cmap.mapM (annotate f)

/-- The loop `for f, cmap := range featureCtx` of `GoApi` followed by
`sort.Strings(features)`. -/
def mergeFeatures (ncontexts : Nat) (featureCtx : GoMap (List GoString)) :
    Option (List GoString) :=
  (featureCtx.mapM (fun kv => mergeEntry ncontexts kv.1 kv.2)).map
    (fun ls => sortStrings ls.flatten)

/-- The feature list that `GoApi` computes when `*defaultCtx` is off, from the
package map that the walks over `contexts` have filled. -/
def mergeContexts (showpos : Bool) (contexts : List Context) (wantedPkg : List GoString)
    (packageMap : GoMap Package) : Option (List GoString) :=
  mergeFeatures contexts.length (collectFeatures showpos wantedPkg packageMap)

/-- The context name under which the package map key `pkg` is counted, if any:
the text before its first colon. -/
def keyContext (pkg : GoString) : Option GoString :=
  if indexByte pkg 58 = -1 then none else some (pkg.take (indexByte pkg 58).toNat)

/-- Feature `f` is listed for context name `c`: a wanted package stored under a
key that starts with `c` and a colon has `f` among its `Features`. -/
def ProducedUnder (showpos : Bool) (wantedPkg : List GoString) (packageMap : GoMap Package)
    (f c : GoString) : Prop :=
  ∃ kv ∈ packageMap, kv.2.name ∈ wantedPkg ∧ keyContext kv.1 = some c ∧
    f ∈ kv.2.Features showpos

/-- Feature `f` is recorded for context name `c` in `featureCtx`. -/
def Listed (featureCtx : GoMap (List GoString)) (f c : GoString) : Prop :=
  ∃ cmap, (f, cmap) ∈ featureCtx ∧ c ∈ cmap

/-- The map `featureCtx` is a map of sets: its keys are pairwise distinct, and
so are the context names of every entry. -/
def WellFormed (featureCtx : GoMap (List GoString)) : Prop :=
  featureCtx.keys.Nodup ∧ ∀ kv ∈ featureCtx, kv.2.Nodup

/-- A feature string with a comma and no opening parenthesis before its first
comma, as `pkg PATH, ...` is. -/
def PlainFeature (f : GoString) : Prop :=
  ∃ pre post, f = pre ++ 44 :: post ∧ 44 ∉ pre ∧ 40 ∉ pre

/-- The variant of `f` for the context named `c`, for an `f` with a comma. -/
def variant (f c : GoString) : GoString := (annotate f c).getD []

/-- The lines that the entry `f`, `cmap` of `featureCtx` adds, for an `f` with
a comma. -/
def entryLines (ncontexts : Nat) (f : GoString) (cmap : List GoString) : List GoString :=
  if cmap.length = ncontexts then [f] else cmap.map (variant f)

/-! ## The signature formatter -/

/-- The method `Walker.namelessField`. -/
def namelessField (f : Field) : Field := .mk [] f.type

/-- The method `Walker.namelessFieldList`. -/
def namelessFieldList (fl : Option (List Field)) : Option (List Field) :=
  match fl with
  | none => some []
  | some l => some (l.flatMap (fun f =>
      if f.names.length ≥ 1 then List.replicate f.names.length (namelessField f)
      else [namelessField f]))

/-- The method `Walker.namelessType`. -/
def namelessType (t : Expr) : Expr :=
  match t with
  | .funcType params results => .funcType (namelessFieldList params) (namelessFieldList results)
  | t => t

/-- The closure `writeField` of `funcSigString`; `nodeString` is the method
`Walker.nodeString`, the printer of `go/printer`. -/
def writeField (nodeString : Expr → GoString) (b : GoString) (f : Field) : GoString :=
  if f.names.length > 1 then
    (List.range f.names.length).foldl (fun b i =>
      (if i > 0 then b ++ str ", " else b) ++ nodeString (namelessType f.type)) b
  else b ++ nodeString (namelessType f.type)

/-- The loop `for i, f := range list` of `funcSigString`, which writes the
fields with `", "` between them. -/
def writeFields (nodeString : Expr → GoString) (b : GoString) (list : List Field) : GoString :=
  list.enum.foldl (fun b ifd =>
    writeField nodeString (if ifd.1 > 0 then b ++ str ", " else b) ifd.2) b

/-- The count `nr` of `funcSigString`. -/
def countResults (list : List Field) : Nat :=
  list.foldl (fun nr f => if f.names.length > 1 then nr + f.names.length else nr + 1) 0

/-- The method `Walker.funcSigString`, for the function type with the field
lists `params` and `results` (`nil` is `none`). -/
def funcSigString (nodeString : Expr → GoString) (params results : Option (List Field)) :
    GoString :=
  let b : GoString := str "("
  let b := match params with
    | some l => writeFields nodeString b l
    | none => b
  let b := b ++ str ")"
  match results with
  | some l =>
    let nr := countResults l
    if nr > 0 then
      let b := b ++ str " "
      let b := if nr > 1 then b ++ str "(" else b
      let b := writeFields nodeString b l
      if nr > 1 then b ++ str ")" else b
    else b
  | none => b

/-- The flattened list of the types of a field list: a field that lists
`k ≥ 1` names stands for `k` copies of its type, an unnamed field for one. -/
def flattenTypes (list : List Field) : List Expr :=
  list.flatMap (fun f =>
    if f.names.length ≥ 1 then List.replicate f.names.length f.type else [f.type])

/-- The types of an optional field list, flattened. -/
def fieldListTypes (fl : Option (List Field)) : List Expr :=
  match fl with
  | some l => flattenTypes l
  | none => []

/-! ## Variable names in a type -/

mutual
/-- The parameter and result names that occur in a type, at any depth. -/
def variableNames : Expr → List GoString
  | .funcType params results => fieldListNames params ++ fieldListNames results
  | .funcLit params results => fieldListNames params ++ fieldListNames results
  | .star x => variableNames x
  | .arrayType _ elt => variableNames elt
  | .mapType key value => variableNames key ++ variableNames value
  | .chanType _ value => variableNames value
  | .paren x => variableNames x
  | _ => []
/-- The names in an optional field list. -/
def fieldListNames : Option (List Field) → List GoString
  | none => []
  | some l => fieldsNames l
/-- The names in a list of fields. -/
def fieldsNames : List Field → List GoString
  | [] => []
  | f :: fs => fieldNames f ++ fieldsNames fs
/-- The names of a field and those in its type. -/
def fieldNames : Field → List GoString
  | .mk names type => names ++ variableNames type
end

/-! ## Constant types -/

/-- The map `constType`, `none` for a token that is not a key. -/
def constType : Token → Option GoString
  | .INT => some (str "ideal-int")
  | .FLOAT => some (str "ideal-float")
  | .STRING => some (str "ideal-string")
  | .CHAR => some (str "ideal-char")
  | .IMAG => some (str "ideal-imag")
  | _ => none

/-- The map `varType`, `none` for a token that is not a key. -/
def varType : Token → Option GoString
  | .INT => some (str "int")
  | .FLOAT => some (str "float64")
  | .STRING => some (str "string")
  | .CHAR => some (str "rune")
  | .IMAG => some (str "complex128")
  | _ => none

/-- The list `builtinTypes`. -/
def builtinTypes : List GoString :=
  [str "bool", str "byte", str "complex64", str "complex128", str "error", str "float32",
    str "float64", str "int", str "int8", str "int16", str "int32", str "int64", str "rune",
    str "string", str "uint", str "uint8", str "uint16", str "uint32", str "uint64",
    str "uintptr"]

/-- The function `isBuiltinType`. -/
def isBuiltinType (typ : GoString) : Bool := decide (typ ∈ builtinTypes)

/-- The function `constTypePriority`. -/
def constTypePriority (typ : GoString) : Int :=
  if typ = str "complex128" then 100
  else if typ = str "ideal-imag" then 99
  else if typ = str "complex64" then 98
  else if typ = str "float64" then 97
  else if typ = str "ideal-float" then 96
  else if typ = str "float32" then 95
  else if typ = str "int64" then 94
  else if typ = str "int" ∨ typ = str "uint" ∨ typ = str "uintptr" then 93
  else if typ = str "ideal-int" then 92
  else if typ = str "int16" ∨ typ = str "uint16" ∨ typ = str "int8" ∨ typ = str "uint8" ∨
      typ = str "byte" then 91
  else if typ = str "ideal-char" then 90
  else 101

/-- The constant `constDepPrefix`. -/
def constDepPrefix : GoString := str "const-dependency:"

/-- The Go function `strings.HasPrefix`. -/
def hasPrefix (s pre : GoString) : Bool := pre.isPrefixOf s

/-- The Go function `strings.LastIndex(s, sub)` for a one-byte `sub`. -/
def lastIndexByte (s : GoString) (b : Nat) : Int :=
  match s with
  | [] => -1
  | c :: cs =>
    let i := lastIndexByte cs b
    if 0 ≤ i then i + 1 else if c = b then 0 else -1

/-- A result `(string, error)` of the resolver; of the error only the fact
that it is not `nil` is kept. -/
structure StrErr where
  s : GoString
  err : Bool
deriving DecidableEq

/-- The method `Package.findType`. -/
def Package.findType (p : Package) (name : GoString) : Option Expr :=
  match p.interfaces.get name with
  | some methods => some (.interfaceType methods)
  | none =>
    match p.structs.get name with
    | some fields => some (.structType fields)
    | none => p.types.get name

/-- The method `Walker.findPackage`. -/
def findPackage (w : Walker) (pkg : GoString) : Option Package :=
  match w.selectorFullPkg.get pkg with
  | some full =>
    match (if w.ctxName ≠ [] then w.packageMap.get (w.ctxName ++ full) else none) with
    | some v => some v
    | none => w.packageMap.get full
  | none => none

/-- The method `Walker.constRealType`. -/
def constRealType (env : Env) (w : Walker) (typ : GoString) : GoString :=
  let pos := indexByte typ 46
  if 0 ≤ pos then
    let pkg := typ.take pos.toNat
    if pkg = str "C" then str "int"
    else
      let typ := typ.drop (pos.toNat + 1)
      match findPackage w pkg with
      | some p =>
        match p.findType typ with
        | some ret => env.nodeString (namelessType ret)
        | none => typ
      | none => typ
  else
    match w.curPackage.findType typ with
    | some ret => env.nodeString (namelessType ret)
    | none => typ

/-- The recursion of `pkgRetType` on the type string, once `pkg` is cut to its
last path element (which the cut leaves unchanged when it is done again). -/
def pkgRetTypeAux (env : Env) (pkg : GoString) : GoString → GoString
  | 91 :: 93 :: rest => str "[]" ++ pkgRetTypeAux env pkg rest
  | 42 :: rest => str "*" ++ pkgRetTypeAux env pkg rest
  | ret => if env.isExported ret then pkg ++ str "." ++ ret else ret

/-- The method `Walker.pkgRetType`. -/
def pkgRetType (env : Env) (pkg ret : GoString) : GoString :=
  pkgRetTypeAux env (pkg.drop ((lastIndexByte pkg 47) + 1).toNat) ret

/-- The test of `constValueType` and `varValueType` for the operators that
give `bool`: `EQL`, `LSS`, `GTR`, `NOT`, `NEQ`, `LEQ`, `GEQ`. -/
def isBoolOp (op : Token) : Bool :=
  op = .EQL || op = .LSS || op = .GTR || op = .NOT || op = .NEQ || op = .LEQ || op = .GEQ

/-- The method `Walker.constValueType`. -/
def constValueType (env : Env) (w : Walker) : Expr → StrErr
  | .basicLit kind _ =>
    match constType kind with
    | none => ⟨[], true⟩
    | some litType => ⟨litType, false⟩
  | .unary _ x => constValueType env w x
  | .selector x sel =>
    let lhs := env.nodeString x
    let rhs := env.nodeString (.ident sel)
    if lhs = str "C" then ⟨lhs ++ str "." ++ rhs, false⟩
    else
      match findPackage w lhs with
      | some p =>
        match p.consts.get rhs with
        | some ret => ⟨pkgRetType env p.name ret.T, false⟩
        | none => ⟨[], true⟩
      | none => ⟨[], true⟩
  | .ident name =>
    if name = str "iota" then ⟨str "ideal-int", false⟩
    else if name = str "false" ∨ name = str "true" then ⟨str "bool", false⟩
    else
      match w.curPackage.consts.get name with
      | some t => ⟨t.T, false⟩
      | none => ⟨constDepPrefix ++ name, false⟩
  | .binary x op y =>
    if isBoolOp op then ⟨str "bool", false⟩
    else
      let left := constValueType env w x
      if left.err then ⟨[], true⟩
      else if op = .SHL ∨ op = .SHR then left
      else
        let right := constValueType env w y
        if right.err then ⟨[], true⟩
        else if left.s ≠ right.s then
          if hasPrefix left.s constDepPrefix && hasPrefix right.s constDepPrefix then
            ⟨left.s, false⟩
          else
            let lp := constTypePriority (constRealType env w left.s)
            let rp := constTypePriority (constRealType env w right.s)
            if lp ≥ rp then ⟨left.s, false⟩ else ⟨right.s, false⟩
        else ⟨left.s, false⟩
  | .call fn _ =>
    let typ := env.nodeString fn
    if typ = str "complex" then ⟨str "complex128", false⟩
    else if typ = str "real" ∨ typ = str "imag" then ⟨str "float64", false⟩
    else ⟨typ, false⟩
  | .paren x => constValueType env w x
  | _ => ⟨[], true⟩

/-! ## Scopes and the walk over declarations -/

/-- The method `Walker.pushScope`, without the closure that it returns. -/
def pushScope (w : Walker) (name : GoString) : Walker :=
  { w with scope := w.scope ++ [name] }

/-- The closure that `pushScope` returns: it reads the last scope and cuts it
off, and panics on an empty scope list. -/
def popScope (w : Walker) : Option Walker :=
  if w.scope.length = 0 then none else some { w with scope := w.scope.dropLast }

/-- Features emitted one after the other. -/
def emitAll (w : Walker) (lines : List (GoString × Int)) : Walker :=
  lines.foldl (fun w line => emitFeature w line.1 line.2) w

/-- The body of the loop `for _, f := range t.Fields.List` of
`walkStructType`. -/
def walkStructField (env : Env) (w : Walker) (f : Field) : Walker :=
  let typ := f.type
  let w := f.names.foldl (fun w name =>
    if env.isExtract name then
      emitFeature w (name ++ str " " ++ env.nodeString (namelessType typ))
        (env.pos (.ident name))
    else w) w
  if f.names = [] then
    match typ with
    | .ident v =>
      if env.isExtract v then emitFeature w (str "embedded " ++ v) (env.pos typ) else w
    | .star x =>
      match x with
      | .ident vv =>
        if env.isExtract vv then emitFeature w (str "embedded *" ++ vv) (env.pos x) else w
      | .selector _ _ => emitFeature w (str "embedded " ++ env.nodeString typ) (env.pos typ)
      | _ => w
    | .selector _ _ => emitFeature w (str "embedded " ++ env.nodeString typ) (env.pos typ)
    | _ => w
  else w

/-- The method `Walker.walkStructType`, for the struct type with the field
list `fields`. -/
def walkStructType (env : Env) (w : Walker) (name : GoString) (fields : List Field) :
    Option Walker :=
  let typeStruct := str "type " ++ name ++ str " struct"
  let w := emitFeature w typeStruct (env.pos (.structType fields) - (name.length + 1))
  let w := pushScope w typeStruct
  let w := fields.foldl (walkStructField env) w
  popScope w

/-- The lookup `w.interfaces[pkgSymbol{pkg, iname}]`. -/
def lookupInterface (w : Walker) (pkg iname : GoString) : Option (List Field) :=
  (w.interfaces.find? (fun kv => decide (kv.1 = (pkg, iname)))).map Prod.snd

/-- The method that `interfaceMethods` lists for an embedded `error`. -/
def errorMethod (pos : Int) : Method :=
  { name := str "Error", sig := str "() string", params := none,
    results := some [.mk [] (.ident (str "string"))], pos := pos }

/-- The method `Walker.interfaceMethods`: the exported methods, and whether the
list is complete.  `fuel` bounds the depth of the embedding; `none` is a
recursion that does not end. -/
def interfaceMethods (env : Env) (w : Walker) :
    Nat → GoString → GoString → Option (List Method × Bool)
  | 0, _, _ => none
  | fuel + 1, pkg, iname =>
    match lookupInterface w pkg iname with
    | none => some ([], false)
    | some list =>
      list.foldlM (fun (acc : List Method × Bool) f =>
        match f.type with
        | .funcType params results =>
          some (f.names.foldl (fun (acc : List Method × Bool) mname =>
            if env.isExtract mname then
              (acc.1 ++ [{ name := mname, sig := funcSigString env.nodeString params results,
                           params := params, results := results, pos := env.fieldPos f }],
                acc.2)
            else (acc.1, false)) acc)
        | .ident embedded =>
          if embedded = str "error" then
            some (acc.1 ++ [errorMethod (env.fieldPos f)], acc.2)
          else
            match interfaceMethods env w fuel pkg embedded with
            | none => none
            | some mc => some (acc.1 ++ mc.1, acc.2 && mc.2)
        | .selector x sel =>
          let lhs := env.nodeString x
          let rhs := env.nodeString (.ident sel)
          let fpkg := (w.selectorFullPkg.get lhs).getD []
          match interfaceMethods env w fuel fpkg rhs with
          | none => none
          | some mc => some (acc.1 ++ mc.1, acc.2 && mc.2)
        | _ => some acc) ([], true)

/-- The method `Walker.walkInterfaceType`, for the interface type `t`. -/
def walkInterfaceType (env : Env) (fuel : Nat) (w : Walker) (name : GoString) (t : Expr) :
    Option Walker :=
  let w := pushScope w (str "type " ++ name ++ str " interface")
  match interfaceMethods env w fuel w.curPackageName name with
  | none => none
  | some (methods, complete) =>
    let p := { w.curPackage with
      interfaceMethods := w.curPackage.interfaceMethods.put name methods }
    let w := { w with curPackage := p }
    let w := emitAll w (methods.map (fun m => (m.name ++ m.sig, m.pos)))
    let w := if !complete then emitFeature w (str "unexported methods") 0 else w
    match popScope w with
    | none => none
    | some w =>
      if !complete then some w
      else
        let methNames := sortStrings (methods.map (fun m => m.name))
        if methNames.length = 0 then
          some (emitFeature w (str "type " ++ name ++ str " interface {}")
            (env.pos t - (name.length + 1)))
        else
          some (emitFeature w
            (str "type " ++ name ++ str " interface \x7b " ++ join methNames (str ", ") ++ str " \x7d")
            (env.pos t - (name.length + 1)))

/-- The body of the loop `for _, ident := range vs.Names` of `walkConst`. -/
def walkConstIdent (env : Env) (vs : ValueSpec) (w : Walker) (ident : GoString) : Walker :=
  let litType :=
    match vs.type with
    | some t => env.nodeString t
    | none =>
      match vs.values with
      | [] => w.lastConstType
      | v0 :: _ =>
        let r := constValueType env w v0
        if r.err then str "unknown-type" else r.s
  if hasPrefix litType constDepPrefix then
    let dep := litType.drop constDepPrefix.length
    { w with constDep := w.constDep.put ident { T := dep, X := .ident ident } }
  else if litType = [] then w
  else
    let p := { w.curPackage with
      consts := w.curPackage.consts.put ident { T := litType, X := .ident ident } }
    let w := { w with lastConstType := litType, curPackage := p }
    if env.isExtract ident then
      emitFeature w (str "const " ++ ident ++ str " " ++ litType) (env.pos (.ident ident))
    else w

/-- The method `Walker.walkConst`. -/
def walkConst (env : Env) (w : Walker) (vs : ValueSpec) : Walker :=
  vs.names.foldl (walkConstIdent env vs) w

/-- The closure `findConstType` of `resolveConstantDeps`; `fuel` bounds the
depth of the recursion, and `none` is a recursion that does not end. -/
def findConstType (constDep consts : GoMap ExprType) : Nat → GoString → Option GoString
  | 0, _ => none
  | fuel + 1, ident =>
    match constDep.get ident with
    | some dep => findConstType constDep consts fuel dep.T
    | none =>
      match consts.get ident with
      | some t => some t.T
      | none => some []

/-- The body of the loop `for ident, info := range w.constDep` of
`resolveConstantDeps`. -/
def resolveConstantDep (env : Env) (fuel : Nat) (w : Walker) (entry : GoString × ExprType) :
    Option Walker :=
  if !env.isExtract entry.1 then some w
  else
    match findConstType w.constDep w.curPackage.consts fuel entry.1 with
    | none => none
    | some t =>
      if t = [] then some w
      else
        let p := { w.curPackage with
          consts := w.curPackage.consts.put entry.1 { T := t, X := entry.2.X } }
        let w := { w with curPackage := p }
        some (emitFeature w (str "const " ++ entry.1 ++ str " " ++ t) (env.pos entry.2.X))

/-- The method `Walker.resolveConstantDeps`. -/
def resolveConstantDeps (env : Env) (fuel : Nat) (w : Walker) : Option Walker :=
  w.constDep.foldlM (resolveConstantDep env fuel) w

/-! ## Variable types -/

/-- How a call ends: with a result, with a run-time panic, or not at all. -/
inductive Outcome (α : Type) where
  | ok (a : α)
  | panic
  | diverge

/-- The method `Walker.nodeString` on a node that may be `nil`. -/
def nodeStringOpt (env : Env) (node : Option Expr) : GoString :=
  match node with
  | none => []
  | some e => env.nodeString e

/-- The method `Walker.namelessType` on a node that may be `nil`. -/
def namelessTypeOpt (node : Option Expr) : Option Expr := node.map namelessType

/-- The search of `resolveName` in one `var` declaration: the index of `name`
among the names, with the only value of the declaration when it has just one. -/
def resolveNameIn : List ValueSpec → GoString → Option Expr × Int
  | [], _ => (none, -1)
  | vs :: rest, name =>
    if name ∈ vs.names then
      (match vs.values with
        | [v] => some v
        | _ => none, (vs.names.indexOf name : Int))
    else resolveNameIn rest name

/-- The method `Walker.resolveName`, without the declared type that it also
returns. -/
def resolveName (w : Walker) (name : GoString) : Option Expr × Int :=
  resolveNameIn w.curPackage.varSpecs name

/-- The call `strings.TrimLeft(s, "*")`. -/
def trimLeftStar (s : GoString) : GoString := s.dropWhile (fun c => decide (c = 42))

/-- The method `Walker.varValueType`.  The case `*ast.SelectorExpr`, the calls
other than those of a builtin function or type, and the index of a map, which
go through `varSelectorType`, `varFunctionType`, `findCallType` and the
parser, are the parameter `other`.  An index past the end of `v.Args` is a
panic.  `fuel` bounds the depth of the recursion. -/
def varValueType (env : Env) (other : Expr → Int → Outcome StrErr) (w : Walker) :
    Nat → Option Expr → Int → Outcome StrErr
  | 0, _, _ => .diverge
  | _ + 1, none, _ => .ok ⟨[], false⟩
  | fuel + 1, some vi, index =>
    match vi with
    | .basicLit kind _ =>
      match varType kind with
      | none => .ok ⟨[], true⟩
      | some litType => .ok ⟨litType, false⟩
    | .compositeLit type _ => .ok ⟨nodeStringOpt env type, false⟩
    | .funcLit params results =>
      .ok ⟨env.nodeString (namelessType (.funcType params results)), false⟩
    | .interfaceType methods => .ok ⟨env.nodeString (.interfaceType methods), false⟩
    | .ellipsis elt =>
      match varValueType env other w fuel elt index with
      | .ok r => if r.err then .ok ⟨[], true⟩ else .ok ⟨str "[]" ++ r.s, false⟩
      | .panic => .panic
      | .diverge => .diverge
    | .star x =>
      match varValueType env other w fuel (some x) index with
      | .ok r => if r.err then .ok ⟨[], true⟩ else .ok ⟨str "*" ++ r.s, false⟩
      | .panic => .panic
      | .diverge => .diverge
    | .unary op x =>
      if op = .AND then
        match varValueType env other w fuel (some x) index with
        | .ok r => .ok ⟨str "*" ++ r.s, r.err⟩
        | .panic => .panic
        | .diverge => .diverge
      else .ok ⟨[], true⟩
    | .ident name =>
      if name = str "true" ∨ name = str "false" then .ok ⟨str "bool", false⟩
      else if isBuiltinType name then .ok ⟨name, false⟩
      else
        match w.localvar.get name with
        | some lv => .ok ⟨lv.T, false⟩
        | none =>
          match w.curPackage.findType name with
          | some (.structType _) => .ok ⟨name, false⟩
          | some vt => .ok ⟨env.nodeString vt, false⟩
          | none =>
            let vn := resolveName w name
            if vn.2 ≥ 0 then varValueType env other w fuel vn.1 vn.2
            else .ok ⟨[], true⟩
    | .binary x op y =>
      if isBoolOp op then .ok ⟨str "bool", false⟩
      else
        match varValueType env other w fuel (some x) index with
        | .ok left =>
          if left.err then .ok ⟨[], true⟩
          else
            match varValueType env other w fuel (some y) index with
            | .ok right =>
              if right.err then .ok ⟨[], true⟩
              else if left.s ≠ right.s then .ok ⟨[], true⟩
              else .ok ⟨left.s, false⟩
            | .panic => .panic
            | .diverge => .diverge
        | .panic => .panic
        | .diverge => .diverge
    | .paren x => varValueType env other w fuel (some x) index
    | .mapType key value =>
      .ok ⟨str "map[" ++ env.nodeString (namelessType key) ++ str "](" ++
        env.nodeString (namelessType value) ++ str ")", false⟩
    | .arrayType _ elt => .ok ⟨str "[]" ++ env.nodeString (namelessType elt), false⟩
    | .funcType params results =>
      .ok ⟨env.nodeString (namelessType (.funcType params results)), false⟩
    | .slice x => varValueType env other w fuel (some x) index
    | .chanType dir value =>
      match varValueType env other w fuel (some value) index with
      | .ok r =>
        if r.err then .ok ⟨[], true⟩
        else if dir = .RECV then .ok ⟨str "<-chan " ++ r.s, false⟩
        else if dir = .SEND then .ok ⟨str "chan<- " ++ r.s, false⟩
        else .ok ⟨str "chan " ++ r.s, false⟩
      | .panic => .panic
      | .diverge => .diverge
    | .typeAssert _ type =>
      if index = 1 then .ok ⟨str "bool", false⟩
      else .ok ⟨nodeStringOpt env (namelessTypeOpt type), false⟩
    | .selector x sel => other (.selector x sel) index
    | .call (.ident name) args =>
      if name = str "make" then
        match args with
        | a :: _ => .ok ⟨env.nodeString (namelessType a), false⟩
        | [] => .panic
      else if name = str "new" then
        match args with
        | a :: _ => .ok ⟨str "*" ++ env.nodeString (namelessType a), false⟩
        | [] => .panic
      else if name = str "append" then
        match args with
        | a :: _ => varValueType env other w fuel (some a) 0
        | [] => .panic
      else if name = str "recover" then .ok ⟨str "interface\x7b\x7d", false⟩
      else if name = str "len" ∨ name = str "cap" ∨ name = str "copy" then
        .ok ⟨str "int", false⟩
      else if name = str "complex" then .ok ⟨str "complex128", false⟩
      else if name = str "real" then .ok ⟨str "float64", false⟩
      else if name = str "imag" then .ok ⟨str "float64", false⟩
      else if isBuiltinType name then .ok ⟨name, false⟩
      else other (.call (.ident name) args) index
    | .call fn args => other (.call fn args) index
    | .index x idx =>
      match varValueType env other w fuel (some x) index with
      | .ok r =>
        if r.err then .ok ⟨[], true⟩
        else if index = 1 then .ok ⟨str "bool", false⟩
        else if hasPrefix (trimLeftStar r.s) (str "[]") then
          .ok ⟨(trimLeftStar r.s).drop 2, false⟩
        else if hasPrefix (trimLeftStar r.s) (str "map[") then other (.index x idx) index
        else .ok ⟨[], true⟩
      | .panic => .panic
      | .diverge => .diverge
    | .structType _ => .ok ⟨[], true⟩

/-- The kinds of `TypeInfo`, the Go type `Kind`. -/
inductive Kind where
  | KindBuiltin | KindPackage | KindImport | KindVar | KindConst | KindInterface
  | KindParam | KindStruct | KindMethod | KindField | KindType | KindFunc
  | KindChan | KindArray | KindMap | KindSlice
deriving DecidableEq

/-- The Go type `TypeInfo`; its field `Type` is `Type_` here. -/
structure TypeInfo where
  Kind : Kind
  Name : GoString
  Type_ : GoString
  X : Option Expr
  T : Option Expr

/-- The case `*ast.BasicLit` of `lookupExpr`: the type string, the info (`nil`
is `none`) and whether an error is returned. -/
def lookupExprBasicLit (kind : Token) (value : GoString) :
    GoString × Option TypeInfo × Bool :=
  match varType kind with
  | none => ([], none, true)
  | some litType =>
    let name := if value.length ≥ 128 then value.take 128 ++ str "..." else value
    (litType,
      some { Kind := .KindBuiltin, X := some (.basicLit kind value), Name := name,
             T := some (.basicLit kind value), Type_ := litType },
      false)

/-! ## A printer and an export test for the examples -/

/-- How `go/printer` writes identifiers, `*X`, `X.Sel` and `[]T`; the empty
string at the other nodes, which the examples do not print. -/
def printType : Expr → GoString
  | .ident name => name
  | .star x => str "*" ++ printType x
  | .selector x sel => printType x ++ str "." ++ sel
  | .arrayType none elt => str "[]" ++ printType elt
  | _ => []

/-- The test `ast.IsExported` on a name that starts with an ASCII byte. -/
def asciiExported (name : GoString) : Bool :=
  match name with
  | c :: _ => decide (65 ≤ c ∧ c ≤ 90)
  | [] => false

/-- The environment of the examples: `*alldecls` is off and every position is
zero. -/
def exampleEnv : Env :=
  { nodeString := printType, isExported := asciiExported, alldecls := false,
    pos := fun _ => 0, fieldPos := fun _ => 0 }

/-! ## The features of a struct type, as the specification lists them -/

/-- The feature `embedded TYPE` of an exported embedded type: an exported
`T`, a pointer `*T` to one, and a type `pkg.T` or `*pkg.T` of another
package. -/
def embeddedLine (env : Env) (typ : Expr) : List (GoString × Int) :=
  match typ with
  | .ident v => if env.isExtract v then [(str "embedded " ++ v, env.pos typ)] else []
  | .star (.ident vv) =>
    if env.isExtract vv then [(str "embedded *" ++ vv, env.pos (.ident vv))] else []
  | .star (.selector _ _) => [(str "embedded " ++ env.nodeString typ, env.pos typ)]
  | .selector _ _ => [(str "embedded " ++ env.nodeString typ, env.pos typ)]
  | _ => []

/-- The features of one field: `FIELD TYPE` for every exported name, and the
feature of the embedded type when the field has no name. -/
def structFieldLines (env : Env) (f : Field) : List (GoString × Int) :=
  (f.names.filter env.isExtract).map (fun name =>
    (name ++ str " " ++ env.nodeString (namelessType f.type), env.pos (.ident name))) ++
  (if f.names = [] then embeddedLine env f.type else [])

/-- The features of the fields of a struct type, in the order of the fields. -/
def structLines (env : Env) (fields : List Field) : List (GoString × Int) :=
  fields.flatMap (structFieldLines env)

/-! ## The methods of an interface, as the specification lists them -/

/-- The names of all the methods of the interface `iname` of package `pkg`,
declared or obtained through embedding, exported or not.  It is `none` when
the interface, or one that it embeds, is not in the table of interfaces, or
when the embedding does not end within `fuel` levels. -/
def allMethodNames (env : Env) (w : Walker) :
    Nat → GoString → GoString → Option (List GoString)
  | 0, _, _ => none
  | fuel + 1, pkg, iname =>
    match lookupInterface w pkg iname with
    | none => none
    | some list =>
      list.foldlM (fun (acc : List GoString) f =>
        match f.type with
        | .funcType _ _ => some (acc ++ f.names)
        | .ident embedded =>
          if embedded = str "error" then some (acc ++ [str "Error"])
          else
            match allMethodNames env w fuel pkg embedded with
            | none => none
            | some names => some (acc ++ names)
        | .selector x sel =>
          match allMethodNames env w fuel ((w.selectorFullPkg.get (env.nodeString x)).getD [])
              (env.nodeString (.ident sel)) with
          | none => none
          | some names => some (acc ++ names)
        | _ => some acc) []

/-! ## The example of an interface type -/

/-- The walker of the example `package p; type R interface{ Read([]byte) (int, error) }`,
before the interface type is walked. -/
def readerWalker : Walker :=
  { scope := [str "pkg p"], sep := str ", ",
    curPackage := { name := str "p", sep := str ", ", features := [] },
    wantedPkg := [str "p"], curPackageName := str "p",
    interfaces := [((str "p", str "R"),
      [.mk [str "Read"] (.funcType (some [.mk [] (.arrayType none (.ident (str "byte")))])
        (some [.mk [] (.ident (str "int")), .mk [] (.ident (str "error"))]))])] }

/-! ## Cursor resolution -/

/-- The loop `for _ = range fi.Names` of `funcRetType`: the type of the field
when the index is reached, and the position after the names otherwise. -/
def funcRetTypeNames (typ : Expr) (index : Int) : List GoString → Int → Option Expr × Int
  | [], pos => (none, pos)
  | _ :: rest, pos =>
    if pos = index then (some typ, pos) else funcRetTypeNames typ index rest (pos + 1)

/-- The loop `for _, fi := range ft.Results.List` of `funcRetType`, from the
position `pos`.  A field without names is one whose `Names` is `nil`. -/
def funcRetTypeFields (index : Int) : List Field → Int → Option Expr
  | [], _ => none
  | fi :: rest, pos =>
    if fi.names = [] then
      if pos = index then some fi.type else funcRetTypeFields index rest (pos + 1)
    else
      match funcRetTypeNames fi.type index fi.names pos with
      | (some t, _) => some t
      | (none, pos2) => funcRetTypeFields index rest pos2

/-- The function `funcRetType`, on the results of the function type; `none` is
the `nil` that it returns. -/
def funcRetType (results : Option (List Field)) (index : Int) : Option Expr :=
  match results with
  | some l => funcRetTypeFields index l 0
  | none => none

/-- The statement `if strings.HasPrefix(s, "*") { s = s[1:] }`. -/
def stripStar (s : GoString) : GoString :=
  if hasPrefix s (str "*") then s.drop 1 else s

/-- The field `ft` of a `method`, the node of its function type. -/
def Method.ft (m : Method) : Expr := .funcType m.params m.results

/-- The declared type that `resolveName` returns with the value and the index:
the `Type` of the first `var` declaration that lists `name`. -/
def resolveNameType : List ValueSpec → GoString → Option Expr
  | [], _ => none
  | vs :: rest, name => if name ∈ vs.names then vs.type else resolveNameType rest name

/-- The method `Package.findSelectorType`. -/
def Package.findSelectorType (p : Package) (name : GoString) : Option Expr :=
  match p.vars.get name with
  | some t => some (.ident t.T)
  | none =>
    match p.consts.get name with
    | some t => some (.ident t.T)
    | none =>
      match p.functions.get name with
      | some t => some t.ft
      | none =>
        if p.structs.has name then some (.ident name)
        else if p.interfaces.has name then some (.ident name)
        else p.types.get name

/-- The loop `for _, fi := range s.Fields.List` of `findStructField`; `rec` is
the method itself, on the type of an anonymous field.  The result is the
identifier and the type that are returned, `none` for `nil, nil`. -/
def findStructFieldLoop (env : Env) (w : Walker)
    (rec : Expr → Outcome (Option (Expr × Expr))) (name : GoString) :
    List Field → Outcome (Option (Expr × Expr))
  | [] => .ok none
  | fi :: rest =>
    if name ∈ fi.names then .ok (some (.ident name, fi.type))
    else if fi.names = [] then
      match fi.type with
      | .ident v =>
        match w.curPackage.findType v with
        | some t =>
          if v = name then .ok (some (.ident v, .ident v))
          else
            match rec t with
            | .ok (some r) => .ok (some r)
            | .ok none => findStructFieldLoop env w rec name rest
            | .panic => .panic
            | .diverge => .diverge
        | none => findStructFieldLoop env w rec name rest
      | .star (.ident vv) =>
        match w.curPackage.findType vv with
        | some t =>
          if vv = name then .ok (some (.ident vv, .ident vv))
          else
            match rec t with
            | .ok (some r) => .ok (some r)
            | .ok none => findStructFieldLoop env w rec name rest
            | .panic => .panic
            | .diverge => .diverge
        | none => findStructFieldLoop env w rec name rest
      | .star (.selector x sel) =>
        let pt := env.nodeString (.star (.selector x sel))
        let pos := indexByte pt 46
        if pos ≠ -1 then
          match findPackage w (pt.take pos.toNat) with
          | some p =>
            match p.findType (pt.drop (pos.toNat + 1)) with
            | some t => rec t
            | none => findStructFieldLoop env w rec name rest
          | none => findStructFieldLoop env w rec name rest
        else findStructFieldLoop env w rec name rest
      | .selector x sel =>
        let pt := env.nodeString (.selector x sel)
        let pos := indexByte pt 46
        if pos ≠ -1 then
          match findPackage w (pt.take pos.toNat) with
          | some p =>
            match p.findType (pt.drop (pos.toNat + 1)) with
            | some t => rec t
            | none => findStructFieldLoop env w rec name rest
          | none => findStructFieldLoop env w rec name rest
        else findStructFieldLoop env w rec name rest
      | _ => findStructFieldLoop env w rec name rest
    else findStructFieldLoop env w rec name rest

/-- The method `Walker.findStructField`; `fuel` bounds the depth of the
recursion through anonymous fields. -/
def findStructField (env : Env) (w : Walker) :
    Nat → Expr → GoString → Outcome (Option (Expr × Expr))
  | 0, _, _ => .diverge
  | fuel + 1, st, name =>
    match st with
    | .structType fields =>
      findStructFieldLoop env w (fun t => findStructField env w fuel t name) name fields
    | _ => .ok none

/-- The method `Walker.findStructFieldType`. -/
def findStructFieldType (env : Env) (w : Walker) (fuel : Nat) (st : Expr) (name : GoString) :
    Outcome (Option Expr) :=
  match findStructField env w fuel st name with
  | .ok r => .ok (r.map (fun ie => ie.2))
  | .panic => .panic
  | .diverge => .diverge

/-- Sequencing of calls: a panic or a call that does not return ends the
caller as well. -/
def Outcome.bind {α β : Type} (o : Outcome α) (f : α → Outcome β) : Outcome β :=
  match o with
  | .ok a => f a
  | .panic => .panic
  | .diverge => .diverge

/-- The block `if n >= 0 { ... }` of `lookupSelector`, for the type string
`typ0` of the variable `name`: the info that the block returns, `none` when it
falls through. -/
def lookupSelectorVar (env : Env) (w : Walker) (fuel : Nat) (name sel typ0 : GoString) :
    Outcome (Option TypeInfo) :=
  let typ := stripStar typ0
  let typ := w.curPackage.types.foldl
    (fun typ kv => if kv.1 = typ then env.nodeString (namelessType kv.2) else typ) typ
  let pos := indexByte typ 46
  if pos = -1 then
    match w.curPackage.findType typ with
    | some t =>
      (findStructFieldType env w fuel t sel).bind fun ft =>
        .ok (ft.map fun ft =>
          { Kind := .KindField, X := some ft, Name := name ++ str "." ++ sel, T := some ft,
            Type_ := env.nodeString (namelessType ft) })
    | none => .ok none
  else
    let name2 := typ.take pos.toNat
    match findPackage w name2 with
    | some p =>
      match p.findType (typ.drop (pos.toNat + 1)) with
      | some t =>
        (findStructFieldType env w fuel t sel).bind fun ft =>
          .ok (ft.map fun ft =>
            { Kind := .KindField, X := some ft, Name := name2 ++ str "." ++ sel, T := some ft,
              Type_ := env.nodeString (namelessType ft) })
      | none => .ok none
    | none => .ok none

/-- The method `Walker.lookupSelector`: the info and whether an error is
returned.  `fuel` bounds the depth of the recursion. -/
def lookupSelector (env : Env) (other : Expr → Int → Outcome StrErr) (w : Walker) :
    Nat → GoString → GoString → Outcome (Option TypeInfo × Bool)
  | 0, _, _ => .diverge
  | fuel + 1, name0, sel =>
    let name := trimLeftStar name0
    let pos := indexByte name 46
    if pos ≠ -1 then
      match findPackage w (name.take pos.toNat) with
      | some p =>
        match p.findType (name.drop (pos.toNat + 1)) with
        | some t =>
          (findStructFieldType env w fuel t sel).bind fun ft =>
            match ft with
            | some ft =>
              .ok (some { Kind := .KindField, X := some ft, Name := name ++ str "." ++ sel,
                          T := some ft,
                          Type_ := pkgRetType env p.name (env.nodeString (namelessType ft)) },
                false)
            | none => .ok (none, true)
        | none => .ok (none, true)
      | none => .ok (none, true)
    else
      match w.localvar.get name with
      | some lv => lookupSelector env other w fuel lv.T sel
      | none =>
        let vn := resolveName w name
        (if vn.2 ≥ 0 then
          Outcome.bind
            (match resolveNameType w.curPackage.varSpecs name with
              | some vt => Outcome.ok (env.nodeString (namelessType vt))
              | none =>
                (varValueType env other w fuel vn.1 vn.2).bind fun r => Outcome.ok r.s)
            (fun typ => lookupSelectorVar env w fuel name sel typ)
          else Outcome.ok none).bind fun r1 =>
        match r1 with
        | some info => .ok (some info, false)
        | none =>
          match (match findPackage w name with
                | some p =>
                  (p.findSelectorType sel).map fun typ =>
                    ({ Kind := .KindType, X := some typ, Name := name ++ str "." ++ sel,
                       T := some typ,
                       Type_ := pkgRetType env p.name (env.nodeString (namelessType typ)) } :
                      TypeInfo)
                | none => none) with
          | some info => .ok (some info, false)
          | none =>
            (match w.curPackage.findType name with
              | some t =>
                (findStructFieldType env w fuel t sel).bind fun ft =>
                  .ok (ft.map fun ft =>
                    ({ Kind := .KindField, X := some ft, Name := name ++ str "." ++ sel,
                       T := some ft, Type_ := env.nodeString (namelessType ft) } : TypeInfo))
              | none => .ok none).bind fun r2 =>
            match r2 with
            | some info => .ok (some info, false)
            | none =>
              match w.curPackage.types.get name with
              | some t => lookupSelector env other w fuel (env.nodeString t) sel
              | none => .ok (none, true)

/-- The case `*ast.Ident` of `lookupExpr`: the name, the info and whether an
error is returned. -/
def lookupExprIdent (w : Walker) (name : GoString) : GoString × Option TypeInfo × Bool :=
  match w.localvar.get name with
  | some typ =>
    (typ.T, some { Kind := .KindVar, X := some (.ident name), Name := name, T := some typ.X,
                   Type_ := typ.T }, false)
  | none =>
  match w.curPackage.interfaces.get name with
  | some typ =>
    (name, some { Kind := .KindInterface, X := some (.ident name), Name := name,
                  T := some (.interfaceType typ), Type_ := str "interface" }, false)
  | none =>
  match w.curPackage.structs.get name with
  | some typ =>
    (name, some { Kind := .KindStruct, X := some (.ident name), Name := name,
                  T := some (.structType typ), Type_ := str "struct" }, false)
  | none =>
  match w.curPackage.types.get name with
  | some typ =>
    (name, some { Kind := .KindType, X := some (.ident name), Name := name, T := some typ,
                  Type_ := name }, false)
  | none =>
  match w.curPackage.vars.get name with
  | some typ =>
    (name, some { Kind := .KindVar, X := some (.ident name), Name := name, T := some typ.X,
                  Type_ := typ.T }, false)
  | none =>
  match w.curPackage.consts.get name with
  | some typ =>
    (name, some { Kind := .KindConst, X := some (.ident name), Name := name, T := some typ.X,
                  Type_ := typ.T }, false)
  | none =>
  match w.curPackage.functions.get name with
  | some typ =>
    (name, some { Kind := .KindFunc, X := some typ.ft, Name := name, T := some typ.ft,
                  Type_ := typ.sig }, false)
  | none =>
  match findPackage w name with
  | some p =>
    (name, some { Kind := .KindImport, X := some (.ident name), Name := name, T := none,
                  Type_ := p.name }, false)
  | none =>
  if isBuiltinType name then
    (name, some { Kind := .KindBuiltin, X := none, Name := name, T := none, Type_ := [] }, false)
  else ([], none, true)

/-- The method `Walker.lookupExpr` for the cursor position `p`: the name, the
info and whether an error is returned.  `inRange` is `inRange(node, p)`; the
cases that are not embedded are the parameter `otherExpr`, and
`lookupFunction` is the method of that name.  A field read through an info
that is `nil` is a panic.  `fuel` bounds the depth of the recursion. -/
def lookupExpr (env : Env) (other : Expr → Int → Outcome StrErr)
    (otherExpr : Expr → Outcome (GoString × Option TypeInfo × Bool))
    (lookupFunction : GoString → GoString → Option TypeInfo × Bool)
    (inRange : Expr → Bool) (w : Walker) :
    Nat → Expr → Outcome (GoString × Option TypeInfo × Bool)
  | 0, _ => .diverge
  | fuel + 1, vi =>
    match vi with
    | .basicLit kind value => .ok (lookupExprBasicLit kind value)
    | .ident name => .ok (lookupExprIdent w name)
    | .star x =>
      (lookupExpr env other otherExpr lookupFunction inRange w fuel x).bind fun r =>
        if r.2.2 then .ok ([], none, true)
        else
          match r.2.1 with
          | none => .panic
          | some info =>
            .ok (str "*" ++ r.1,
              some { Kind := info.Kind, X := some (.star x), Name := str "*" ++ info.Name,
                     T := info.T, Type_ := str "*" ++ info.Type_ }, false)
    | .ellipsis none => .ok ([], none, true)
    | .ellipsis (some elt) =>
      (lookupExpr env other otherExpr lookupFunction inRange w fuel elt).bind fun r =>
        if r.2.2 then .ok ([], none, true)
        else
          match r.2.1 with
          | none => .panic
          | some info =>
            .ok (str "[]" ++ r.1,
              some { Kind := .KindArray, X := some elt, Name := str "..." ++ r.1,
                     T := info.T, Type_ := str "[]" ++ info.Type_ }, false)
    | .arrayType _ elt =>
      (lookupExpr env other otherExpr lookupFunction inRange w fuel elt).bind fun r =>
        if r.2.2 then .ok ([], none, true)
        else
          match r.2.1 with
          | none => .panic
          | some info =>
            .ok (str "[]" ++ r.1,
              some { Kind := .KindArray, X := none, Name := str "[]" ++ info.Name,
                     T := info.T, Type_ := str "[]" ++ info.Type_ }, false)
    | .paren x => lookupExpr env other otherExpr lookupFunction inRange w fuel x
    | .binary x _ y =>
      if inRange x then lookupExpr env other otherExpr lookupFunction inRange w fuel x
      else if inRange y then lookupExpr env other otherExpr lookupFunction inRange w fuel y
      else .ok ([], none, false)
    | .selector (.ident st) sel =>
      if inRange (.ident st) then
        lookupExpr env other otherExpr lookupFunction inRange w fuel (.ident st)
      else
        (lookupSelector env other w fuel st sel).bind fun r =>
          if r.2 then .ok ([], none, true) else .ok (st ++ str "." ++ sel, r.1, false)
    | .call (.selector (.ident st) sel) args =>
      match args.find? inRange with
      | some arg => lookupExpr env other otherExpr lookupFunction inRange w fuel arg
      | none =>
        if inRange (.ident st) then
          lookupExpr env other otherExpr lookupFunction inRange w fuel (.ident st)
        else
          (lookupExpr env other otherExpr lookupFunction inRange w fuel (.ident st)).bind fun r =>
            if r.2.2 then .ok ([], none, true)
            else
              match r.2.1 with
              | none => .panic
              | some info =>
                let typ := if info.Type_ = [] then r.1 else info.Type_
                let fname := typ ++ str "." ++ sel
                match w.curPackage.functions.get fname with
                | some fn =>
                  .ok (fname, some { Kind := .KindMethod, X := some (.ident st), Name := fname,
                                     T := some fn.ft,
                                     Type_ := env.nodeString (namelessType fn.ft) }, false)
                | none =>
                  let ie := lookupFunction (trimLeftStar typ) sel
                  if ie.2 then .ok ([], none, true) else .ok (fname, ie.1, false)
    | e => otherExpr e

/-- The method `Walker.lookupExprInfo`. -/
def lookupExprInfo (env : Env) (other : Expr → Int → Outcome StrErr)
    (otherExpr : Expr → Outcome (GoString × Option TypeInfo × Bool))
    (lookupFunction : GoString → GoString → Option TypeInfo × Bool)
    (inRange : Expr → Bool) (w : Walker) (fuel : Nat) (vi : Expr) :
    Outcome (Option TypeInfo × Bool) :=
  (lookupExpr env other otherExpr lookupFunction inRange w fuel vi).bind fun r => .ok r.2

/-- What `walkVar` does for one name whose type string is `typ`. -/
def walkVarIdent (env : Env) (w : Walker) (ident typ : GoString) : Walker :=
  let p := { w.curPackage with vars := w.curPackage.vars.put ident { T := typ, X := .ident ident } }
  let w := { w with curPackage := p }
  if env.isExtract ident then
    emitFeature w (str "var " ++ ident ++ str " " ++ typ) (env.pos (.ident ident))
  else w

/-- The loops `for n, ident := range vs.Names` of `walkVar` over the names
without a declared type: every name comes with its value and its index. -/
def walkVarValues (env : Env) (other : Expr → Int → Outcome StrErr) (fuel : Nat) :
    List (GoString × Expr × Int) → Walker → Outcome Walker
  | [], w => .ok w
  | (ident, value, n) :: rest, w =>
    (varValueType env other w fuel (some value) n).bind fun r =>
      walkVarValues env other fuel rest
        (walkVarIdent env w ident (if r.err then str "unknown-type" else r.s))

/-- The method `Walker.walkVar`. -/
def walkVar (env : Env) (other : Expr → Int → Outcome StrErr) (fuel : Nat) (w : Walker)
    (vs : ValueSpec) : Outcome Walker :=
  match vs.type with
  | some t => .ok (vs.names.foldl (fun w ident => walkVarIdent env w ident (env.nodeString t)) w)
  | none =>
    if vs.names.length = vs.values.length then
      walkVarValues env other fuel
        ((vs.names.zip vs.values).enum.map (fun nv => (nv.2.1, nv.2.2, (nv.1 : Int)))) w
    else
      match vs.values with
      | [v] =>
        walkVarValues env other fuel
          (vs.names.enum.map (fun nv => (nv.2, v, (nv.1 : Int)))) w
      | _ => .ok w

/-- The loop of `lookupVar` over the names of a declaration with a type: the
walker after it and the info that is returned, `none` when no name is under
the cursor. -/
def lookupVarTyped (inRange : Expr → Bool) (isLocal : Bool) (vtype : Expr) (typ : GoString) :
    List GoString → Walker → Walker × Option TypeInfo
  | [], w => (w, none)
  | ident :: rest, w =>
    let w := if isLocal then
      { w with localvar := w.localvar.put ident { T := typ, X := .ident ident } } else w
    if inRange (.ident ident) then
      (w, some { Kind := .KindVar, X := some (.ident ident), Name := ident, T := some vtype,
                 Type_ := typ })
    else lookupVarTyped inRange isLocal vtype typ rest w

/-- The loops of `lookupVar` over the names of a declaration without a type.
In the local case the type that is found is stored in `localvar`, and the
`typ` of the info stays empty, the inner `typ` being another variable. -/
def lookupVarValues (env : Env) (other : Expr → Int → Outcome StrErr) (inRange : Expr → Bool)
    (isLocal : Bool) (fuel : Nat) :
    List (GoString × Expr × Int) → Walker → Outcome (Walker × Option TypeInfo)
  | [], w => .ok (w, none)
  | (ident, value, n) :: rest, w =>
    (if isLocal then
        (varValueType env other w fuel (some value) n).bind fun r =>
          let lv : ExprType := { T := if r.err then str "unknown-type" else r.s, X := .ident ident }
          Outcome.ok (({ w with localvar := w.localvar.put ident lv } : Walker), ([] : GoString))
      else
        Outcome.ok (w, match w.curPackage.vars.get ident with
          | some t => t.T
          | none => [])).bind fun wt =>
    if inRange (.ident ident) then
      .ok (wt.1, some { Kind := .KindVar, X := some (.ident ident), Name := ident,
                        T := some (.ident ident), Type_ := wt.2 })
    else lookupVarValues env other inRange isLocal fuel rest wt.1

/-- The method `Walker.lookupVar`: the walker after the call, the info and
whether an error is returned. -/
def lookupVar (env : Env) (other : Expr → Int → Outcome StrErr)
    (otherExpr : Expr → Outcome (GoString × Option TypeInfo × Bool))
    (lookupFunction : GoString → GoString → Option TypeInfo × Bool)
    (inRange : Expr → Bool) (fuel : Nat) (w : Walker) (vs : ValueSpec) (isLocal : Bool) :
    Outcome (Walker × Option TypeInfo × Bool) :=
  match (match vs.type with
        | some t => if inRange t then some t else vs.values.find? inRange
        | none => vs.values.find? inRange) with
  | some e =>
    (lookupExprInfo env other otherExpr lookupFunction inRange w fuel e).bind fun r => .ok (w, r)
  | none =>
    match vs.type with
    | some t =>
      let r := lookupVarTyped inRange isLocal t (env.nodeString t) vs.names w
      .ok (r.1, r.2, r.2.isNone)
    | none =>
      if vs.names.length = vs.values.length then
        (lookupVarValues env other inRange isLocal fuel
          ((vs.names.zip vs.values).enum.map (fun nv => (nv.2.1, nv.2.2, (nv.1 : Int)))) w).bind
          fun r => .ok (r.1, r.2, r.2.isNone)
      else
        match vs.values with
        | [v] =>
          (lookupVarValues env other inRange isLocal fuel
            (vs.names.enum.map (fun nv => (nv.2, v, (nv.1 : Int)))) w).bind
            fun r => .ok (r.1, r.2, r.2.isNone)
        | _ => .ok (w, none, true)

/-- The Go type `ast.AssignStmt`; `define` is `v.Tok == token.DEFINE`. -/
structure AssignStmt where
  lhs : List Expr
  define : Bool
  rhs : List Expr

/-- The loops `for i := 0; i < len(v.Lhs); i++` of the case `*ast.AssignStmt`
of `lookupStmt`.  An item is the index and the node of the left-hand side, the
index and the node of the right-hand side, and the index given to
`varValueType`; `inLhs` and `inRhs` tell whether the cursor is in
`v.Lhs[i]` and in `v.Rhs[i]`.  The test of a function literal that follows
the two tests of the cursor is never true, and is left out. -/
def lookupStmtAssignLoop (env : Env) (other : Expr → Int → Outcome StrErr)
    (otherExpr : Expr → Outcome (GoString × Option TypeInfo × Bool))
    (lookupFunction : GoString → GoString → Option TypeInfo × Bool)
    (inRange : Expr → Bool) (inLhs inRhs : Nat → Bool) (define : Bool) (fuel : Nat) :
    List (Nat × Expr × Nat × Expr × Int) → Walker → Outcome (Walker × Option TypeInfo × Bool)
  | [], w => .ok (w, none, false)
  | (i, l, j, r, idx) :: rest, w =>
    (match l with
      | .ident name =>
        (varValueType env other w fuel (some r) idx).bind fun t =>
          let lv : ExprType := { T := t.s, X := .ident name }
          Outcome.ok (if !t.err && define then
            ({ w with localvar := w.localvar.put name lv } : Walker) else w)
      | _ => Outcome.ok w).bind fun w =>
    if inLhs i then
      (lookupExprInfo env other otherExpr lookupFunction inRange w fuel l).bind fun r =>
        .ok (w, r)
    else if inRhs j then
      (lookupExprInfo env other otherExpr lookupFunction inRange w fuel r).bind fun r =>
        .ok (w, r)
    else
      lookupStmtAssignLoop env other otherExpr lookupFunction inRange inLhs inRhs define fuel
        rest w

/-- The case `*ast.AssignStmt` of `Walker.lookupStmt`: the walker after the
call, the info and whether an error is returned. -/
def lookupStmtAssign (env : Env) (other : Expr → Int → Outcome StrErr)
    (otherExpr : Expr → Outcome (GoString × Option TypeInfo × Bool))
    (lookupFunction : GoString → GoString → Option TypeInfo × Bool)
    (inRange : Expr → Bool) (inLhs inRhs : Nat → Bool) (fuel : Nat) (w : Walker)
    (v : AssignStmt) : Outcome (Walker × Option TypeInfo × Bool) :=
  if v.lhs.length = v.rhs.length then
    lookupStmtAssignLoop env other otherExpr lookupFunction inRange inLhs inRhs v.define fuel
      ((v.lhs.zip v.rhs).enum.map (fun ilr => (ilr.1, ilr.2.1, ilr.1, ilr.2.2, 0))) w
  else
    match v.rhs with
    | [r] =>
      lookupStmtAssignLoop env other otherExpr lookupFunction inRange inLhs inRhs v.define fuel
        (v.lhs.enum.map (fun il => (il.1, il.2, 0, r, (il.1 : Int)))) w
    | _ => .ok (w, none, false)

/-- The fields of `ast.FuncDecl` that are read: the name, the type of the
first receiver `f.Recv.List[0].Type` when `f.Recv` is not `nil`, the function
type and the position; the names of that receiver; and the body `f.Body`, a
pointer that is `nil` for a declaration without a body and that is given by
the positions `Pos()` and `End()` of the block otherwise. -/
structure FuncDecl where
  name : GoString
  recv : Option Expr
  params : Option (List Field)
  results : Option (List Field)
  pos : Int
  recvNames : List GoString := []
  body : Option (Int × Int) := none

/-- The function `baseTypeName`. -/
def baseTypeName : Expr → GoString × Bool
  | .ident name => (name, false)
  | .selector (.ident _) sel => (sel, true)
  | .star x => baseTypeName x
  | _ => ([], false)

/-- The method `Walker.peekFuncDecl`. -/
def peekFuncDecl (env : Env) (w : Walker) (f : FuncDecl) : Walker :=
  match f.recv with
  | some rt =>
    let bt := baseTypeName rt
    if bt.2 then w
    else
      let fname := bt.1 ++ str "." ++ f.name
      let m : Method := { name := fname, sig := funcSigString env.nodeString f.params f.results,
                          params := f.params, results := f.results, pos := f.pos,
                          recv := some rt }
      let p := { w.curPackage with functions := w.curPackage.functions.put fname m }
      { w with curPackage := p }
  | none =>
    let m : Method := { name := f.name, sig := funcSigString env.nodeString f.params f.results,
                        params := f.params, results := f.results, pos := f.pos, recv := none }
    let p := { w.curPackage with functions := w.curPackage.functions.put f.name m }
    { w with curPackage := p }

/-- The function `path.Base` of the Go library. -/
def pathBase (path : GoString) : GoString :=
  if path = [] then str "."
  else
    let path := (path.reverse.dropWhile (fun c => decide (c = 47))).reverse
    let i := lastIndexByte path 47
    let path := if i ≥ 0 then path.drop (i.toNat + 1) else path
    if path = [] then str "/" else path

/-- What `strconv.Unquote` gives for a string literal in double quotes that
has no backslash in it; `none` is an error. -/
def unquotePlain (s : GoString) : Option GoString :=
  match s with
  | 34 :: rest =>
    if rest.getLast? = some 34 ∧ 34 ∉ rest.dropLast ∧ 92 ∉ rest ∧ 10 ∉ rest then
      some rest.dropLast
    else none
  | _ => none

/-- The case `token.IMPORT` of `Walker.lookupDecl`, with the `return` that
ends the method when no import is under the cursor: the info and whether an
error is returned.  `unquote` is `strconv.Unquote` and `inRange` is
`inRange(sp, p)`. -/
def lookupDeclImport (unquote : GoString → Option GoString) (inRange : ImportSpec → Bool) :
    List ImportSpec → Option TypeInfo × Bool
  | [] => (none, true)
  | spec :: rest =>
    match unquote spec.path with
    | none => (none, true)
    | some fpath =>
      let name := match spec.name with
        | some n => n
        | none => pathBase fpath
      if inRange spec then
        (some { Kind := .KindImport, X := spec.name.map Expr.ident, Name := name,
                T := spec.name.map Expr.ident, Type_ := fpath }, false)
      else lookupDeclImport unquote inRange rest

/-- The loop of `WalkPackageDir` over `v.Imports` that follows `lookupFile`,
for the info that `lookupFile` has returned. -/
def importFixup (unquote : GoString → Option GoString) (imports : List ImportSpec)
    (info : TypeInfo) : TypeInfo :=
  if info.Kind = .KindImport then
    imports.foldl (fun info spec =>
      match unquote spec.path with
      | some fpath =>
        if info.Name = pathBase fpath then
          { info with T := some (.basicLit .STRING spec.path) }
        else info
      | none => info) info
  else info

/-- The function `osArchName`. -/
def osArchName (c : Context) : GoString := c.GOOS ++ str "-" ++ c.GOARCH

/-- The name `curName` under which `WalkPackageDir` stores the package `name`
that it walks in the context `c`: `isCgo` tells whether the package has cgo
files, and `isOSArch` whether `isOSArchFile` holds of one of its files. -/
def curName (w : Walker) (c : Context) (name : GoString) (isCgo isOSArch : Bool) : GoString :=
  if w.ctxName ≠ [] then
    if isCgo && c.CgoEnabled then w.ctxName ++ name
    else if isOSArch then osArchName c ++ str ":" ++ name
    else name
  else name

/-- The method `Walker.noteInterface`. -/
def noteInterface (w : Walker) (name : GoString) (it : List Field) : Walker :=
  { w with interfaces :=
      if w.interfaces.any (fun e => decide (e.1 = (w.curPackageName, name))) then
        w.interfaces.map (fun e =>
          if e.1 = (w.curPackageName, name) then ((w.curPackageName, name), it) else e)
      else w.interfaces ++ [((w.curPackageName, name), it)] }

/-- What `recordTypes` does for the declaration of the interface type `name`. -/
def recordInterface (env : Env) (w : Walker) (name : GoString) (it : List Field) : Walker :=
  let w := if env.isExtract name then noteInterface w name it else w
  let p := { w.curPackage with interfaces := w.curPackage.interfaces.put name it }
  { w with curPackage := p }

/-- What `walkFile` does for an import: the entry of `selectorFullPkg`. -/
def walkFileImport (unquote : GoString → Option GoString) (w : Walker) (spec : ImportSpec) :
    Walker :=
  let fpath := (unquote spec.path).getD []
  let name := match spec.name with
    | some n => n
    | none => pathBase fpath
  { w with selectorFullPkg := w.selectorFullPkg.put name fpath }

/-! ## Examples of cursor resolution -/

/-- A string literal: the text between double quotes. -/
def quoted (s : GoString) : GoString := 34 :: s ++ [34]

/-- The walker at the start of the package `p`, with the tables of the
package empty. -/
def emptyWalker : Walker :=
  { scope := [str "pkg p"], sep := str ", ",
    curPackage := { name := str "p", sep := str ", ", features := [] },
    wantedPkg := [str "p"], curPackageName := str "p" }

/-- The walker of the package `p` that declares `type T struct{ X int }` and,
when `global` holds, `var v T`. -/
def structWalker (global : Bool) : Walker :=
  { scope := [str "pkg p"], sep := str ", ",
    curPackage := { name := str "p", sep := str ", ", features := [],
                    structs := [(str "T", [.mk [str "X"] (.ident (str "int"))])],
                    varSpecs := if global then
                      [{ names := [str "v"], type := some (.ident (str "T")), values := [] }]
                      else [] },
    wantedPkg := [str "p"], curPackageName := str "p" }

/-- The walker after the package `q`, which declares
`type J interface{ Read() }`, and then the package `p`, which imports `q` and
declares `type I interface{ q.J }`, have been recorded in the context
`linux-amd64`; `ctxName` is the field of that name, and `isOSArch` tells
whether `q` has a file for one system only. -/
def embeddingWalker (ctxName : GoString) (isOSArch : Bool) : Walker :=
  let c : Context := { GOOS := str "linux", GOARCH := str "amd64", CgoEnabled := false }
  let w : Walker := { emptyWalker with ctxName := ctxName }
  let w := { w with curPackageName := curName w c (str "q") false isOSArch }
  let w := recordInterface exampleEnv w (str "J") [.mk [str "Read"] (.funcType (some []) none)]
  let w := { w with curPackageName := curName w c (str "p") false false }
  let w := recordInterface exampleEnv w (str "I") [.mk [] (.selector (.ident (str "q")) (str "J"))]
  walkFileImport unquotePlain w { name := none, path := quoted (str "q") }

/-! ## Loading packages -/

/-- The fields of `build.Package` that the loader reads. -/
structure BuildPackage where
  Name : GoString
  Dir : GoString
  GoFiles : List GoString
  CgoFiles : List GoString := []
  TestGoFiles : List GoString := []
  XTestGoFiles : List GoString := []

/-- What the loader takes from outside the file: the flag `*dep_parser`; the
build context `w.context` with `ImportDir` (`none` for a `nil` package) and
`Import` in the mode `FindOnly` (the directory, `none` for an error); the
test `build.IsLocalImport` with the package that the local branch of
`WalkPackage` finds (`none` when it returns before), and the test
`filepath.IsAbs` with the package of the absolute branch; the function
`isOSArchFile`; `parser.ParseFile` for a directory and a file, `useSrc`
telling whether the source of the cursor is given to it, with the file that
it returns (`none` for `nil`) and whether it returns an error;
`strconv.Unquote`; and `walkDecls`, the part of `WalkPackageDir` that walks
the declarations of the files, from `recordTypes` to the end. -/
structure World where
  depParser : Bool
  context : Context
  importDir : GoString → Option BuildPackage
  findDir : GoString → Option GoString
  isLocalImport : GoString → Bool
  localPackage : GoString → Option BuildPackage
  isAbs : GoString → Bool
  absPackage : GoString → BuildPackage
  isOSArchFile : GoString → Bool
  parseFile : (useSrc : Bool) → GoString → GoString → Option File × Bool
  unquote : GoString → Option GoString
  walkDecls : Walker → Outcome Walker

/-- The function `fileDeps`. -/
def fileDeps (unquote : GoString → Option GoString) (f : File) : List GoString :=
  (f.imports.map (fun spec => (unquote spec.path).getD [])).filter
    (fun fpkg => decide (fpkg ≠ str "C"))

/-- The method `Walker.findPackageOSArch`. -/
def findPackageOSArch (w : Walker) (c : Context) (pkg : GoString) : Option Package :=
  match w.selectorFullPkg.get pkg with
  | some full => w.packageMap.get (osArchName c ++ str ":" ++ full)
  | none => none

/-- The statement `w.packageState[k] = s`. -/
def setPackageState (w : Walker) (k : GoString) (s : LoadState) : Walker :=
  { w with packageState := w.packageState.put k s }

/-- The loop `for _, dep := range deps` that walks the packages that are not
yet in `packageState`; `walkPackage` is the method `WalkPackage`. -/
def walkDeps (walkPackage : Walker → GoString → Outcome Walker) :
    List GoString → Walker → Outcome Walker
  | [], w => .ok w
  | dep :: rest, w =>
    if w.packageState.has dep then walkDeps walkPackage rest w
    else (walkPackage w dep).bind (walkDeps walkPackage rest)

/-- The loop `for _, file := range files` of `WalkPackageDir`: the walker, the
map `apkg.Files` and the variable `deps` after it.  The call `f.Name.Name` on
a file that is `nil` is a panic. -/
def walkFiles (world : World) (walkPackage : Walker → GoString → Outcome Walker)
    (name sname dir : GoString) :
    List GoString → Walker × GoMap File × List GoString →
      Outcome (Walker × GoMap File × List GoString)
  | [], st => .ok st
  | file :: rest, (w, files, deps) =>
    match (world.parseFile
        (match w.cursorInfo with
          | some ci => decide (ci.pkg = name) && decide (ci.file = file) && ci.std
          | none => false)
        dir file).1 with
    | none => .panic
    | some f =>
      if sname ≠ f.name then walkFiles world walkPackage name sname dir rest (w, files, deps)
      else if world.depParser then
        (walkDeps walkPackage (fileDeps world.unquote f) w).bind fun w =>
          walkFiles world walkPackage name sname dir rest
            (w, files.put file f, fileDeps world.unquote f)
      else walkFiles world walkPackage name sname dir rest (w, files.put file f, deps)

/-- A call of the loader: `WalkPackage(pkg)` or `WalkPackageDir(name, dir, bp)`. -/
inductive WalkCall where
  | package (pkg : GoString)
  | packageDir (name dir : GoString) (bp : Option BuildPackage)

/-- The part of `WalkPackageDir` from the loop over the files to the end, for
the files `files` and the name `cur`; `ctxName` is not yet set to `loaded` in
the result.  Of the walk of the declarations the result keeps what that walk
writes: the tables of the current package, which is also the package stored
in `packageMap`, and the fields of the walker other than the scope, which it
restores, and `packageState`, `packageMap`, `ctxName`, `curPackageName`,
`wantedPkg` and `sep`, which it does not write. -/
def walkPackageFiles (world : World) (walkPackage : Walker → GoString → Outcome Walker)
    (name dir ctxName cur : GoString) (files : List GoString) (w : Walker) :
    Outcome Walker :=
  if files.length = 0 then .ok w
  else
    (walkFiles world walkPackage name (name.drop (lastIndexByte name 47 + 1).toNat) dir files
      (w, [], [])).bind fun st =>
    let w := st.1
    let w := if cur ≠ ctxName then setPackageState w cur .loading else w
    let scope := w.scope
    let w := pushScope w (str "pkg " ++ name)
    let p : Package := { name := name, sep := w.sep, features := [], deps := st.2.2,
                         files := st.2.1, dir := dir }
    let w := { w with curPackageName := cur, constDep := [], curPackage := p }
    let w := { w with packageMap := (w.packageMap.put cur p).put ctxName p }
    (world.walkDecls w).bind fun w2 =>
      let p2 : Package := { w2.curPackage with name := name, deps := st.2.2, files := st.2.1,
                                               dir := dir }
      let w3 : Walker := { w2 with
        scope := scope, curPackage := p2, curPackageName := cur, ctxName := w.ctxName,
        wantedPkg := w.wantedPkg, sep := w.sep, packageState := w.packageState,
        packageMap := (w.packageMap.put cur p2).put ctxName p2 }
      .ok (if cur ≠ ctxName then setPackageState w3 cur .loaded else w3)

/-- The body of `WalkPackage`; `walkDir` is the method `WalkPackageDir`. -/
def walkPackageBody (world : World)
    (walkDir : Walker → GoString → GoString → Option BuildPackage → Outcome Walker)
    (w : Walker) (pkg : GoString) : Outcome Walker :=
  if world.isLocalImport pkg then
    match world.localPackage pkg with
    | none => .ok w
    | some bp =>
      let w := if pkg ∈ w.wantedPkg then
        { w with wantedPkg := setDelete (w.wantedPkg ++ [bp.Name]).dedup pkg } else w
      let w := { w with cursorInfo := w.cursorInfo.map fun ci =>
        if ci.pkg = pkg then { ci with pkg := bp.Name } else ci }
      walkDir w bp.Name bp.Dir (some bp)
  else if world.isAbs pkg then
    let bp := world.absPackage pkg
    let w := if pkg ∈ w.wantedPkg then
      { w with wantedPkg := setDelete (w.wantedPkg ++ [bp.Name]).dedup pkg } else w
    let w := { w with cursorInfo := w.cursorInfo.map fun ci =>
      if ci.pkg = pkg then { ci with pkg := bp.Name } else ci }
    walkDir w bp.Name bp.Dir (some bp)
  else
    match world.findDir pkg with
    | none => .ok w
    | some dir => walkDir w pkg dir none

/-- The part of `WalkPackageDir` that follows the two assignments at its
start, before the deferred `w.packageState[ctxName] = loaded`. -/
def walkDirLoad (world : World) (walkPackage : Walker → GoString → Outcome Walker)
    (walkDir : Walker → GoString → GoString → Option BuildPackage → Outcome Walker)
    (w : Walker) (name dir : GoString) (bp0 : Option BuildPackage) : Outcome Walker :=
  match (match bp0 with
        | some bp => some bp
        | none => world.importDir dir) with
  | none => .ok w
  | some bp =>
    let hasCgo := decide (bp.CgoFiles.length > 0)
    let isOSArch := bp.GoFiles.any world.isOSArchFile
    match (if w.ctxName ≠ [] ∧ (hasCgo && world.context.CgoEnabled) = false then
            if isOSArch then findPackageOSArch w world.context name
            else findPackage w name
          else none) with
    | some p =>
      (if world.depParser then walkDeps walkPackage p.deps w else Outcome.ok w).bind fun w =>
        .ok { w with packageMap := w.packageMap.put (w.ctxName ++ name) p }
    | none =>
      (match w.cursorInfo with
        | some ci =>
          if ci.pkg = name then
            if ci.file ∈ bp.XTestGoFiles then
              (walkDir { w with cursorInfo := some { ci with pkg := name ++ str "_test" } }
                (name ++ str "_test") dir
                (some { Name := name ++ str "_test", Dir := [],
                        GoFiles := bp.XTestGoFiles })).bind fun w =>
                Outcome.ok (w, bp.GoFiles ++ bp.CgoFiles ++ bp.TestGoFiles)
            else Outcome.ok (w, bp.GoFiles ++ bp.CgoFiles ++ bp.TestGoFiles)
          else Outcome.ok (w, bp.GoFiles ++ bp.CgoFiles)
        | none => Outcome.ok (w, bp.GoFiles ++ bp.CgoFiles)).bind fun wf =>
      walkPackageFiles world walkPackage name dir (wf.1.ctxName ++ name)
        (curName wf.1 world.context name hasCgo isOSArch) wf.2 wf.1

/-- The body of `WalkPackageDir`. -/
def walkDirBody (world : World) (walkPackage : Walker → GoString → Outcome Walker)
    (walkDir : Walker → GoString → GoString → Option BuildPackage → Outcome Walker)
    (w : Walker) (name dir : GoString) (bp0 : Option BuildPackage) : Outcome Walker :=
  if w.packageState.get (w.ctxName ++ name) = some .loading ∨
      w.packageState.get (w.ctxName ++ name) = some .loaded then .ok w
  else
    (walkDirLoad world walkPackage walkDir
      { setPackageState w (w.ctxName ++ name) .loading with
        selectorFullPkg := w.selectorFullPkg.put name name }
      name dir bp0).bind fun w1 =>
    .ok (setPackageState w1 (w.ctxName ++ name) .loaded)

/-- The methods `Walker.WalkPackage` and `Walker.WalkPackageDir`; `fuel`
bounds the depth of the calls. -/
def walk (world : World) : Nat → Walker → WalkCall → Outcome Walker
  | 0, _, _ => .diverge
  | fuel + 1, w, .package pkg =>
    walkPackageBody world (fun w n d b => walk world fuel w (.packageDir n d b)) w pkg
  | fuel + 1, w, .packageDir name dir bp =>
    walkDirBody world (fun w p => walk world fuel w (.package p))
      (fun w n d b => walk world fuel w (.packageDir n d b)) w name dir bp

/-- The method `Walker.WalkPackage`. -/
def WalkPackage (world : World) (fuel : Nat) (w : Walker) (pkg : GoString) : Outcome Walker :=
  walk world fuel w (.package pkg)

/-- The method `Walker.WalkPackageDir`. -/
def WalkPackageDir (world : World) (fuel : Nat) (w : Walker) (name dir : GoString)
    (bp : Option BuildPackage) : Outcome Walker :=
  walk world fuel w (.packageDir name dir bp)

/-! ## Build contexts from the command line -/

/-- The call `strings.Split(s, sep)` for a separator of one byte `b`. -/
def splitByte (b : Nat) : GoString → List GoString
  | [] => [[]]
  | c :: rest =>
    if c = b then [] :: splitByte b rest
    else
      match splitByte b rest with
      | [] => [[c]]
      | p :: ps => (c :: p) :: ps

/-- The function `parseContext`; `none` is the `nil` that it returns.  The
block for a third part `cgo` is empty in the source: the assignment
`bc.CgoEnabled = true` is a comment. -/
def parseContext (c : GoString) : Option Context :=
  match splitByte 45 c with
  | p0 :: p1 :: _ => some { GOOS := p0, GOARCH := p1, CgoEnabled := false }
  | _ => none

/-! ## Absent nodes -/

/-- An argument of `inRange`, a value of the interface `ast.Node`: the `nil`
interface, or a pointer to a node.  A field such as `v.Label` or `d.Body`,
whose type is a pointer type, gives a pointer also when it is `nil`, and that
interface value is not `nil`.  A node is given by its positions `Pos()` and
`End()`. -/
inductive NodeArg where
  | nilInterface
  | pointer (node : Option (Int × Int))

/-- The function `inRange`.  The calls `node.Pos()` and `node.End()` on a
`nil` pointer read a field of the node, which is a panic. -/
def inRange (node : NodeArg) (p : Int) : Outcome Bool :=
  match node with
  | .nilInterface => .ok false
  | .pointer none => .panic
  | .pointer (some pe) => .ok (decide (p ≥ pe.1 ∧ p ≤ pe.2))

/-- The case `*ast.BranchStmt` of `lookupStmt`, with the `return nil, nil`
that ends the method: the label `v.Label` is `nil` or a name with its
positions. -/
def lookupStmtBranch (label : Option (GoString × Int × Int)) (p : Int) :
    Outcome (Option TypeInfo × Bool) :=
  (inRange (.pointer (label.map fun l => l.2)) p).bind fun b =>
    match (if b then label else none) with
    | some l =>
      .ok (some { Kind := .KindBuiltin, X := none, Name := l.1, T := none,
                  Type_ := str "string" }, false)
    | none => .ok (none, false)

/-- The loop over the names of a parameter or result of the case
`*ast.FuncDecl` of `lookupDecl`; for a parameter, `check` holds, and the name
under the cursor is looked up.  The second part of the result is what the
method returns, `none` when the loop ends without a `return`. -/
def lookupDeclNames (env : Env) (other : Expr → Int → Outcome StrErr)
    (otherExpr : Expr → Outcome (GoString × Option TypeInfo × Bool))
    (lookupFunction : GoString → GoString → Option TypeInfo × Bool)
    (inRangeE : Expr → Bool) (check : Bool) (fuel : Nat) (typ : Expr) :
    List GoString → Walker → Outcome (Walker × Option (Option TypeInfo × Bool))
  | [], w => .ok (w, none)
  | ident :: rest, w =>
    (if check && inRangeE (.ident ident) then
        (lookupExprInfo env other otherExpr lookupFunction inRangeE w fuel typ).bind fun r =>
          if r.2 then Outcome.ok none
          else
            match r.1 with
            | none => Outcome.panic
            | some info =>
              Outcome.ok (some
                (some ({ Kind := .KindParam, X := some (.ident ident), Name := ident,
                         T := info.T, Type_ := info.Type_ } : TypeInfo), false))
      else Outcome.ok none).bind fun ret =>
    match ret with
    | some r => .ok (w, some r)
    | none =>
      (varValueType env other w fuel (some typ) 0).bind fun t =>
        let lv : ExprType := { T := t.s, X := .ident ident }
        lookupDeclNames env other otherExpr lookupFunction inRangeE check fuel typ rest
          (if t.err then w else { w with localvar := w.localvar.put ident lv })

/-- The loop over the parameters or the results of the case `*ast.FuncDecl`
of `lookupDecl`; `inField` is `inRange(fd, p)`. -/
def lookupDeclFields (env : Env) (other : Expr → Int → Outcome StrErr)
    (otherExpr : Expr → Outcome (GoString × Option TypeInfo × Bool))
    (lookupFunction : GoString → GoString → Option TypeInfo × Bool)
    (inRangeE : Expr → Bool) (inField : Field → Bool) (check : Bool) (fuel : Nat) :
    List Field → Walker → Outcome (Walker × Option (Option TypeInfo × Bool))
  | [], w => .ok (w, none)
  | fd :: rest, w =>
    if inField fd then
      (lookupExprInfo env other otherExpr lookupFunction inRangeE w fuel fd.type).bind fun r =>
        .ok (w, some r)
    else
      (lookupDeclNames env other otherExpr lookupFunction inRangeE check fuel fd.type
        fd.names w).bind fun wr =>
      match wr.2 with
      | some r => .ok (wr.1, some r)
      | none =>
        lookupDeclFields env other otherExpr lookupFunction inRangeE inField check fuel rest
          wr.1

/-- The case `*ast.FuncDecl` of `Walker.lookupDecl` for the cursor position
`p`: the walker after the call, the info and whether an error is returned.
`inRangeE` and `inField` are `inRange` on expressions and on fields, and
`lookupBody` is `lookupStmt` on the body. -/
def lookupDeclFunc (env : Env) (other : Expr → Int → Outcome StrErr)
    (otherExpr : Expr → Outcome (GoString × Option TypeInfo × Bool))
    (lookupFunction : GoString → GoString → Option TypeInfo × Bool)
    (inRangeE : Expr → Bool) (inField : Field → Bool)
    (lookupBody : Walker → Outcome (Walker × Option TypeInfo × Bool))
    (fuel : Nat) (w : Walker) (d : FuncDecl) (p : Int) :
    Outcome (Walker × Option TypeInfo × Bool) :=
  (lookupDeclFields env other otherExpr lookupFunction inRangeE inField true fuel
    (d.params.getD []) w).bind fun wr =>
  match wr.2 with
  | some r => .ok (wr.1, r)
  | none =>
    (lookupDeclFields env other otherExpr lookupFunction inRangeE inField false fuel
      (d.results.getD []) wr.1).bind fun wr =>
    match wr.2 with
    | some r => .ok (wr.1, r)
    | none =>
      (match d.recv with
        | some rt =>
          if inField (.mk d.recvNames rt) then
            (lookupExprInfo env other otherExpr lookupFunction inRangeE wr.1 fuel rt).bind
              fun r => Outcome.ok (wr.1, some r)
          else
            Outcome.ok
              (d.recvNames.foldl (fun (w : Walker) ident =>
                  let lv : ExprType := { T := env.nodeString rt, X := .ident ident }
                  { w with localvar := w.localvar.put ident lv }) wr.1,
                none)
        | none => Outcome.ok (wr.1, none)).bind fun wr =>
      match wr.2 with
      | some r => .ok (wr.1, r)
      | none =>
        (inRange (.pointer d.body) p).bind fun b =>
          if b then lookupBody wr.1
          else
            match d.recv with
            | some rt =>
              if (baseTypeName rt).2 then .ok (wr.1, none, false)
              else
                .ok (wr.1,
                  some { Kind := .KindMethod, X := some (.ident d.name),
                         Name := (baseTypeName rt).1 ++ str "." ++ d.name,
                         T := some (.funcType d.params d.results),
                         Type_ := env.nodeString (namelessType (.funcType d.params d.results)) },
                  false)
            | none =>
              .ok (wr.1,
                some { Kind := .KindFunc, X := some (.ident d.name), Name := d.name,
                       T := some (.funcType d.params d.results),
                       Type_ := env.nodeString (namelessType (.funcType d.params d.results)) },
                false)

/-! ## Function types in `lookupExpr` -/

/-- The loop over the names of a field of the case `*ast.FuncType` of
`lookupExpr`. -/
def lookupExprFuncNames (env : Env) (other : Expr → Int → Outcome StrErr) (fuel : Nat)
    (typ : Expr) : List GoString → Walker → Outcome Walker
  | [], w => .ok w
  | ident :: rest, w =>
    (varValueType env other w fuel (some typ) 0).bind fun t =>
      let lv : ExprType := { T := t.s, X := .ident ident }
      lookupExprFuncNames env other fuel typ rest
        (if t.err then w else { w with localvar := w.localvar.put ident lv })

/-- The loop over the parameters or the results of the case `*ast.FuncType`
of `lookupExpr`; `sub` is `lookupExpr` itself and `inField` is
`inRange(fd, p)`. -/
def lookupExprFuncFields (env : Env) (other : Expr → Int → Outcome StrErr)
    (sub : Walker → Expr → Outcome (GoString × Option TypeInfo × Bool))
    (inField : Field → Bool) (fuel : Nat) :
    List Field → Walker → Outcome (Walker × Option (GoString × Option TypeInfo × Bool))
  | [], w => .ok (w, none)
  | fd :: rest, w =>
    if inField fd then (sub w fd.type).bind fun r => .ok (w, some r)
    else
      (lookupExprFuncNames env other fuel fd.type fd.names w).bind fun w =>
        lookupExprFuncFields env other sub inField fuel rest w

/-- The case `*ast.FuncType` of `lookupExpr`: the walker after it, with the
bindings of the names, and what is returned. -/
def lookupExprFuncType (env : Env) (other : Expr → Int → Outcome StrErr)
    (sub : Walker → Expr → Outcome (GoString × Option TypeInfo × Bool))
    (inField : Field → Bool) (fuel : Nat) (w : Walker) (params results : Option (List Field)) :
    Outcome (Walker × GoString × Option TypeInfo × Bool) :=
  (lookupExprFuncFields env other sub inField fuel (params.getD []) w).bind fun wr =>
  match wr.2 with
  | some r => .ok (wr.1, r)
  | none =>
    (lookupExprFuncFields env other sub inField fuel (results.getD []) wr.1).bind fun wr =>
    match wr.2 with
    | some r => .ok (wr.1, r)
    | none => .ok (wr.1, [], none, false)

/-! ## `varSelectorType` -/

/-- The block `if n >= 0 { ... }` of `varSelectorType`, for the type string
`typ0` of the variable: the type that the block returns, `none` when it falls
through. -/
def varSelectorVar (env : Env) (w : Walker) (fuel : Nat) (sel typ0 : GoString) :
    Outcome (Option GoString) :=
  let typ := stripStar typ0
  let typ := w.curPackage.types.foldl
    (fun typ kv => if kv.1 = typ then env.nodeString (namelessType kv.2) else typ) typ
  let pos := indexByte typ 46
  if pos = -1 then
    match w.curPackage.findType typ with
    | some t =>
      (findStructFieldType env w fuel t sel).bind fun ft =>
        .ok (ft.map fun ft => env.nodeString (namelessType ft))
    | none => .ok none
  else
    match findPackage w (typ.take pos.toNat) with
    | some p =>
      match p.findType (typ.drop (pos.toNat + 1)) with
      | some t =>
        (findStructFieldType env w fuel t sel).bind fun ft =>
          .ok (ft.map fun ft => env.nodeString (namelessType ft))
      | none => .ok none
    | none => .ok none

/-- The method `Walker.varSelectorType`; `fuel` bounds the depth of the
recursion. -/
def varSelectorType (env : Env) (other : Expr → Int → Outcome StrErr) (w : Walker) :
    Nat → GoString → GoString → Outcome StrErr
  | 0, _, _ => .diverge
  | fuel + 1, name0, sel =>
    let name := trimLeftStar name0
    let pos := indexByte name 46
    if pos ≠ -1 then
      match findPackage w (name.take pos.toNat) with
      | some p =>
        match p.findType (name.drop (pos.toNat + 1)) with
        | some t =>
          (findStructFieldType env w fuel t sel).bind fun ft =>
            match ft with
            | some ft =>
              .ok ⟨pkgRetType env (name.take pos.toNat) (env.nodeString (namelessType ft)),
                false⟩
            | none => .ok ⟨[], true⟩
        | none => .ok ⟨[], true⟩
      | none => .ok ⟨[], true⟩
    else
      match w.localvar.get name with
      | some lv => varSelectorType env other w fuel lv.T sel
      | none =>
        (match w.curPackage.findType name with
          | some t =>
            (findStructFieldType env w fuel t sel).bind fun ft =>
              Outcome.ok (ft.map fun ft => env.nodeString (namelessType ft))
          | none => Outcome.ok none).bind fun r0 =>
        match r0 with
        | some typ => .ok ⟨typ, false⟩
        | none =>
          (if (resolveName w name).2 ≥ 0 then
            Outcome.bind
              (match resolveNameType w.curPackage.varSpecs name with
                | some vt => Outcome.ok (env.nodeString (namelessType vt))
                | none =>
                  (varValueType env other w fuel (resolveName w name).1
                    (resolveName w name).2).bind fun r => Outcome.ok r.s)
              (fun typ => varSelectorVar env w fuel sel typ)
            else Outcome.ok none).bind fun r1 =>
          match r1 with
          | some typ => .ok ⟨typ, false⟩
          | none =>
            match findPackage w name with
            | some p =>
              match p.findSelectorType sel with
              | some typ =>
                .ok ⟨pkgRetType env p.name (env.nodeString (namelessType typ)), false⟩
              | none => .ok ⟨[], true⟩
            | none => .ok ⟨[], true⟩

/-! ## An example of a package with two files -/

/-- A world in which the package `p` of the directory `/p` has the files
`a.go`, which imports `fmt`, and `b.go`: the parser gives `bFile`, with an
error when `bErr` holds, for `b.go`.  No other package is found, and the walk
of the declarations changes nothing. -/
def twoFileWorld (bFile : Option File) (bErr : Bool) : World :=
  { depParser := true,
    context := { GOOS := str "linux", GOARCH := str "amd64", CgoEnabled := false },
    importDir := fun dir =>
      if dir = str "/p" then
        some { Name := str "p", Dir := str "/p", GoFiles := [str "a.go", str "b.go"] }
      else none,
    findDir := fun _ => none,
    isLocalImport := fun _ => false,
    localPackage := fun _ => none,
    isAbs := fun _ => false,
    absPackage := fun _ => { Name := [], Dir := [], GoFiles := [] },
    isOSArchFile := fun _ => false,
    parseFile := fun _ _ file =>
      if file = str "a.go" then
        (some { name := str "p", imports := [{ name := none, path := quoted (str "fmt") }] },
          false)
      else (bFile, bErr),
    unquote := unquotePlain,
    walkDecls := fun w => .ok w }

/-- The walker of the package `p` that declares `var m = []T{}`. -/
def sliceVarWalker : Walker :=
  { scope := [str "pkg p"], sep := str ", ",
    curPackage := { name := str "p", sep := str ", ", features := [],
                    varSpecs := [{ names := [str "m"], type := none,
                                   values := [.compositeLit
                                     (some (.arrayType none (.ident (str "T")))) []] }] },
    wantedPkg := [str "p"], curPackageName := str "p" }

/-! ## What the loader keeps -/

/-- What a call of the loader keeps: the field `ctxName`, and the packages
that are `loaded`. -/
def Grows (w w1 : Walker) : Prop :=
  w1.ctxName = w.ctxName ∧
    ∀ k, w.packageState.get k = some .loaded → w1.packageState.get k = some .loaded

/-! ## Further examples -/

/-- The walker of `package p; type T int8; const x T = 1`, at a later constant. -/
def namedConstWalker : Walker :=
  { scope := [str "pkg p"], sep := str ", ",
    curPackage := { name := str "p", sep := str ", ", features := [],
                    types := [(str "T", .ident (str "int8"))],
                    consts := [(str "x", { X := .ident (str "x"), T := str "T" })] },
    wantedPkg := [str "p"] }

/-- The walker of `package p; type inner interface{ M() }; type N interface{ inner }`
after `recordTypes`, before the interface types are walked. -/
def embedsUnexportedWalker : Walker :=
  recordInterface exampleEnv
    (recordInterface exampleEnv emptyWalker (str "inner")
      [.mk [str "M"] (.funcType (some []) none)])
    (str "N") [.mk [] (.ident (str "inner"))]

/-- The walker of `package p; type Inner interface{ M() }; type N interface{ Inner }`
after `recordTypes`, before the interface types are walked. -/
def embedsExportedWalker : Walker :=
  recordInterface exampleEnv
    (recordInterface exampleEnv emptyWalker (str "Inner")
      [.mk [str "M"] (.funcType (some []) none)])
    (str "N") [.mk [] (.ident (str "Inner"))]

/-! ## The loop over the build contexts in `GoApi` -/

/-- The walker that `GoApi` starts from: the one that `NewWalker` returns, with
`w.sep = *separate` and the packages `pkgs` marked as wanted.  The current
package, `nil` in the source, is a package without a name or a feature. -/
def newWalker (sep : GoString) (pkgs : List GoString) : Walker :=
  { scope := [], sep := sep, curPackage := { name := [], sep := [], features := [] },
    wantedPkg := set pkgs }

/-- The loop `for _, pkg := range pkgs { w.WalkPackage(pkg) }` of `GoApi`. -/
def walkPackages (world : World) (fuel : Nat) : List GoString → Walker → Outcome Walker
  | [], w => .ok w
  | pkg :: rest, w => (WalkPackage world fuel w pkg).bind (walkPackages world fuel rest)

/-- The loop `for _, context := range contexts` of `GoApi` in a run without a
cursor (`w.cursorInfo` is `nil`, and the `goto lookup` is not taken).  Each
element of `worlds` is a context of the run, `world.context`, with what the
loader takes from outside the file in that context. -/
def walkContexts (fuel : Nat) (pkgs : List GoString) : List World → Walker → Outcome Walker
  | [], w => .ok w
  | world :: rest, w =>
    (walkPackages world fuel pkgs
      { w with ctxName := contextName world.context ++ str ":" }).bind
      (walkContexts fuel pkgs rest)

/-- The branch of `GoApi` for `*defaultCtx` off, in a run without a cursor: the
list `features` after `sort.Strings(features)`.  The contexts of the run are
the contexts of `worlds`. -/
def goApiFeatures (showpos : Bool) (sep : GoString) (fuel : Nat) (pkgs : List GoString)
    (worlds : List World) : Outcome (List GoString) :=
  (walkContexts fuel pkgs worlds (newWalker sep pkgs)).bind fun w =>
    match mergeContexts showpos (worlds.map (fun world => world.context)) w.wantedPkg
        w.packageMap with
    | none => .panic
    | some features => .ok features

/-- A world in which the package `p` of the directory `/p` has the one file
`f_linux.go`, an OS/arch file without cgo, that declares `func F()`: the walk
of the declarations emits the feature `func F()`.  The context is linux/amd64,
with cgo when `cgo` holds. -/
def osArchWorld (cgo : Bool) : World :=
  { depParser := true,
    context := { GOOS := str "linux", GOARCH := str "amd64", CgoEnabled := cgo },
    importDir := fun dir =>
      if dir = str "/p" then
        some { Name := str "p", Dir := str "/p", GoFiles := [str "f_linux.go"] }
      else none,
    findDir := fun pkg => if pkg = str "p" then some (str "/p") else none,
    isLocalImport := fun _ => false,
    localPackage := fun _ => none,
    isAbs := fun _ => false,
    absPackage := fun _ => { Name := [], Dir := [], GoFiles := [] },
    isOSArchFile := fun file => decide (file = str "f_linux.go"),
    parseFile := fun _ _ _ => (some { name := str "p", imports := [] }, false),
    unquote := unquotePlain,
    walkDecls := fun w => .ok (emitFeature w (str "func F()") 0) }

/-- The package map after the loop of `GoApi` over the one context linux/amd64
with cgo, for the package `p` of `osArchWorld true`. -/
def osArchPackageMap : GoMap Package :=
  match walkContexts 3 [str "p"] [osArchWorld true] (newWalker (str ", ") [str "p"]) with
  | .ok w => w.packageMap
  | _ => []

/-! # Properties -/

/-! ## `compareAPI` -/

theorem mem_set (items : List GoString) (k : GoString) : k ∈ set items ↔ k ∈ items := by
  unfold set; exact List.mem_dedup

theorem setHas_iff (m : List GoString) (k : GoString) : setHas m k = true ↔ k ∈ m := by
  simp [setHas]

theorem mem_setDelete (m : List GoString) (k x : GoString) :
    x ∈ setDelete m k ↔ x ∈ m ∧ x ≠ k := by
  simp [setDelete]

theorem sortStrings_perm (l : List GoString) : (sortStrings l).Perm l :=
  List.perm_insertionSort _ l

theorem sortStrings_sorted (l : List GoString) :
    (sortStrings l).Sorted (fun a b => a ≤ b) :=
  List.sorted_insertionSort _ l

theorem mem_sortStrings (l : List GoString) (k : GoString) : k ∈ sortStrings l ↔ k ∈ l :=
  (sortStrings_perm l).mem_iff

theorem sortStrings_strict (l : List GoString) (h : l.Nodup) :
    (sortStrings l).Sorted (fun a b => a < b) :=
  (sortStrings_sorted l).lt_of_le ((sortStrings_perm l).nodup_iff.mpr h)

theorem compareStep_size (allowNew : Bool) (exc fs : List GoString) (s : CompareState)
    (h : 0 < s.size) : (compareStep allowNew exc fs s).size < s.size := by
  obtain ⟨R, F, O, out, ok⟩ := s
  cases R with
  | nil =>
    cases F with
    | nil => simp [CompareState.size] at h
    | cons f F =>
      simp only [compareStep, takeFeature, CompareState.size]
      split_ifs <;> simp
  | cons r R =>
    cases F with
    | nil =>
      simp only [compareStep, takeRequired, CompareState.size]
      split_ifs <;> simp
    | cons f F =>
      simp only [compareStep, takeRequired, takeFeature, CompareState.size]
      split_ifs <;> (simp; try omega)

theorem compareLoop_done (allowNew : Bool) (exc fs : List GoString) (fuel : Nat)
    (s : CompareState) (h : s.size = 0) : compareLoop allowNew exc fs fuel s = s := by
  cases fuel with
  | zero => rfl
  | succ n =>
    simp only [CompareState.size] at h
    have h1 : ¬ (0 < s.required.length ∨ 0 < s.features.length) := by omega
    simp [compareLoop, h1]

/-- With enough fuel the loop ends because both lists are empty. -/
theorem compareLoop_size (allowNew : Bool) (exc fs : List GoString) :
    ∀ (fuel : Nat) (s : CompareState), s.size ≤ fuel →
      (compareLoop allowNew exc fs fuel s).size = 0 := by
  intro fuel
  induction fuel with
  | zero => intro s h; simpa [compareLoop] using h
  | succ n ih =>
    intro s h
    by_cases h0 : 0 < s.size
    · have hc : 0 < s.required.length ∨ 0 < s.features.length := by
        simp only [CompareState.size] at h0; omega
      simp only [compareLoop, hc, if_true]
      apply ih
      have := compareStep_size allowNew exc fs s h0
      omega
    · rw [compareLoop_done _ _ _ _ _ (by omega)]; omega

theorem takeRequired_passes (allowNew : Bool) (exc fs : List GoString)
    (R F O out : List GoString) (ok : Bool) (r : GoString)
    (hr : r ∉ F) (hR : r ∉ R) :
    (takeRequired exc fs ⟨r :: R, F, O, out, ok⟩ r R).Passes allowNew exc fs ↔
      CompareState.Passes allowNew exc fs ⟨r :: R, F, O, out, ok⟩ := by
  have hB : (∀ f ∈ F, f ∉ R → f ∈ O) ↔ (∀ f ∈ F, f ∉ r :: R → f ∈ O) := by
    constructor
    · intro h f hf hn
      exact h f hf (fun hc => hn (List.mem_cons_of_mem _ hc))
    · intro h f hf hn
      apply h f hf
      intro hc
      rcases List.mem_cons.mp hc with rfl | hc
      · exact hr hf
      · exact hn hc
  unfold takeRequired CompareState.Passes
  by_cases h1 : r ∈ exc
  · simp [setHas_iff, h1, hr, hB]
  · by_cases h2 : featureWithoutContext r ∈ fs
    · simp [setHas_iff, h1, h2, hr, hB]
    · simp [setHas_iff, h1, h2, hr]

theorem takeFeature_passes (allowNew : Bool) (exc fs : List GoString)
    (R F O out : List GoString) (ok : Bool) (f : GoString)
    (hf : f ∉ R) (hF : f ∉ F) :
    (takeFeature allowNew ⟨R, f :: F, O, out, ok⟩ f F).Passes allowNew exc fs ↔
      CompareState.Passes allowNew exc fs ⟨R, f :: F, O, out, ok⟩ := by
  have hA : (∀ r ∈ R, r ∉ F → r ∈ exc ∨ featureWithoutContext r ∈ fs) ↔
      (∀ r ∈ R, r ∉ f :: F → r ∈ exc ∨ featureWithoutContext r ∈ fs) := by
    constructor
    · intro h r hr hn
      exact h r hr (fun hc => hn (List.mem_cons_of_mem _ hc))
    · intro h r hr hn
      apply h r hr
      intro hc
      rcases List.mem_cons.mp hc with rfl | hc
      · exact hf hr
      · exact hn hc
  have hD : (∀ g ∈ F, g ∉ R → g ∈ setDelete O f) ↔ (∀ g ∈ F, g ∉ R → g ∈ O) := by
    constructor
    · intro h g hg hn
      exact ((mem_setDelete O f g).mp (h g hg hn)).1
    · intro h g hg hn
      refine (mem_setDelete O f g).mpr ⟨h g hg hn, ?_⟩
      rintro rfl
      exact hF hg
  unfold takeFeature CompareState.Passes
  by_cases h1 : f ∈ O
  · simp only [setHas_iff, h1, if_true, hD, ← hA]
    simp [hf, h1]
  · cases allowNew
    · simp [setHas_iff, h1, hf]
    · simp only [setHas_iff, h1, ← hA]
      simp


theorem compareStep_passes (allowNew : Bool) (exc fs : List GoString) (s : CompareState)
    (hR : s.required.Sorted (fun a b => a < b)) (hF : s.features.Sorted (fun a b => a < b)) :
    (compareStep allowNew exc fs s).Passes allowNew exc fs ↔ s.Passes allowNew exc fs := by
  obtain ⟨R, F, O, out, ok⟩ := s
  simp only at hR hF
  cases R with
  | nil =>
    cases F with
    | nil => simp [compareStep]
    | cons f F =>
      simp only [compareStep]
      exact takeFeature_passes allowNew exc fs [] F O out ok f (by simp)
        (fun h => lt_irrefl f (List.rel_of_sorted_cons hF f h))
  | cons r R =>
    have hrR : r ∉ R := fun h => lt_irrefl r (List.rel_of_sorted_cons hR r h)
    cases F with
    | nil =>
      simp only [compareStep]
      exact takeRequired_passes allowNew exc fs R [] O out ok r (by simp) hrR
    | cons f F =>
      have hfF : f ∉ F := fun h => lt_irrefl f (List.rel_of_sorted_cons hF f h)
      simp only [compareStep]
      split_ifs with h1 h2
      · refine takeRequired_passes allowNew exc fs R (f :: F) O out ok r ?_ hrR
        intro h
        rcases List.mem_cons.mp h with rfl | h
        · exact lt_irrefl _ h1
        · exact lt_asymm h1 (List.rel_of_sorted_cons hF r h)
      · refine takeFeature_passes allowNew exc fs (r :: R) F O out ok f ?_ hfF
        intro h
        rcases List.mem_cons.mp h with rfl | h
        · exact lt_irrefl _ h2
        · exact lt_asymm h2 (List.rel_of_sorted_cons hR f h)
      · have hrf : r = f := by
          rcases lt_trichotomy r f with h | h | h
          · exact absurd h h1
          · exact h
          · exact absurd h h2
        subst hrf
        unfold CompareState.Passes
        simp only [List.mem_cons, true_or, not_true_eq_false, false_imp_iff]
        constructor
        · rintro ⟨h0, hA, hB⟩
          refine ⟨h0, ?_, ?_⟩
          · intro x hx hn
            rcases hx with rfl | hx
            · simp at hn
            · exact hA x hx (fun hc => hn (Or.inr hc))
          · intro ha x hx hn
            rcases hx with rfl | hx
            · simp at hn
            · exact hB ha x hx (fun hc => hn (Or.inr hc))
        · rintro ⟨h0, hA, hB⟩
          refine ⟨h0, ?_, ?_⟩
          · intro x hx hn
            refine hA x (Or.inr hx) ?_
            rintro (rfl | hc)
            · exact hrR hx
            · exact hn hc
          · intro ha x hx hn
            refine hB ha x (Or.inr hx) ?_
            rintro (rfl | hc)
            · exact hfF hx
            · exact hn hc

theorem compareStep_sorted (allowNew : Bool) (exc fs : List GoString) (s : CompareState)
    (hR : s.required.Sorted (fun a b => a < b)) (hF : s.features.Sorted (fun a b => a < b)) :
    (compareStep allowNew exc fs s).required.Sorted (fun a b => a < b) ∧
      (compareStep allowNew exc fs s).features.Sorted (fun a b => a < b) := by
  obtain ⟨R, F, O, out, ok⟩ := s
  simp only at hR hF
  cases R with
  | nil =>
    cases F with
    | nil => simp [compareStep]
    | cons f F =>
      simp only [compareStep, takeFeature]
      split_ifs <;> exact ⟨hR, hF.of_cons⟩
  | cons r R =>
    cases F with
    | nil =>
      simp only [compareStep, takeRequired]
      split_ifs <;> exact ⟨hR.of_cons, hF⟩
    | cons f F =>
      simp only [compareStep, takeRequired, takeFeature]
      split_ifs
      all_goals first
        | exact ⟨hR.of_cons, hF⟩
        | exact ⟨hR, hF.of_cons⟩
        | exact ⟨hR.of_cons, hF.of_cons⟩



theorem compareLoop_passes (allowNew : Bool) (exc fs : List GoString) :
    ∀ (fuel : Nat) (s : CompareState),
      s.required.Sorted (fun a b => a < b) → s.features.Sorted (fun a b => a < b) →
      ((compareLoop allowNew exc fs fuel s).Passes allowNew exc fs ↔
        s.Passes allowNew exc fs) := by
  intro fuel
  induction fuel with
  | zero => intro s _ _; rfl
  | succ n ih =>
    intro s hR hF
    simp only [compareLoop]
    split_ifs with hc
    · obtain ⟨hR2, hF2⟩ := compareStep_sorted allowNew exc fs s hR hF
      rw [ih _ hR2 hF2]
      exact compareStep_passes allowNew exc fs s hR hF
    · rfl

theorem passes_of_size_zero (allowNew : Bool) (exc fs : List GoString) (s : CompareState)
    (h : s.size = 0) : s.Passes allowNew exc fs ↔ s.ok = true := by
  obtain ⟨R, F, O, out, ok⟩ := s
  simp only [CompareState.size] at h
  have hR : R = [] := List.length_eq_zero.mp (by omega)
  have hF : F = [] := List.length_eq_zero.mp (by omega)
  subst hR hF
  simp [CompareState.Passes]

theorem compareAPI_ok (allowNew : Bool) (features required optional exception : List GoString) :
    (compareAPI allowNew features required optional exception).2 =
      (compareLoop allowNew (set exception) (set features)
        ((sortStrings required).length + (sortStrings features).length)
        ⟨sortStrings required, sortStrings features, set optional, [], true⟩).ok := rfl

/-- C1: for duplicate-free lists `features` and `required`, `compareAPI`
returns false if and only if (a) some line of `required` that is not in
`features` is neither in `exception` nor has its `featureWithoutContext` in
`features`, or (b) `allowNew` is false and some line of `features` that is not
in `required` is not in `optional`. -/
theorem compareAPI_false_iff (allowNew : Bool)
    (features required optional exception : List GoString)
    (hf : features.Nodup) (hr : required.Nodup) :
    (compareAPI allowNew features required optional exception).2 = false ↔
      (∃ r ∈ required, r ∉ features ∧
          r ∉ exception ∧ featureWithoutContext r ∉ features) ∨
        (allowNew = false ∧ ∃ f ∈ features, f ∉ required ∧ f ∉ optional) := by
  have hsize := compareLoop_size allowNew (set exception) (set features)
    ((sortStrings required).length + (sortStrings features).length)
    ⟨sortStrings required, sortStrings features, set optional, [], true⟩ (le_refl _)
  have hpass := compareLoop_passes allowNew (set exception) (set features)
    ((sortStrings required).length + (sortStrings features).length)
    ⟨sortStrings required, sortStrings features, set optional, [], true⟩
    (sortStrings_strict _ hr) (sortStrings_strict _ hf)
  rw [passes_of_size_zero _ _ _ _ hsize] at hpass
  rw [compareAPI_ok, ← Bool.not_eq_true, hpass]
  simp only [CompareState.Passes, mem_sortStrings, mem_set, true_and, not_and_or]
  push_neg
  rfl

theorem compareLoop_allowNew (exc fs : List GoString) :
    ∀ (fuel : Nat) (s : CompareState), s.required = [] → s.ok = true →
      (compareLoop true exc fs fuel s).ok = true := by
  intro fuel
  induction fuel with
  | zero => intro s _ h; exact h
  | succ n ih =>
    intro s hR hok
    obtain ⟨R, F, O, out, ok⟩ := s
    simp only at hR hok
    subst hR hok
    simp only [compareLoop]
    split_ifs with hc
    · cases F with
      | nil => simp at hc
      | cons f F =>
        simp only [compareStep, takeFeature, Bool.not_true, Bool.false_eq_true, if_false]
        split_ifs <;> exact ih _ rfl rfl
    · rfl

/-- C2: if `allowNew` is true and `required` is empty, `compareAPI` returns
true for every `features`, `optional` and `exception` list. -/
theorem compareAPI_allowNew_no_required (features optional exception : List GoString) :
    (compareAPI true features [] optional exception).2 = true := by
  rw [compareAPI_ok]
  exact compareLoop_allowNew _ _ _ _ rfl rfl

/-- Witness of C1: a required line that is missing from the feature list, once
excused by the exception list. -/
theorem compareAPI_false_iff_witness :
    [str "pkg p, func G()"].Nodup ∧ [str "pkg p, func F()"].Nodup ∧
      ((compareAPI true [str "pkg p, func G()"] [str "pkg p, func F()"] []
          [str "pkg p, func F()"]).2 = false ↔
        (∃ r ∈ [str "pkg p, func F()"], r ∉ [str "pkg p, func G()"] ∧
            r ∉ [str "pkg p, func F()"] ∧
            featureWithoutContext r ∉ [str "pkg p, func G()"]) ∨
          (true = false ∧ ∃ f ∈ [str "pkg p, func G()"],
            f ∉ [str "pkg p, func F()"] ∧ f ∉ ([] : List GoString))) :=
  ⟨by decide, by decide,
    compareAPI_false_iff true [str "pkg p, func G()"] [str "pkg p, func F()"] []
      [str "pkg p, func F()"] (by decide) (by decide)⟩

/-- C3: at a line that is in `optional`, in `required` and in `features`,
`compareAPI` writes the `±` line although the line occurs in `features`. -/
theorem compareAPI_reports_seen_optional :
    compareAPI true [str "pkg p, func F()"] [str "pkg p, func F()"] [str "pkg p, func F()"] [] =
      ([str "±pkg p, func F()\n"], true) := by
  decide

/-! ## `featureWithoutContext` -/

/-- C4: for the method feature `pkg p, method (*T) M()` and the context
`linux-amd64`, `featureWithoutContext` applied to the fan-out variant deletes
the receiver as well as the context, and `compareAPI` reports the annotated
required line as removed although the feature is present. -/
theorem featureWithoutContext_strips_receiver :
    annotate (str "pkg p, method (*T) M()") (str "linux-amd64") =
        some (str "pkg p (linux-amd64), method (*T) M()") ∧
      featureWithoutContext (str "pkg p (linux-amd64), method (*T) M()") =
        str "pkg p, method M()" ∧
      featureWithoutContext (str "pkg p (linux-amd64), method (*T) M()") ≠
        str "pkg p, method (*T) M()" ∧
      compareAPI true [str "pkg p, method (*T) M()"]
          [str "pkg p (linux-amd64), method (*T) M()"] [] [] =
        ([str "-pkg p (linux-amd64), method (*T) M()\n", str "+pkg p, method (*T) M()\n"],
          false) := by
  decide

/-! ## The fan-out variant of a feature -/

theorem indexByte_ge (s : GoString) (b : Nat) : -1 ≤ indexByte s b := by
  induction s with
  | nil => simp [indexByte]
  | cons c cs ih =>
    simp only [indexByte]
    split_ifs <;> omega

theorem indexByte_of_not_mem (s : GoString) (b : Nat) (h : b ∉ s) : indexByte s b = -1 := by
  induction s with
  | nil => rfl
  | cons c cs ih =>
    have hc : c ≠ b := fun e => h (e ▸ List.mem_cons_self _ _)
    have ih2 := ih (fun hm => h (List.mem_cons_of_mem _ hm))
    simp [indexByte, hc, ih2]

theorem indexByte_append (pre post : GoString) (b : Nat) (h : b ∉ pre) :
    indexByte (pre ++ b :: post) b = pre.length := by
  induction pre with
  | nil => simp [indexByte]
  | cons c cs ih =>
    have hc : c ≠ b := fun e => h (e ▸ List.mem_cons_self _ _)
    have ih2 := ih (fun hm => h (List.mem_cons_of_mem _ hm))
    have key : indexByte (c :: (cs ++ b :: post)) b = (cs.length : Int) + 1 := by
      rw [indexByte, if_neg hc, ih2]
      simp only
      rw [if_neg (by omega)]
    rw [List.cons_append, key]
    simp

theorem indexByte_mem (s : GoString) (b : Nat) (h : indexByte s b ≠ -1) : b ∈ s := by
  by_contra hn
  exact h (indexByte_of_not_mem s b hn)

/-- A string that contains `b` splits at its first `b`. -/
theorem split_at_first (s : GoString) (b : Nat) (h : b ∈ s) :
    ∃ pre post, s = pre ++ b :: post ∧ b ∉ pre := by
  induction s with
  | nil => simp at h
  | cons c cs ih =>
    by_cases hc : c = b
    · exact ⟨[], cs, by simp [hc], by simp⟩
    · rcases List.mem_cons.mp h with e | hm
      · exact absurd e.symm hc
      · obtain ⟨pre, post, e, hp⟩ := ih hm
        refine ⟨c :: pre, post, by simp [e], ?_⟩
        intro hm2
        rcases List.mem_cons.mp hm2 with e2 | hm2
        · exact hc e2.symm
        · exact hp hm2

theorem annotate_append (pre post c : GoString) (h : 44 ∉ pre) :
    annotate (pre ++ 44 :: post) c = some (pre ++ str " (" ++ c ++ str ")" ++ 44 :: post) := by
  have hi := indexByte_append pre post 44 h
  unfold annotate
  simp only [hi]
  have : ¬ ((pre.length : Int) < 0) := by omega
  simp [this]

/-- C6: the variant of a feature for the context label `c` is the feature
with the text ` (c)` inserted immediately before its first comma, the rest
unchanged. -/
theorem annotate_inserts_before_first_comma (pre post c : GoString) (h : 44 ∉ pre) :
    annotate (pre ++ 44 :: post) c = some (pre ++ str " (" ++ c ++ str ")" ++ 44 :: post) :=
  annotate_append pre post c h

/-- Witness of C6: `pkg net, func Dial(...)` for `linux-amd64` becomes
`pkg net (linux-amd64), func Dial(...)`. -/
theorem annotate_inserts_witness :
    44 ∉ str "pkg net" ∧
      annotate (str "pkg net, func Dial(...)") (str "linux-amd64") =
        some (str "pkg net (linux-amd64), func Dial(...)") :=
  ⟨by decide, annotate_inserts_before_first_comma (str "pkg net") (str " func Dial(...)")
    (str "linux-amd64") (by decide)⟩

/-! ## `emitFeature` -/

theorem GoMap.has_iff {V : Type} (m : GoMap V) (k : GoString) : m.has k = true ↔ k ∈ m.keys := by
  simp [GoMap.has]

theorem GoMap.put_new {V : Type} (m : GoMap V) (k : GoString) (v : V) (h : k ∉ m.keys) :
    m.put k v = m ++ [(k, v)] := by
  have : m.has k = false := by
    rw [← Bool.not_eq_true, GoMap.has_iff]; exact h
  simp [GoMap.put, this]

theorem GoMap.keys_append {V : Type} (m : GoMap V) (k : GoString) (v : V) :
    GoMap.keys (m ++ [(k, v)]) = m.keys ++ [k] := by
  simp [GoMap.keys]

theorem emitFeature_scope (w : Walker) (feature : GoString) (pos : Int) :
    (emitFeature w feature pos).scope = w.scope ∧ (emitFeature w feature pos).sep = w.sep ∧
      (emitFeature w feature pos).wantedPkg = w.wantedPkg ∧
      (emitFeature w feature pos).curPackage.name = w.curPackage.name := by
  simp only [emitFeature]
  split_ifs <;> simp

theorem emitFeature_seen (w : Walker) (feature : GoString) (pos : Int)
    (h : scopedFeature w feature ∈ w.curPackage.features.keys) :
    emitFeature w feature pos = w := by
  have h2 : w.curPackage.features.has (scopedFeature w feature) = true :=
    (GoMap.has_iff _ _).mpr h
  simp only [emitFeature, h2, if_true]
  split_ifs <;> rfl

theorem emitFeature_new (w : Walker) (feature : GoString) (pos : Int)
    (hw : w.curPackage.name ∈ w.wantedPkg)
    (h : scopedFeature w feature ∉ w.curPackage.features.keys) :
    emitFeature w feature pos =
      { w with curPackage := { w.curPackage with
          features := w.curPackage.features ++ [(scopedFeature w feature, pos)] } } := by
  have h1 : setHas w.wantedPkg w.curPackage.name = true := (setHas_iff _ _).mpr hw
  have h2 : w.curPackage.features.has (scopedFeature w feature) = false := by
    rw [← Bool.not_eq_true, GoMap.has_iff]; exact h
  simp [emitFeature, h1, h2, GoMap.put_new _ _ _ h]

/-- C7: for a wanted package, `emitFeature` leaves the walker unchanged when
the scoped feature string is already a key of the features map (the earlier
position stays), and otherwise adds exactly that key with the given position;
the keys stay pairwise distinct, and emitting the same feature a second time
changes nothing. -/
theorem emitFeature_keeps_first_position (w : Walker) (feature : GoString) (pos : Int)
    (hw : w.curPackage.name ∈ w.wantedPkg) :
    (scopedFeature w feature ∈ w.curPackage.features.keys →
        emitFeature w feature pos = w) ∧
      (scopedFeature w feature ∉ w.curPackage.features.keys →
        emitFeature w feature pos =
          { w with curPackage := { w.curPackage with
              features := w.curPackage.features ++ [(scopedFeature w feature, pos)] } }) ∧
      (w.curPackage.features.keys.Nodup →
        (emitFeature w feature pos).curPackage.features.keys.Nodup) ∧
      (∀ pos2 : Int,
        emitFeature (emitFeature w feature pos) feature pos2 = emitFeature w feature pos) := by
  refine ⟨emitFeature_seen w feature pos, emitFeature_new w feature pos hw, ?_, ?_⟩
  · intro hnd
    by_cases h : scopedFeature w feature ∈ w.curPackage.features.keys
    · rw [emitFeature_seen w feature pos h]; exact hnd
    · rw [emitFeature_new w feature pos hw h]
      simp only [GoMap.keys_append]
      exact List.Nodup.append hnd (List.nodup_singleton _) (by simpa using h)
  · intro pos2
    apply emitFeature_seen
    by_cases h : scopedFeature w feature ∈ w.curPackage.features.keys
    · rw [emitFeature_seen w feature pos h]; exact h
    · rw [emitFeature_new w feature pos hw h]
      simp [scopedFeature, GoMap.keys]

/-- Witness of C7: `func F()` emitted at position 3 and again at position 7
in package `p`. -/
theorem emitFeature_keeps_first_position_witness :
    str "p" ∈ [str "p"] ∧
      emitFeature (emitFeature
          { scope := [str "pkg p"], sep := str ", ",
            curPackage := { name := str "p", sep := str ", ", features := [] },
            wantedPkg := [str "p"] } (str "func F()") 3) (str "func F()") 7 =
        emitFeature
          { scope := [str "pkg p"], sep := str ", ",
            curPackage := { name := str "p", sep := str ", ", features := [] },
            wantedPkg := [str "p"] } (str "func F()") 3 :=
  ⟨by decide, (emitFeature_keeps_first_position
    { scope := [str "pkg p"], sep := str ", ",
      curPackage := { name := str "p", sep := str ", ", features := [] },
      wantedPkg := [str "p"] } (str "func F()") 3 (by decide)).2.2.2 7⟩

theorem replaceByte_zero (s : GoString) (old new : Nat) : replaceByte s old new 0 = s := by
  cases s <;> simp [replaceByte]

theorem replaceByte_all (s : GoString) (old new : Nat) (n : Int) (hn : n < 0) :
    replaceByte s old new n = s.map (fun c => if c = old then new else c) := by
  induction s generalizing n with
  | nil => simp [replaceByte]
  | cons c cs ih =>
    have h0 : n ≠ 0 := by omega
    simp only [replaceByte, h0, if_false, List.map_cons]
    split_ifs
    · rw [ih (n - 1) (by omega)]
    · rw [ih n hn]

theorem replaceByte_first (pre post : GoString) (old new : Nat) (h : old ∉ pre) :
    replaceByte (pre ++ old :: post) old new 1 = pre ++ new :: post := by
  induction pre with
  | nil => simp [replaceByte, replaceByte_zero]
  | cons c cs ih =>
    have hc : c ≠ old := fun e => h (e ▸ List.mem_cons_self _ _)
    have ih2 := ih (fun hm => h (List.mem_cons_of_mem _ hm))
    rw [List.cons_append, replaceByte, if_neg (by decide), if_neg hc, ih2]
    rfl

theorem map_id_of_not_mem (s : GoString) (old new : Nat) (h : old ∉ s) :
    s.map (fun c => if c = old then new else c) = s := by
  induction s with
  | nil => rfl
  | cons c cs ih =>
    have hc : c ≠ old := fun e => h (e ▸ List.mem_cons_self _ _)
    simp [hc, ih (fun hm => h (List.mem_cons_of_mem _ hm))]

theorem featureLine_no_newline (feature : GoString) (h : 10 ∉ feature) :
    featureLine feature = feature := by
  simp [featureLine, indexByte_of_not_mem feature 10 h]

theorem featureLine_long (pre post : GoString) (h : 10 ∉ pre)
    (hl : 1024 < (pre ++ 10 :: post).length) :
    featureLine (pre ++ 10 :: post) = pre ++ str " ...more" := by
  have hi := indexByte_append pre post 10 h
  have h1 : ¬ ((pre.length : Int) = -1) := by omega
  have h2 : ¬ ((pre ++ 10 :: post).length ≤ 1024) := by omega
  simp only [featureLine, hi, ne_eq, h1, not_false_eq_true, if_true, h2, if_false,
    Int.toNat_ofNat]
  simp

theorem featureLine_short (pre post : GoString) (h : 10 ∉ pre)
    (hl : (pre ++ 10 :: post).length ≤ 1024) :
    featureLine (pre ++ 10 :: post) =
      (pre ++ 32 :: post.map (fun c => if c = 10 then 59 else c)).map
        (fun c => if c = 9 then 32 else c) := by
  have hi := indexByte_append pre post 10 h
  have h1 : ¬ ((pre.length : Int) = -1) := by omega
  simp only [featureLine, hi, ne_eq, h1, not_false_eq_true, if_true, hl]
  rw [replaceByte_first pre post 10 32 h, replaceByte_all _ 10 59 (-1) (by decide),
    replaceByte_all _ 9 32 (-1) (by decide)]
  congr 1
  rw [List.map_append, map_id_of_not_mem pre 10 59 h]
  simp

theorem not_mem_join (scope : List GoString) (sep : GoString) (b : Nat)
    (hs : ∀ s ∈ scope, b ∉ s) (hsep : b ∉ sep) : b ∉ join scope sep := by
  induction scope with
  | nil => simp [join]
  | cons a rest ih =>
    cases rest with
    | nil => simpa [join] using hs a (List.mem_cons_self _ _)
    | cons a2 rest =>
      have ih2 := ih (fun s hm => hs s (List.mem_cons_of_mem _ hm))
      have ha := hs a (List.mem_cons_self _ _)
      simp only [join, List.mem_append, not_or]
      exact ⟨⟨ha, hsep⟩, ih2⟩

theorem featureLine_single_line (feature : GoString) : 10 ∉ featureLine feature := by
  by_cases h : 10 ∈ feature
  · obtain ⟨pre, post, e, hp⟩ := split_at_first feature 10 h
    subst e
    by_cases hl : (pre ++ 10 :: post).length ≤ 1024
    · rw [featureLine_short pre post hp hl]
      simp only [List.mem_map, not_exists, not_and]
      intro x hx
      split_ifs with h9
      · decide
      · intro hx10
        subst hx10
        rcases List.mem_append.mp hx with hm | hm
        · exact hp hm
        · rcases List.mem_cons.mp hm with e | hm
          · exact absurd e (by decide)
          · simp only [List.mem_map] at hm
            obtain ⟨y, _, hy⟩ := hm
            split_ifs at hy with h10
            · exact absurd hy (by decide)
            · exact h10 hy
    · rw [featureLine_long pre post hp (by omega)]
      simp only [List.mem_append, not_or]
      exact ⟨hp, by decide⟩
  · rw [featureLine_no_newline feature h]; exact h

/-- C9: the key that `emitFeature` stores is the scope, the separator and the
feature text made a single line; it contains no newline when the scope entries
and the separator contain none.  A text without a newline is kept unchanged; a
text with a newline and more than 1024 bytes is cut at its first newline and
followed by ` ...more`; a text with a newline and at most 1024 bytes is kept in
full, its first newline replaced by a space, its other newlines by `;` and its
tabs by spaces. -/
theorem emitFeature_single_line (w : Walker) (feature : GoString) (pos : Int) :
    ((emitFeature w feature pos).curPackage.features = w.curPackage.features ∨
        (emitFeature w feature pos).curPackage.features =
          w.curPackage.features ++
            [(join w.scope w.sep ++ w.sep ++ featureLine feature, pos)]) ∧
      ((∀ s ∈ w.scope, 10 ∉ s) → 10 ∉ w.sep →
        10 ∉ join w.scope w.sep ++ w.sep ++ featureLine feature) ∧
      (10 ∉ feature → featureLine feature = feature) ∧
      (∀ pre post : GoString, feature = pre ++ 10 :: post → 10 ∉ pre →
        (1024 < feature.length → featureLine feature = pre ++ str " ...more") ∧
        (feature.length ≤ 1024 →
          featureLine feature =
            (pre ++ 32 :: post.map (fun c => if c = 10 then 59 else c)).map
              (fun c => if c = 9 then 32 else c))) := by
  refine ⟨?_, ?_, featureLine_no_newline feature, ?_⟩
  · by_cases hw : w.curPackage.name ∈ w.wantedPkg
    · by_cases h : scopedFeature w feature ∈ w.curPackage.features.keys
      · left; rw [emitFeature_seen w feature pos h]
      · right; rw [emitFeature_new w feature pos hw h]; rfl
    · left
      have h1 : setHas w.wantedPkg w.curPackage.name = false := by
        rw [← Bool.not_eq_true, setHas_iff]; exact hw
      simp [emitFeature, h1]
  · intro hs hsep
    simp only [List.mem_append, not_or]
    exact ⟨⟨not_mem_join w.scope w.sep 10 hs hsep, hsep⟩, featureLine_single_line feature⟩
  · intro pre post e hp
    subst e
    exact ⟨featureLine_long pre post hp, featureLine_short pre post hp⟩

/-- Witness of C9: a text of exactly 1024 bytes that ends in a newline is kept
in full, the newline replaced by a space. -/
theorem emitFeature_single_line_witness :
    (List.replicate 1023 97 ++ [10]).length ≤ 1024 ∧
      featureLine (List.replicate 1023 97 ++ [10]) =
        (List.replicate 1023 97 ++
          32 :: ([] : GoString).map (fun c => if c = 10 then 59 else c)).map
            (fun c => if c = 9 then 32 else c) :=
  ⟨by rw [List.length_append, List.length_replicate]; decide, ((emitFeature_single_line
    { scope := [str "pkg p"], sep := str ", ",
      curPackage := { name := str "p", sep := str ", ", features := [] },
      wantedPkg := [str "p"] } (List.replicate 1023 97 ++ [10]) 0).2.2.2
      (List.replicate 1023 97) [] rfl
      (fun h => absurd (List.eq_of_mem_replicate h) (by decide))).2
      (by rw [List.length_append, List.length_replicate]; decide)⟩

/-! ## `Package.Features` -/

theorem digitsAux_bytes (fuel n : Nat) (acc : GoString) :
    ∀ b ∈ digitsAux fuel n acc, b ∈ acc ∨ (48 ≤ b ∧ b ≤ 57) := by
  induction fuel generalizing n acc with
  | zero => intro b hb; exact Or.inl hb
  | succ k ih =>
    intro b hb
    simp only [digitsAux] at hb
    split_ifs at hb with h
    · rcases List.mem_cons.mp hb with e | hm
      · right; omega
      · exact Or.inl hm
    · rcases ih _ _ b hb with hm | hd
      · rcases List.mem_cons.mp hm with e | hm
        · right; omega
        · exact Or.inl hm
      · exact Or.inr hd

theorem itoa_bytes (i : Int) : ∀ b ∈ itoa i, b = 45 ∨ (48 ≤ b ∧ b ≤ 57) := by
  intro b hb
  unfold itoa at hb
  split_ifs at hb
  · rcases List.mem_cons.mp hb with e | hm
    · exact Or.inl e
    · rcases digitsAux_bytes _ _ _ b hm with h | h
      · simp at h
      · exact Or.inr h
  · rcases digitsAux_bytes _ _ _ b hb with h | h
    · simp at h
    · exact Or.inr h

theorem takeWhile_append_of_mem (x : Nat) (l1 l2 : GoString) (h : x ∈ l1) :
    (l1 ++ l2).takeWhile (fun c => !decide (c = x)) = l1.takeWhile (fun c => !decide (c = x)) := by
  induction l1 with
  | nil => simp at h
  | cons c cs ih =>
    by_cases hc : c = x
    · simp [List.takeWhile, hc]
    · rcases List.mem_cons.mp h with e | hm
      · exact absurd e.symm hc
      · simp [List.takeWhile, hc, ih hm]

/-- A separator that has a byte which the two tails lack fixes where the heads
end. -/
theorem append_sep_cancel (a b s d1 d2 : GoString) (x : Nat) (hx : x ∈ s)
    (h1 : x ∉ d1) (h2 : x ∉ d2) (e : a ++ s ++ d1 = b ++ s ++ d2) : a = b ∧ d1 = d2 := by
  have er := congrArg List.reverse e
  simp only [List.reverse_append, List.append_assoc] at er
  have et := congrArg (List.takeWhile (fun c => !decide (c = x))) er
  have hp1 : ∀ c ∈ d1.reverse, (!decide (c = x)) = true := by
    intro c hc
    have : c ≠ x := fun ec => h1 (ec ▸ List.mem_reverse.mp hc)
    simpa using this
  have hp2 : ∀ c ∈ d2.reverse, (!decide (c = x)) = true := by
    intro c hc
    have : c ≠ x := fun ec => h2 (ec ▸ List.mem_reverse.mp hc)
    simpa using this
  rw [List.takeWhile_append_of_pos hp1, List.takeWhile_append_of_pos hp2,
    takeWhile_append_of_mem x _ _ (List.mem_reverse.mpr hx),
    takeWhile_append_of_mem x _ _ (List.mem_reverse.mpr hx)] at et
  have hd : d1 = d2 := List.reverse_injective (List.append_cancel_right et)
  subst hd
  have := List.append_cancel_right e
  exact ⟨List.append_cancel_right this, rfl⟩

theorem pair_eq_of_key_eq {V : Type} (m : GoMap V) (h : m.keys.Nodup)
    (p q : GoString × V) (hp : p ∈ m) (hq : q ∈ m) (e : p.1 = q.1) : p = q := by
  unfold GoMap.keys at h
  exact List.inj_on_of_nodup_map h hp hq e


/-- C8, amended: `Package.Features` returns the keys of the features map
(with `-pos`, each key followed by the separator and its position), each once,
in sorted order; the list is duplicate-free when `-pos` is off, and with `-pos`
when the separator has a byte that is neither a decimal digit nor `-`, which
the default separator `, ` has. -/
theorem features_sorted_nodup (showpos : Bool) (p : Package) :
    (p.Features showpos).Sorted (fun a b => a ≤ b) ∧
      (p.Features showpos).Perm (p.features.map (fun fps =>
        if showpos then fps.1 ++ p.sep ++ itoa fps.2 else fps.1)) ∧
      (showpos = false → (p.Features showpos).Perm p.features.keys) ∧
      (p.features.keys.Nodup →
        (showpos = false ∨ ∃ b ∈ p.sep, b ≠ 45 ∧ ¬ (48 ≤ b ∧ b ≤ 57)) →
        (p.Features showpos).Nodup) := by
  refine ⟨sortStrings_sorted _, sortStrings_perm _, ?_, ?_⟩
  · intro h
    subst h
    exact sortStrings_perm _
  · intro hk hsep
    refine (sortStrings_perm _).nodup_iff.mpr ?_
    have hnd : p.features.Nodup := List.Nodup.of_map _ hk
    refine List.Nodup.map_on ?_ hnd
    intro x hx y hy e
    apply pair_eq_of_key_eq p.features hk x y hx hy
    cases showpos with
    | false => simpa using e
    | true =>
      rcases hsep with h | ⟨b, hb, h45, hdig⟩
      · exact absurd h (by decide)
      · simp only [if_true] at e
        refine (append_sep_cancel x.1 y.1 p.sep (itoa x.2) (itoa y.2) b hb ?_ ?_ e).1
        · intro hm
          rcases itoa_bytes _ b hm with h | h
          · exact h45 h
          · exact hdig h
        · intro hm
          rcases itoa_bytes _ b hm with h | h
          · exact h45 h
          · exact hdig h

/-- Witness of C8: two features listed with their positions under the default
separator. -/
theorem features_sorted_nodup_witness :
    GoMap.keys [(str "pkg p, func G()", (12 : Int)), (str "pkg p, func F()", 10)] =
        [str "pkg p, func G()", str "pkg p, func F()"] ∧
      Package.Features true
          { name := str "p", sep := str ", ",
            features := [(str "pkg p, func G()", 12), (str "pkg p, func F()", 10)] } =
        [str "pkg p, func F(), 10", str "pkg p, func G(), 12"] ∧
      (Package.Features true
          { name := str "p", sep := str ", ",
            features := [(str "pkg p, func G()", 12), (str "pkg p, func F()", 10)] }).Nodup :=
  ⟨by decide, by decide,
    (features_sorted_nodup true
      { name := str "p", sep := str ", ",
        features := [(str "pkg p, func G()", 12), (str "pkg p, func F()", 10)] }).2.2.2
      (by decide) (Or.inr ⟨44, by decide, by decide, by decide⟩)⟩

/-- C8 as stated fails: with `-pos` and the empty separator the keys `a1` at
position 2 and `a` at position 12 give the same line twice. -/
theorem features_pos_duplicate :
    (GoMap.keys [(str "a1", (2 : Int)), (str "a", 12)]).Nodup ∧
      Package.Features true
          { name := str "p", sep := [], features := [(str "a1", 2), (str "a", 12)] } =
        [str "a12", str "a12"] ∧
      ¬ (Package.Features true
          { name := str "p", sep := [], features := [(str "a1", 2), (str "a", 12)] }).Nodup := by
  decide

/-! ## `funcSigString` -/

theorem join_cons (a : GoString) (rest : List GoString) (sep : GoString) :
    join (a :: rest) sep = a ++ (rest.map (fun x => sep ++ x)).flatten := by
  induction rest generalizing a with
  | nil => simp [join]
  | cons b rest ih =>
    rw [join, ih b]
    simp [List.append_assoc]

theorem join_append_cons (l1 : List GoString) (a : GoString) (l2 : List GoString)
    (sep : GoString) (h : l1 ≠ []) :
    join (l1 ++ a :: l2) sep = join l1 sep ++ sep ++ join (a :: l2) sep := by
  cases l1 with
  | nil => exact absurd rfl h
  | cons x xs =>
    rw [List.cons_append, join_cons, join_cons, join_cons]
    simp [List.append_assoc]

theorem range_foldl_join (sep x : GoString) (n : Nat) (b : GoString) :
    (List.range (n + 1)).foldl (fun b i => (if i > 0 then b ++ sep else b) ++ x) b =
      b ++ join (List.replicate (n + 1) x) sep := by
  induction n with
  | zero => simp [join, List.range_succ]
  | succ n ih =>
    rw [List.range_succ, List.foldl_append, ih]
    have hrep : List.replicate (n + 1 + 1) x = List.replicate (n + 1) x ++ [x] := by
      rw [← List.replicate_succ']
    rw [hrep, join_append_cons _ _ _ _ (by simp)]
    simp [join, List.append_assoc]

/-- The texts that one field contributes to a signature. -/
theorem writeField_eq (nodeString : Expr → GoString) (b : GoString) (f : Field) :
    writeField nodeString b f =
      b ++ join ((if f.names.length ≥ 1 then List.replicate f.names.length f.type
        else [f.type]).map (fun t => nodeString (namelessType t))) (str ", ") := by
  unfold writeField
  by_cases h : f.names.length > 1
  · obtain ⟨n, hn⟩ : ∃ n, f.names.length = n + 1 := ⟨f.names.length - 1, by omega⟩
    have h1 : f.names.length ≥ 1 := by omega
    rw [if_pos h, if_pos h1, hn, range_foldl_join, List.map_replicate]
  · rw [if_neg h]
    by_cases h1 : f.names.length ≥ 1
    · have h2 : f.names.length = 1 := by omega
      rw [if_pos h1, h2]
      simp [join]
    · rw [if_neg h1]
      simp [join]


theorem enumFrom_foldl_writeField (nodeString : Expr → GoString) (list : List Field)
    (k : Nat) (b : GoString) :
    (list.enumFrom (k + 1)).foldl (fun b ifd =>
        writeField nodeString (if ifd.1 > 0 then b ++ str ", " else b) ifd.2) b =
      b ++ ((list.map (fun f => writeField nodeString [] f)).map
        (fun x => str ", " ++ x)).flatten := by
  induction list generalizing k b with
  | nil => simp
  | cons f rest ih =>
    rw [List.enumFrom_cons, List.foldl_cons, ih]
    simp only [gt_iff_lt, Nat.zero_lt_succ, if_true, List.map_cons, List.flatten_cons]
    rw [writeField_eq, writeField_eq]
    simp [List.append_assoc]

theorem writeFields_eq (nodeString : Expr → GoString) (b : GoString) (list : List Field) :
    writeFields nodeString b list =
      b ++ join (list.map (fun f => writeField nodeString [] f)) (str ", ") := by
  unfold writeFields
  cases list with
  | nil => simp [join]
  | cons f rest =>
    rw [List.enum, List.enumFrom_cons, List.foldl_cons, enumFrom_foldl_writeField,
      List.map_cons, join_cons]
    simp only [gt_iff_lt, lt_self_iff_false, if_false]
    rw [writeField_eq, writeField_eq]
    simp [List.append_assoc]

/-- Joining the joined groups is joining their concatenation, when no group is
empty. -/
theorem join_flatten (groups : List (List GoString)) (sep : GoString)
    (h : ∀ g ∈ groups, g ≠ []) :
    join (groups.map (fun g => join g sep)) sep = join groups.flatten sep := by
  induction groups with
  | nil => simp [join]
  | cons g rest ih =>
    have ih2 := ih (fun g hg => h g (List.mem_cons_of_mem _ hg))
    have hg := h g (List.mem_cons_self _ _)
    cases rest with
    | nil => simp [join]
    | cons g2 rest2 =>
      have hg2 := h g2 (by simp)
      obtain ⟨a, l, e⟩ : ∃ a l, (g2 :: rest2).flatten = a :: l := by
        cases g2 with
        | nil => exact absurd rfl hg2
        | cons a l => exact ⟨a, l ++ rest2.flatten, by simp⟩
      rw [List.map_cons, List.flatten_cons, e, join_append_cons _ _ _ _ hg, ← e, ← ih2]
      rw [List.map_cons, join]


theorem countResults_aux (list : List Field) (k : Nat) :
    list.foldl (fun nr f => if f.names.length > 1 then nr + f.names.length else nr + 1) k =
      k + (flattenTypes list).length := by
  induction list generalizing k with
  | nil => simp [flattenTypes]
  | cons f rest ih =>
    rw [List.foldl_cons, ih]
    simp only [flattenTypes, List.flatMap_cons, List.length_append]
    by_cases h : f.names.length > 1
    · have h1 : f.names.length ≥ 1 := by omega
      simp only [if_pos h, if_pos h1, List.length_replicate]
      omega
    · by_cases h1 : f.names.length ≥ 1
      · have h2 : f.names.length = 1 := by omega
        simp only [if_neg h, if_pos h1, List.length_replicate]
        omega
      · simp only [if_neg h, if_neg h1, List.length_singleton]
        omega

theorem countResults_eq (list : List Field) :
    countResults list = (flattenTypes list).length := by
  unfold countResults
  rw [countResults_aux]; omega

/-- The loop over a field list writes the flattened types, joined by `", "`. -/
theorem writeFields_flatten (nodeString : Expr → GoString) (b : GoString) (list : List Field) :
    writeFields nodeString b list =
      b ++ join ((flattenTypes list).map (fun t => nodeString (namelessType t))) (str ", ") := by
  rw [writeFields_eq]
  have h1 : list.map (fun f => writeField nodeString [] f) =
      (list.map (fun f => (if f.names.length ≥ 1 then List.replicate f.names.length f.type
        else [f.type]).map (fun t => nodeString (namelessType t)))).map
          (fun g => join g (str ", ")) := by
    rw [List.map_map]
    apply List.map_congr_left
    intro f _
    rw [writeField_eq]; rfl
  rw [h1, join_flatten]
  · congr 2
    simp only [flattenTypes, List.flatMap, List.map_flatten, List.map_map]
    rfl
  · intro g hg
    simp only [List.mem_map] at hg
    obtain ⟨f, _, rfl⟩ := hg
    split_ifs with h
    · intro hc
      have := congrArg List.length hc
      rw [List.length_map, List.length_replicate, List.length_nil] at this
      omega
    · simp


/-- C10: `funcSigString` is `(`, the flattened parameter types joined by
`, `, and `)`, followed by nothing when the flattened result list is empty, by
a space and the type when it has one type, and by ` (R1, ..., Rn)` when it has
two or more; `Read(p []byte) (n int, err error)` has the signature
`([]byte) (int, error)`. -/
theorem funcSigString_flattened (nodeString : Expr → GoString)
    (params results : Option (List Field)) :
    funcSigString nodeString params results =
        str "(" ++
          join ((fieldListTypes params).map (fun t => nodeString (namelessType t))) (str ", ") ++
          str ")" ++
          (match (fieldListTypes results).map (fun t => nodeString (namelessType t)) with
            | [] => []
            | [r] => str " " ++ r
            | r1 :: r2 :: rs => str " (" ++ join (r1 :: r2 :: rs) (str ", ") ++ str ")") ∧
      funcSigString nodeString
          (some [Field.mk [str "p"] (Expr.arrayType none (Expr.ident (str "byte")))])
          (some [Field.mk [str "n"] (Expr.ident (str "int")),
            Field.mk [str "err"] (Expr.ident (str "error"))]) =
        str "(" ++ nodeString (Expr.arrayType none (Expr.ident (str "byte"))) ++ str ") (" ++
          nodeString (Expr.ident (str "int")) ++ str ", " ++
          nodeString (Expr.ident (str "error")) ++ str ")" := by
  have e1 : str " (" = str " " ++ str "(" := by decide
  have e2 : str ") (" = str ")" ++ (str " " ++ str "(") := by decide
  constructor
  · unfold funcSigString
    cases results with
    | none => cases params <;> simp [fieldListTypes, writeFields_flatten, join]
    | some l =>
      simp only [countResults_eq, writeFields_flatten]
      rcases hl : flattenTypes l with _ | ⟨t1, _ | ⟨t2, ts⟩⟩
      · cases params <;> simp [fieldListTypes, hl, join]
      · cases params <;> simp [fieldListTypes, hl, join]
      · cases params <;> simp [fieldListTypes, hl, e1, join, List.append_assoc]
  · simp [funcSigString, writeFields, writeField, countResults, Field.names, Field.type,
      namelessType, List.enum, List.append_assoc, e2]

/-! ## The merge of the build contexts -/

theorem GoMap.get_none {V : Type} (m : GoMap V) (k : GoString) (h : m.get k = none) :
    k ∉ m.keys := by
  unfold GoMap.get at h
  simp only [Option.map_eq_none', List.find?_eq_none] at h
  intro hk
  simp only [GoMap.keys, List.mem_map] at hk
  obtain ⟨kv, hkv, e⟩ := hk
  have := h kv hkv
  simp [e] at this

theorem GoMap.get_some {V : Type} (m : GoMap V) (k : GoString) (v : V)
    (h : m.get k = some v) : (k, v) ∈ m := by
  unfold GoMap.get at h
  simp only [Option.map_eq_some'] at h
  obtain ⟨kv, hf, e⟩ := h
  have hm := List.mem_of_find?_eq_some hf
  have hk := List.find?_some hf
  simp only [decide_eq_true_eq] at hk
  subst e
  rw [← hk]
  exact hm

theorem GoMap.mem_keys_of_mem {V : Type} (m : GoMap V) (k : GoString) (v : V)
    (h : (k, v) ∈ m) : k ∈ m.keys := by
  simp only [GoMap.keys, List.mem_map]
  exact ⟨(k, v), h, rfl⟩

theorem GoMap.put_old {V : Type} (m : GoMap V) (k : GoString) (v : V) (h : k ∈ m.keys) :
    m.put k v = m.map (fun kv => if kv.1 = k then (k, v) else kv) := by
  have : m.has k = true := (GoMap.has_iff m k).mpr h
  simp [GoMap.put, this]

theorem GoMap.keys_put_old {V : Type} (m : GoMap V) (k : GoString) (v : V) (h : k ∈ m.keys) :
    (m.put k v).keys = m.keys := by
  rw [GoMap.put_old m k v h]
  simp only [GoMap.keys, List.map_map]
  apply List.map_congr_left
  intro kv _
  simp only [Function.comp]
  split_ifs with e
  · exact e.symm
  · rfl

theorem GoMap.mem_put_old {V : Type} (m : GoMap V) (k : GoString) (v : V) (h : k ∈ m.keys)
    (kv : GoString × V) :
    kv ∈ m.put k v ↔ (kv ∈ m ∧ kv.1 ≠ k) ∨ kv = (k, v) := by
  rw [GoMap.put_old m k v h]
  simp only [List.mem_map]
  constructor
  · rintro ⟨x, hx, e⟩
    split_ifs at e with hk
    · exact Or.inr e.symm
    · subst e; exact Or.inl ⟨hx, hk⟩
  · rintro (⟨hm, hk⟩ | e)
    · exact ⟨kv, hm, by simp [hk]⟩
    · simp only [GoMap.keys, List.mem_map] at h
      obtain ⟨x, hx, ex⟩ := h
      exact ⟨x, hx, by simp [ex, e]⟩

theorem recordFeature_wellFormed (fc : GoMap (List GoString)) (f c : GoString)
    (h : WellFormed fc) : WellFormed (recordFeature fc f c) := by
  obtain ⟨hk, hv⟩ := h
  unfold recordFeature
  cases hg : fc.get f with
  | none =>
    have hf := GoMap.get_none fc f hg
    simp only
    rw [GoMap.put_new fc f [c] hf]
    refine ⟨?_, ?_⟩
    · rw [GoMap.keys_append]
      exact List.Nodup.append hk (List.nodup_singleton _) (by simpa using hf)
    · intro kv hkv
      rcases List.mem_append.mp hkv with hm | hm
      · exact hv kv hm
      · simp only [List.mem_singleton] at hm
        subst hm
        exact List.nodup_singleton _
  | some cmap =>
    have hm := GoMap.get_some fc f cmap hg
    have hf := GoMap.mem_keys_of_mem fc f cmap hm
    simp only
    split_ifs with hc
    · exact ⟨hk, hv⟩
    · refine ⟨?_, ?_⟩
      · rw [GoMap.keys_put_old fc f _ hf]; exact hk
      · intro kv hkv
        rcases (GoMap.mem_put_old fc f _ hf kv).mp hkv with ⟨hm2, _⟩ | e
        · exact hv kv hm2
        · subst e
          have hcn : c ∉ cmap := by simpa [setHas] using hc
          exact List.Nodup.append (hv _ hm) (List.nodup_singleton _) (by simpa using hcn)

theorem recordFeature_listed (fc : GoMap (List GoString)) (f c : GoString)
    (h : WellFormed fc) (f2 c2 : GoString) :
    Listed (recordFeature fc f c) f2 c2 ↔ Listed fc f2 c2 ∨ (f2 = f ∧ c2 = c) := by
  obtain ⟨hk, hv⟩ := h
  unfold recordFeature
  cases hg : fc.get f with
  | none =>
    have hf := GoMap.get_none fc f hg
    simp only
    rw [GoMap.put_new fc f [c] hf]
    unfold Listed
    constructor
    · rintro ⟨cmap, hm, hc⟩
      rcases List.mem_append.mp hm with hm | hm
      · exact Or.inl ⟨cmap, hm, hc⟩
      · simp only [List.mem_singleton, Prod.mk.injEq] at hm
        obtain ⟨e1, e2⟩ := hm
        subst e1 e2
        exact Or.inr ⟨rfl, by simpa using hc⟩
    · rintro (⟨cmap, hm, hc⟩ | ⟨e1, e2⟩)
      · exact ⟨cmap, List.mem_append_left _ hm, hc⟩
      · subst e1 e2
        exact ⟨[c2], by simp, by simp⟩
  | some cmap =>
    have hm := GoMap.get_some fc f cmap hg
    have hf := GoMap.mem_keys_of_mem fc f cmap hm
    simp only
    split_ifs with hc
    · have hcm : c ∈ cmap := by simpa [setHas] using hc
      constructor
      · exact Or.inl
      · rintro (h | ⟨e1, e2⟩)
        · exact h
        · subst e1 e2; exact ⟨cmap, hm, hcm⟩
    · unfold Listed
      constructor
      · rintro ⟨cm, hm2, hc2⟩
        rcases (GoMap.mem_put_old fc f _ hf (f2, cm)).mp hm2 with ⟨hm3, _⟩ | e
        · exact Or.inl ⟨cm, hm3, hc2⟩
        · simp only [Prod.mk.injEq] at e
          obtain ⟨e1, e2⟩ := e
          subst e1 e2
          rcases List.mem_append.mp hc2 with h | h
          · exact Or.inl ⟨cmap, hm, h⟩
          · exact Or.inr ⟨rfl, by simpa using h⟩
      · rintro (⟨cm, hm2, hc2⟩ | ⟨e1, e2⟩)
        · by_cases e : f2 = f
          · subst e
            have : cm = cmap := by
              have := List.inj_on_of_nodup_map (f := Prod.fst) hk hm2 hm rfl
              simpa using this
            subst this
            exact ⟨cm ++ [c], (GoMap.mem_put_old fc f2 _ hf _).mpr (Or.inr rfl),
              List.mem_append_left _ hc2⟩
          · exact ⟨cm, (GoMap.mem_put_old fc f _ hf _).mpr (Or.inl ⟨hm2, e⟩), hc2⟩
        · subst e1 e2
          exact ⟨cmap ++ [c2], (GoMap.mem_put_old fc f2 _ hf _).mpr (Or.inr rfl), by simp⟩

theorem foldl_record (ctx : GoString) (feats : List GoString) :
    ∀ fc : GoMap (List GoString), WellFormed fc →
      WellFormed (feats.foldl (fun acc f => recordFeature acc f ctx) fc) ∧
      ∀ f2 c2, Listed (feats.foldl (fun acc f => recordFeature acc f ctx) fc) f2 c2 ↔
        Listed fc f2 c2 ∨ (f2 ∈ feats ∧ c2 = ctx) := by
  induction feats with
  | nil => intro fc h; exact ⟨h, by simp⟩
  | cons f rest ih =>
    intro fc h
    have h1 := recordFeature_wellFormed fc f ctx h
    obtain ⟨h2, h3⟩ := ih _ h1
    refine ⟨h2, ?_⟩
    intro f2 c2
    rw [List.foldl_cons, h3, recordFeature_listed fc f ctx h]
    simp only [List.mem_cons]
    tauto

theorem collectPackage_spec (showpos : Bool) (wanted : List GoString)
    (fc : GoMap (List GoString)) (pkg : GoString) (p : Package) (h : WellFormed fc) :
    WellFormed (collectPackage showpos wanted fc pkg p) ∧
      ∀ f2 c2, Listed (collectPackage showpos wanted fc pkg p) f2 c2 ↔
        Listed fc f2 c2 ∨
          (p.name ∈ wanted ∧ keyContext pkg = some c2 ∧ f2 ∈ p.Features showpos) := by
  unfold collectPackage keyContext
  by_cases hw : p.name ∈ wanted
  · have hw2 : setHas wanted p.name = true := (setHas_iff _ _).mpr hw
    simp only [hw2, if_true]
    by_cases hp : indexByte pkg 58 = -1
    · simp only [hp, if_true]
      exact ⟨h, by simp⟩
    · simp only [hp, if_false]
      obtain ⟨h2, h3⟩ := foldl_record (List.take (indexByte pkg 58).toNat pkg)
        (p.Features showpos) fc h
      refine ⟨h2, ?_⟩
      intro f2 c2
      rw [h3]
      simp only [hw, true_and, Option.some.injEq]
      constructor
      · rintro (h | ⟨h, e⟩)
        · exact Or.inl h
        · exact Or.inr ⟨e.symm, h⟩
      · rintro (h | ⟨e, h⟩)
        · exact Or.inl h
        · exact Or.inr ⟨h, e.symm⟩
  · have hw2 : setHas wanted p.name = false := by
      rw [← Bool.not_eq_true, setHas_iff]; exact hw
    simp only [hw2, Bool.false_eq_true, if_false]
    exact ⟨h, by simp [hw]⟩

theorem foldl_collect (showpos : Bool) (wanted : List GoString) (pm : GoMap Package) :
    ∀ fc : GoMap (List GoString), WellFormed fc →
      WellFormed (pm.foldl (fun featureCtx kv =>
        collectPackage showpos wanted featureCtx kv.1 kv.2) fc) ∧
      ∀ f2 c2, Listed (pm.foldl (fun featureCtx kv =>
          collectPackage showpos wanted featureCtx kv.1 kv.2) fc) f2 c2 ↔
        Listed fc f2 c2 ∨ ProducedUnder showpos wanted pm f2 c2 := by
  induction pm with
  | nil => intro fc h; exact ⟨h, by simp [ProducedUnder]⟩
  | cons kv rest ih =>
    intro fc h
    obtain ⟨h1, h1b⟩ := collectPackage_spec showpos wanted fc kv.1 kv.2 h
    obtain ⟨h2, h3⟩ := ih _ h1
    refine ⟨h2, ?_⟩
    intro f2 c2
    rw [List.foldl_cons, h3, h1b]
    simp only [ProducedUnder, List.mem_cons, exists_eq_or_imp]
    tauto

/-- The map `featureCtx` that `GoApi` builds records feature `f` for context
name `c` exactly when a wanted package lists `f` under a key of `c`. -/
theorem collectFeatures_spec (showpos : Bool) (wanted : List GoString) (pm : GoMap Package) :
    WellFormed (collectFeatures showpos wanted pm) ∧
      ∀ f c, Listed (collectFeatures showpos wanted pm) f c ↔
        ProducedUnder showpos wanted pm f c := by
  have hwf : WellFormed ([] : GoMap (List GoString)) := ⟨by simp [GoMap.keys], by simp⟩
  obtain ⟨h1, h2⟩ := foldl_collect showpos wanted pm [] hwf
  refine ⟨h1, ?_⟩
  intro f c
  rw [collectFeatures, h2]
  simp [Listed]

theorem mapM_some {α β : Type} (g : α → Option β) (h : α → β) (l : List α)
    (hg : ∀ x ∈ l, g x = some (h x)) : l.mapM g = some (l.map h) := by
  induction l with
  | nil => rfl
  | cons a rest ih =>
    rw [List.mapM_cons, hg a (List.mem_cons_self _ _),
      ih (fun x hx => hg x (List.mem_cons_of_mem _ hx))]
    rfl

/-- The first occurrence of a byte splits a string in one way only. -/
theorem split_unique (b : Nat) (u v u2 v2 : GoString) (hu : b ∉ u) (hu2 : b ∉ u2)
    (e : u ++ b :: v = u2 ++ b :: v2) : u = u2 ∧ v = v2 := by
  induction u generalizing u2 with
  | nil =>
    cases u2 with
    | nil => simpa using e
    | cons c cs =>
      simp only [List.nil_append, List.cons_append, List.cons.injEq] at e
      exact absurd (e.1 ▸ List.mem_cons_self _ _) hu2
  | cons a as ih =>
    cases u2 with
    | nil =>
      simp only [List.nil_append, List.cons_append, List.cons.injEq] at e
      exact absurd (e.1 ▸ List.mem_cons_self _ _) hu
    | cons c cs =>
      simp only [List.cons_append, List.cons.injEq] at e
      obtain ⟨e1, e2⟩ := e
      obtain ⟨h1, h2⟩ := ih cs (fun h => hu (List.mem_cons_of_mem _ h))
        (fun h => hu2 (List.mem_cons_of_mem _ h)) e2
      exact ⟨by rw [e1, h1], h2⟩

theorem variant_eq (pre post c : GoString) (h : 44 ∉ pre) :
    variant (pre ++ 44 :: post) c = pre ++ str " (" ++ c ++ str ")" ++ 44 :: post := by
  rw [variant, annotate_append pre post c h]
  rfl

theorem annotate_plain (f c : GoString) (h : PlainFeature f) :
    annotate f c = some (variant f c) := by
  obtain ⟨pre, post, e, hp, _⟩ := h
  subst e
  rw [variant_eq pre post c hp, annotate_append pre post c hp]

/-- A variant is not a plain feature: it has a parenthesis before its first
comma. -/
theorem variant_ne_plain (f g c : GoString) (hf : PlainFeature f) (hg : PlainFeature g)
    (hc : 44 ∉ c) : variant f c ≠ g := by
  obtain ⟨p1, q1, e1, h1, _⟩ := hf
  obtain ⟨p2, q2, e2, h2, k2⟩ := hg
  subst e1 e2
  rw [variant_eq p1 q1 c h1]
  intro e
  have hpre : 44 ∉ p1 ++ str " (" ++ c ++ str ")" := by
    simp only [List.mem_append, not_or]
    exact ⟨⟨⟨h1, by decide⟩, hc⟩, by decide⟩
  obtain ⟨e3, _⟩ := split_unique 44 _ _ _ _ hpre h2 e
  apply k2
  rw [← e3]
  simp only [List.mem_append]
  exact Or.inl (Or.inl (Or.inr (by decide)))

/-- Distinct features, or distinct contexts, have distinct variants. -/
theorem variant_injective (f g c d : GoString) (hf : PlainFeature f) (hg : PlainFeature g)
    (hc : 44 ∉ c) (hd : 44 ∉ d) (e : variant f c = variant g d) : f = g ∧ c = d := by
  obtain ⟨p1, q1, e1, h1, k1⟩ := hf
  obtain ⟨p2, q2, e2, h2, k2⟩ := hg
  subst e1 e2
  rw [variant_eq p1 q1 c h1, variant_eq p2 q2 d h2] at e
  have e' : (p1 ++ [32]) ++ 40 :: (c ++ 41 :: 44 :: q1) =
      (p2 ++ [32]) ++ 40 :: (d ++ 41 :: 44 :: q2) := by
    have s1 : str " (" = [32, 40] := by decide
    have s2 : str ")" = [41] := by decide
    rw [s1, s2] at e
    simpa [List.append_assoc] using e
  have n1 : 40 ∉ p1 ++ [32] := by
    simp only [List.mem_append, not_or]; exact ⟨k1, by decide⟩
  have n2 : 40 ∉ p2 ++ [32] := by
    simp only [List.mem_append, not_or]; exact ⟨k2, by decide⟩
  obtain ⟨e3, e4⟩ := split_unique 40 _ _ _ _ n1 n2 e'
  have ep : p1 = p2 := List.append_cancel_right e3
  have e4' : (c ++ [41]) ++ 44 :: q1 = (d ++ [41]) ++ 44 :: q2 := by
    simpa [List.append_assoc] using e4
  have m1 : 44 ∉ c ++ [41] := by
    simp only [List.mem_append, not_or]; exact ⟨hc, by decide⟩
  have m2 : 44 ∉ d ++ [41] := by
    simp only [List.mem_append, not_or]; exact ⟨hd, by decide⟩
  obtain ⟨e5, e6⟩ := split_unique 44 _ _ _ _ m1 m2 e4'
  have ec : c = d := List.append_cancel_right e5
  exact ⟨by rw [ep, e6], ec⟩


theorem mergeEntry_eq (n : Nat) (f : GoString) (cmap : List GoString)
    (h : cmap ≠ [] → PlainFeature f) : mergeEntry n f cmap = some (entryLines n f cmap) := by
  unfold mergeEntry entryLines
  split_ifs with hl
  · rfl
  · apply mapM_some
    intro c hc
    exact annotate_plain f c (h (List.ne_nil_of_mem hc))

theorem mergeFeatures_eq (n : Nat) (fc : GoMap (List GoString))
    (h : ∀ f c, Listed fc f c → PlainFeature f) :
    mergeFeatures n fc =
      some (sortStrings (fc.map (fun kv => entryLines n kv.1 kv.2)).flatten) := by
  unfold mergeFeatures
  rw [mapM_some (fun kv : GoString × List GoString => mergeEntry n kv.1 kv.2)
    (fun kv => entryLines n kv.1 kv.2)]
  · rfl
  · intro kv hkv
    apply mergeEntry_eq
    intro hne
    obtain ⟨c, hc⟩ := List.exists_mem_of_ne_nil _ hne
    exact h kv.1 c ⟨kv.2, hkv, hc⟩

/-- Only the entry of `F` counts for a line that no other entry adds. -/
theorem count_lines (n : Nat) (fc : GoMap (List GoString)) (hk : fc.keys.Nodup)
    (F : GoString) (cmapF : List GoString) (hF : (F, cmapF) ∈ fc) (x : GoString)
    (hx : ∀ kv ∈ fc, kv.1 ≠ F → x ∉ entryLines n kv.1 kv.2) :
    (sortStrings (fc.map (fun kv => entryLines n kv.1 kv.2)).flatten).count x =
      (entryLines n F cmapF).count x := by
  have hperm : (sortStrings (fc.map (fun kv => entryLines n kv.1 kv.2)).flatten).count x =
      ((fc.map (fun kv => entryLines n kv.1 kv.2)).flatten).count x := by
    simp only [List.count]
    exact (sortStrings_perm _).countP_eq _
  rw [hperm]
  obtain ⟨l1, l2, e⟩ := List.append_of_mem hF
  subst e
  have hk2 : ∀ kv, kv ∈ l1 ∨ kv ∈ l2 → kv.1 ≠ F := by
    unfold GoMap.keys at hk
    rw [List.map_append, List.map_cons] at hk
    have h1 := (List.nodup_append.mp hk).2.2
    have h2 := (List.nodup_cons.mp (List.nodup_append.mp hk).2.1).1
    intro kv hkv e
    rcases hkv with hm | hm
    · exact h1 (List.mem_map_of_mem Prod.fst hm)
        (by rw [e]; exact List.mem_cons_self _ _)
    · have hm2 : kv.1 ∈ List.map Prod.fst l2 := List.mem_map_of_mem Prod.fst hm
      rw [e] at hm2
      exact h2 hm2
  have z : ∀ l : GoMap (List GoString), (∀ kv ∈ l, kv ∈ l1 ∨ kv ∈ l2) →
      ((l.map (fun kv => entryLines n kv.1 kv.2)).flatten).count x = 0 := by
    intro l hl
    rw [List.count_eq_zero]
    intro hm
    simp only [List.mem_flatten, List.mem_map] at hm
    obtain ⟨ls, ⟨kv, hkv, e⟩, hxl⟩ := hm
    subst e
    have hin : kv ∈ l1 ++ (F, cmapF) :: l2 := by
      rcases hl kv hkv with h | h
      · exact List.mem_append_left _ h
      · exact List.mem_append_right _ (List.mem_cons_of_mem _ h)
    exact hx kv hin (hk2 kv (hl kv hkv)) hxl
  rw [List.map_append, List.map_cons, List.flatten_append, List.flatten_cons,
    List.count_append, List.count_append, z l1 (fun kv h => Or.inl h),
    z l2 (fun kv h => Or.inr h)]
  simp


theorem count_map_one (g : GoString → GoString) (l : List GoString) (c : GoString)
    (hinj : ∀ d ∈ l, g d = g c → d = c) (hnd : l.Nodup) (hc : c ∈ l) :
    (l.map g).count (g c) = 1 := by
  induction l with
  | nil => simp at hc
  | cons d rest ih =>
    rw [List.map_cons, List.count_cons]
    obtain ⟨hd, hrest⟩ := List.nodup_cons.mp hnd
    by_cases e : d = c
    · subst e
      have hz : (rest.map g).count (g d) = 0 := by
        rw [List.count_eq_zero]
        intro hm
        simp only [List.mem_map] at hm
        obtain ⟨y, hy, ey⟩ := hm
        have := hinj y (List.mem_cons_of_mem _ hy) ey
        exact hd (this ▸ hy)
      simp [hz]
    · have hcr : c ∈ rest := by
        rcases List.mem_cons.mp hc with h | h
        · exact absurd h.symm e
        · exact h
      have hne : g d ≠ g c := fun h => e (hinj d (List.mem_cons_self _ _) h)
      rw [ih (fun y hy => hinj y (List.mem_cons_of_mem _ hy)) hrest hcr]
      simp [hne]

theorem length_eq_iff_covers (cmap labels : List GoString) (h1 : cmap.Nodup)
    (h2 : labels.Nodup) (hsub : cmap ⊆ labels) :
    cmap.length = labels.length ↔ ∀ c ∈ labels, c ∈ cmap := by
  have sp := List.subperm_of_subset h1 hsub
  constructor
  · intro e c hc
    exact (sp.perm_of_length_le (by omega)).mem_iff.mpr hc
  · intro h
    have sp2 := List.subperm_of_subset h2 h
    have := sp.length_le
    have := sp2.length_le
    omega

theorem recordFeature_nonempty (fc : GoMap (List GoString)) (f c : GoString)
    (h : ∀ kv ∈ fc, kv.2 ≠ []) : ∀ kv ∈ recordFeature fc f c, kv.2 ≠ [] := by
  unfold recordFeature
  cases hg : fc.get f with
  | none =>
    have hf := GoMap.get_none fc f hg
    simp only
    rw [GoMap.put_new fc f [c] hf]
    intro kv hkv
    rcases List.mem_append.mp hkv with hm | hm
    · exact h kv hm
    · simp only [List.mem_singleton] at hm
      subst hm
      simp
  | some cmap =>
    have hm := GoMap.get_some fc f cmap hg
    have hf := GoMap.mem_keys_of_mem fc f cmap hm
    simp only
    split_ifs with hc
    · exact h
    · intro kv hkv
      rcases (GoMap.mem_put_old fc f _ hf kv).mp hkv with ⟨hm2, _⟩ | e
      · exact h kv hm2
      · subst e
        simp

theorem foldl_record_nonempty (ctx : GoString) (feats : List GoString) :
    ∀ fc : GoMap (List GoString), (∀ kv ∈ fc, kv.2 ≠ []) →
      ∀ kv ∈ feats.foldl (fun acc f => recordFeature acc f ctx) fc, kv.2 ≠ [] := by
  induction feats with
  | nil => intro fc h; exact h
  | cons f rest ih =>
    intro fc h
    rw [List.foldl_cons]
    exact ih _ (recordFeature_nonempty fc f ctx h)

theorem collectPackage_nonempty (showpos : Bool) (wanted : List GoString)
    (fc : GoMap (List GoString)) (pkg : GoString) (p : Package)
    (h : ∀ kv ∈ fc, kv.2 ≠ []) :
    ∀ kv ∈ collectPackage showpos wanted fc pkg p, kv.2 ≠ [] := by
  unfold collectPackage
  by_cases hw : setHas wanted p.name = true
  · rw [if_pos hw]
    simp only
    by_cases hp : indexByte pkg 58 = -1
    · rw [if_pos hp]; exact h
    · rw [if_neg hp]; exact foldl_record_nonempty _ _ fc h
  · rw [if_neg hw]; exact h

/-- Every feature of `featureCtx` is recorded for a context name. -/
theorem collectFeatures_nonempty (showpos : Bool) (wanted : List GoString)
    (pm : GoMap Package) : ∀ kv ∈ collectFeatures showpos wanted pm, kv.2 ≠ [] := by
  have key : ∀ (l : GoMap Package) (fc : GoMap (List GoString)), (∀ kv ∈ fc, kv.2 ≠ []) →
      ∀ kv ∈ l.foldl (fun featureCtx kv =>
        collectPackage showpos wanted featureCtx kv.1 kv.2) fc, kv.2 ≠ [] := by
    intro l
    induction l with
    | nil => intro fc h; exact h
    | cons x rest ih =>
      intro fc h
      rw [List.foldl_cons]
      exact ih _ (collectPackage_nonempty showpos wanted fc x.1 x.2 h)
  exact key pm [] (by simp)

/-- The keys that `emitFeature` writes under the scope of a package `name`,
with the separator `, `, are plain features when `name` has no comma and no
opening parenthesis. -/
theorem scopedFeature_plain (w : Walker) (name feature : GoString) (rest : List GoString)
    (hs : w.scope = (str "pkg " ++ name) :: rest) (hsep : w.sep = str ", ")
    (hn : 44 ∉ name) (hp : 40 ∉ name) : PlainFeature (scopedFeature w feature) := by
  have h44 : 44 ∉ str "pkg " ++ name := by
    simp only [List.mem_append, not_or]; exact ⟨by decide, hn⟩
  have h40 : 40 ∉ str "pkg " ++ name := by
    simp only [List.mem_append, not_or]; exact ⟨by decide, hp⟩
  have e1 : str ", " = [44, 32] := by decide
  unfold scopedFeature
  rw [hs, hsep, e1]
  cases rest with
  | nil =>
    exact ⟨str "pkg " ++ name, 32 :: featureLine feature, by simp [join], h44, h40⟩
  | cons b r =>
    exact ⟨str "pkg " ++ name, 32 :: (join (b :: r) [44, 32] ++ [44, 32] ++ featureLine feature),
      by simp [join], h44, h40⟩

/-- The method `emitFeature` keeps the features of the current package plain. -/
theorem emitFeature_plain (w : Walker) (name feature : GoString) (rest : List GoString)
    (pos : Int) (hs : w.scope = (str "pkg " ++ name) :: rest) (hsep : w.sep = str ", ")
    (hn : 44 ∉ name) (hp : 40 ∉ name)
    (h : ∀ f ∈ w.curPackage.features.keys, PlainFeature f) :
    ∀ f ∈ (emitFeature w feature pos).curPackage.features.keys, PlainFeature f := by
  unfold emitFeature
  by_cases h1 : (!setHas w.wantedPkg w.curPackage.name) = true
  · rw [if_pos h1]; exact h
  · rw [if_neg h1]
    simp only
    by_cases h2 : w.curPackage.features.has (scopedFeature w feature) = true
    · rw [if_pos h2]; exact h
    · rw [if_neg h2]
      have hk : scopedFeature w feature ∉ w.curPackage.features.keys := by
        rw [← GoMap.has_iff]; exact h2
      simp only
      rw [GoMap.put_new _ _ _ hk, GoMap.keys_append]
      intro f hf
      rcases List.mem_append.mp hf with hm | hm
      · exact h f hm
      · simp only [List.mem_singleton] at hm
        rw [hm]
        exact scopedFeature_plain w name feature rest hs hsep hn hp

/-- The method `Package.Features` lists plain features when the keys of the
feature map are plain. -/
theorem Features_plain (showpos : Bool) (p : Package)
    (h : ∀ f ∈ p.features.keys, PlainFeature f) :
    ∀ f ∈ p.Features showpos, PlainFeature f := by
  intro f hf
  unfold Package.Features at hf
  rw [(sortStrings_perm _).mem_iff, List.mem_map] at hf
  obtain ⟨fps, hm, e⟩ := hf
  have hpl := h fps.1 (List.mem_map_of_mem Prod.fst hm)
  cases showpos with
  | false => simp only [Bool.false_eq_true, if_false] at e; exact e ▸ hpl
  | true =>
    simp only [if_true] at e
    obtain ⟨pre, post, e1, h1, h2⟩ := hpl
    exact ⟨pre, post ++ p.sep ++ itoa fps.2, by rw [← e, e1]; simp, h1, h2⟩

/-- The key under which the loader stores the package `name` for the context
name `label` is counted for `label`, when `label` has no colon. -/
theorem keyContext_loaderKey (label name : GoString) (h : 58 ∉ label) :
    keyContext (label ++ str ":" ++ name) = some label := by
  have e0 : str ":" = [58] := by decide
  have e : label ++ str ":" ++ name = label ++ 58 :: name := by rw [e0]; simp
  have hi := indexByte_append label name 58 h
  unfold keyContext
  rw [e, hi]
  have : ¬ ((label.length : Int) = -1) := by omega
  simp [this]

/-- C5, amended: when every recorded feature is a plain feature and no recorded
context name has a comma, then for every recorded feature `F` and the set
`names` of the context names under which `F` is recorded: if the number of
these names is the number of contexts of the run, the merged list contains `F`
exactly once and no variant of `F`; otherwise it does not contain `F`, and it
contains the variant of `F` for a name exactly once when `F` is recorded under
that name and not at all when it is not.  When the labels of the contexts are
pairwise distinct and every name of `names` is one of them, the number of the
names is the number of the contexts exactly when `F` is recorded under every
context of the run. -/
theorem mergeContexts_fanout (showpos : Bool) (contexts : List Context)
    (wantedPkg : List GoString) (packageMap : GoMap Package) (F : GoString)
    (hplain : ∀ f c, ProducedUnder showpos wantedPkg packageMap f c →
      PlainFeature f ∧ 44 ∉ c)
    (hF : ∃ c, ProducedUnder showpos wantedPkg packageMap F c) :
    ∃ (L names : List GoString),
      mergeContexts showpos contexts wantedPkg packageMap = some L ∧
      names.Nodup ∧ (∀ c, c ∈ names ↔ ProducedUnder showpos wantedPkg packageMap F c) ∧
      (names.length = contexts.length →
        L.count F = 1 ∧ ∀ c a, 44 ∉ c → annotate F c = some a → a ∉ L) ∧
      (names.length ≠ contexts.length →
        F ∉ L ∧ ∀ c, 44 ∉ c → ∃ a, annotate F c = some a ∧
          (c ∈ names → L.count a = 1) ∧ (c ∉ names → a ∉ L)) ∧
      ((contexts.map contextName).Nodup →
        (∀ c ∈ names, c ∈ contexts.map contextName) →
        (names.length = contexts.length ↔
          ∀ c ∈ contexts, ProducedUnder showpos wantedPkg packageMap F (contextName c))) := by
  obtain ⟨hwf, hlisted⟩ := collectFeatures_spec showpos wantedPkg packageMap
  have hne := collectFeatures_nonempty showpos wantedPkg packageMap
  obtain ⟨c0, hc0⟩ := hF
  obtain ⟨cmapF, hmem, hc0m⟩ := (hlisted F c0).mpr hc0
  have hFplain : PlainFeature F := (hplain F c0 hc0).1
  have hpl : ∀ f c, Listed (collectFeatures showpos wantedPkg packageMap) f c →
      PlainFeature f := fun f c h => (hplain f c ((hlisted f c).mp h)).1
  have hnc : ∀ f c, Listed (collectFeatures showpos wantedPkg packageMap) f c → 44 ∉ c :=
    fun f c h => (hplain f c ((hlisted f c).mp h)).2
  have hprod : ∀ c, c ∈ cmapF ↔ ProducedUnder showpos wantedPkg packageMap F c := by
    intro c
    rw [← hlisted F c]
    constructor
    · intro h; exact ⟨cmapF, hmem, h⟩
    · rintro ⟨cm, hm, hc⟩
      have : (F, cm) = (F, cmapF) := List.inj_on_of_nodup_map (f := Prod.fst) hwf.1 hm hmem rfl
      simp only [Prod.mk.injEq, true_and] at this
      exact this ▸ hc
  -- the lines of the other entries
  have hother1 : ∀ kv ∈ collectFeatures showpos wantedPkg packageMap, kv.1 ≠ F →
      F ∉ entryLines contexts.length kv.1 kv.2 := by
    intro kv hkv hne
    unfold entryLines
    split_ifs with hl
    · simpa using hne.symm
    · intro hm
      simp only [List.mem_map] at hm
      obtain ⟨d, hd, e⟩ := hm
      have hL : Listed (collectFeatures showpos wantedPkg packageMap) kv.1 d := ⟨kv.2, hkv, hd⟩
      exact variant_ne_plain kv.1 F d (hpl _ _ hL) hFplain (hnc _ _ hL) e
  have hother2 : ∀ c, 44 ∉ c → ∀ kv ∈ collectFeatures showpos wantedPkg packageMap,
      kv.1 ≠ F → variant F c ∉ entryLines contexts.length kv.1 kv.2 := by
    intro c hc kv hkv hnF
    unfold entryLines
    split_ifs with hl
    · obtain ⟨d, hd⟩ := List.exists_mem_of_ne_nil _ (hne kv hkv)
      have hL : Listed (collectFeatures showpos wantedPkg packageMap) kv.1 d :=
        ⟨kv.2, hkv, hd⟩
      simpa using variant_ne_plain F kv.1 c hFplain (hpl _ _ hL) hc
    · intro hm
      simp only [List.mem_map] at hm
      obtain ⟨d, hd, e⟩ := hm
      have hL : Listed (collectFeatures showpos wantedPkg packageMap) kv.1 d := ⟨kv.2, hkv, hd⟩
      exact hnF (variant_injective kv.1 F d c (hpl _ _ hL) hFplain (hnc _ _ hL) hc e).1
  have hcF := count_lines contexts.length _ hwf.1 F cmapF hmem F hother1
  have hcV := fun c (hc : 44 ∉ c) =>
    count_lines contexts.length _ hwf.1 F cmapF hmem (variant F c) (hother2 c hc)
  refine ⟨_, cmapF, by rw [mergeContexts, mergeFeatures_eq _ _ hpl], hwf.2 _ hmem, hprod,
    ?_, ?_, ?_⟩
  · intro hl
    constructor
    · rw [hcF, entryLines, if_pos hl]
      simp
    · intro c a hc ha
      rw [annotate_plain F c hFplain] at ha
      simp only [Option.some.injEq] at ha
      subst ha
      rw [← List.count_eq_zero, hcV c hc, entryLines, if_pos hl, List.count_eq_zero]
      simpa using variant_ne_plain F F c hFplain hFplain hc
  · intro hl
    constructor
    · rw [← List.count_eq_zero, hcF, entryLines, if_neg hl, List.count_eq_zero]
      intro hm
      simp only [List.mem_map] at hm
      obtain ⟨d, hd, e⟩ := hm
      exact variant_ne_plain F F d hFplain hFplain (hnc F d ⟨cmapF, hmem, hd⟩) e
    · intro c hc
      refine ⟨variant F c, annotate_plain F c hFplain, ?_, ?_⟩
      · intro hp
        rw [hcV c hc, entryLines, if_neg hl]
        exact count_map_one (variant F) cmapF c
          (fun d hd e => (variant_injective F F d c hFplain hFplain
            (hnc F d ⟨cmapF, hmem, hd⟩) hc e).2)
          (hwf.2 _ hmem) hp
      · intro hp
        rw [← List.count_eq_zero, hcV c hc, entryLines, if_neg hl, List.count_eq_zero]
        intro hm
        simp only [List.mem_map] at hm
        obtain ⟨d, hd, e⟩ := hm
        have := (variant_injective F F d c hFplain hFplain
          (hnc F d ⟨cmapF, hmem, hd⟩) hc e).2
        exact hp (this ▸ hd)
  · intro hctx hsub
    have := length_eq_iff_covers cmapF (contexts.map contextName) (hwf.2 _ hmem) hctx hsub
    rw [List.length_map] at this
    rw [this]
    simp only [List.mem_map, forall_exists_index, and_imp, forall_apply_eq_imp_iff₂, hprod]

/-- What the package map of the example lists: `F` under both contexts, `G`
under `windows-amd64` only. -/
theorem example_produced (f c : GoString)
    (h : ProducedUnder false [str "p"]
      [(str "linux-amd64:p",
          { name := str "p", sep := str ", ", features := [(str "pkg p, func F()", 10)] }),
        (str "windows-amd64:p",
          { name := str "p", sep := str ", ",
            features := [(str "pkg p, func G()", 12), (str "pkg p, func F()", 10)] })] f c) :
    (c = str "linux-amd64" ∨ c = str "windows-amd64") ∧
      (f = str "pkg p, func F()" ∨ f = str "pkg p, func G()") ∧
      (f = str "pkg p, func G()" → c = str "windows-amd64") := by
  obtain ⟨kv, hkv, _, hk, hf⟩ := h
  have k1 : keyContext (str "linux-amd64:p") = some (str "linux-amd64") := by decide
  have k2 : keyContext (str "windows-amd64:p") = some (str "windows-amd64") := by decide
  have f1 : Package.Features false
      { name := str "p", sep := str ", ", features := [(str "pkg p, func F()", 10)] } =
      [str "pkg p, func F()"] := by decide
  have f2 : Package.Features false
      { name := str "p", sep := str ", ",
        features := [(str "pkg p, func G()", 12), (str "pkg p, func F()", 10)] } =
      [str "pkg p, func F()", str "pkg p, func G()"] := by decide
  simp only [List.mem_cons, List.mem_singleton, List.not_mem_nil, or_false] at hkv
  rcases hkv with e | e
  · subst e
    simp only [k1, Option.some.injEq, f1, List.mem_singleton] at hk hf
    subst hk hf
    exact ⟨Or.inl rfl, Or.inl rfl, fun h => absurd h (by decide)⟩
  · subst e
    simp only [k2, Option.some.injEq, f2, List.mem_cons, List.mem_singleton,
      List.not_mem_nil, or_false] at hk hf
    subst hk
    rcases hf with hf | hf
    · exact ⟨Or.inr rfl, Or.inl hf, fun _ => rfl⟩
    · exact ⟨Or.inr rfl, Or.inr hf, fun _ => rfl⟩

/-- What the package map of the run with the one context linux/amd64 with cgo
lists: the feature `pkg p, func F()`, under `linux-amd64` and under
`linux-amd64-cgo`. -/
theorem osArch_produced (f c : GoString) :
    ProducedUnder false [str "p"] osArchPackageMap f c ↔
      f = str "pkg p, func F()" ∧ (c = str "linux-amd64" ∨ c = str "linux-amd64-cgo") := by
  have e : osArchPackageMap =
      [(str "linux-amd64:p",
          { name := str "p", sep := str ", ", features := [(str "pkg p, func F()", 0)],
            files := [(str "f_linux.go", { name := str "p", imports := [] })],
            dir := str "/p" }),
        (str "linux-amd64-cgo:p",
          { name := str "p", sep := str ", ", features := [(str "pkg p, func F()", 0)],
            files := [(str "f_linux.go", { name := str "p", imports := [] })],
            dir := str "/p" })] := rfl
  have k1 : keyContext (str "linux-amd64:p") = some (str "linux-amd64") := by decide
  have k2 : keyContext (str "linux-amd64-cgo:p") = some (str "linux-amd64-cgo") := by decide
  have f1 : Package.Features false
      { name := str "p", sep := str ", ", features := [(str "pkg p, func F()", 0)],
        files := [(str "f_linux.go", { name := str "p", imports := [] })],
        dir := str "/p" } = [str "pkg p, func F()"] := by decide
  rw [e]
  constructor
  · rintro ⟨kv, hkv, _, hk, hf⟩
    simp only [List.mem_cons, List.mem_singleton, List.not_mem_nil, or_false] at hkv
    rcases hkv with e1 | e1
    · subst e1
      simp only [k1, Option.some.injEq, f1, List.mem_singleton] at hk hf
      exact ⟨hf, Or.inl hk.symm⟩
    · subst e1
      simp only [k2, Option.some.injEq, f1, List.mem_singleton] at hk hf
      exact ⟨hf, Or.inr hk.symm⟩
  · rintro ⟨hf, hc | hc⟩
    · subst hf hc
      exact ⟨_, List.mem_cons_self _ _, by decide, k1, by rw [f1]; simp⟩
    · subst hf hc
      exact ⟨_, List.mem_cons_of_mem _ (List.mem_cons_self _ _), by decide, k2,
        by rw [f1]; simp⟩

/-- Witness of C5.  `F` listed under `linux-amd64` and `windows-amd64`, `G`
under `windows-amd64` only: the merged list is the variant of `G` and `F`.  The
package map of the run with the one context linux/amd64 with cgo, where `F` is
recorded under `linux-amd64` and `linux-amd64-cgo`: two names for one context,
and the merged list is the two variants of `F`, without `F`. -/
theorem mergeContexts_fanout_witness :
    (∃ (L names : List GoString), mergeContexts false
        [{ GOOS := str "linux", GOARCH := str "amd64", CgoEnabled := false },
          { GOOS := str "windows", GOARCH := str "amd64", CgoEnabled := false }]
        [str "p"]
        [(str "linux-amd64:p",
            { name := str "p", sep := str ", ", features := [(str "pkg p, func F()", 10)] }),
          (str "windows-amd64:p",
            { name := str "p", sep := str ", ",
              features := [(str "pkg p, func G()", 12), (str "pkg p, func F()", 10)] })] =
          some L ∧
        L = [str "pkg p (windows-amd64), func G()", str "pkg p, func F()"] ∧
        names.Nodup ∧ (∀ c, c ∈ names ↔ c = str "windows-amd64") ∧
        names.length ≠ 2) ∧
    (∃ (L names : List GoString),
      mergeContexts false [{ GOOS := str "linux", GOARCH := str "amd64", CgoEnabled := true }]
        [str "p"] osArchPackageMap = some L ∧
      L = [str "pkg p (linux-amd64), func F()", str "pkg p (linux-amd64-cgo), func F()"] ∧
      names.Nodup ∧
      (∀ c, c ∈ names ↔ c = str "linux-amd64" ∨ c = str "linux-amd64-cgo") ∧
      names.length ≠ 1 ∧ str "pkg p, func F()" ∉ L) := by
  constructor
  · obtain ⟨L, names, hL, hnd, hiff, _, _, hcov⟩ := mergeContexts_fanout false
      [{ GOOS := str "linux", GOARCH := str "amd64", CgoEnabled := false },
        { GOOS := str "windows", GOARCH := str "amd64", CgoEnabled := false }]
      [str "p"]
      [(str "linux-amd64:p",
          { name := str "p", sep := str ", ", features := [(str "pkg p, func F()", 10)] }),
        (str "windows-amd64:p",
          { name := str "p", sep := str ", ",
            features := [(str "pkg p, func G()", 12), (str "pkg p, func F()", 10)] })]
      (str "pkg p, func G()")
      (fun f c h => by
        refine ⟨?_, ?_⟩
        · rcases (example_produced f c h).2.1 with e | e
          · exact ⟨str "pkg p", str " func F()", by rw [e]; decide, by decide, by decide⟩
          · exact ⟨str "pkg p", str " func G()", by rw [e]; decide, by decide, by decide⟩
        · rcases (example_produced f c h).1 with e | e <;> subst e <;> decide)
      ⟨str "windows-amd64", (str "windows-amd64:p",
          { name := str "p", sep := str ", ",
            features := [(str "pkg p, func G()", 12), (str "pkg p, func F()", 10)] }),
        by simp, by decide, by decide, by decide⟩
    have hG : ∀ c, c ∈ names ↔ c = str "windows-amd64" := by
      intro c
      rw [hiff]
      constructor
      · intro h
        exact (example_produced _ c h).2.2 rfl
      · intro e
        subst e
        exact ⟨(str "windows-amd64:p",
          { name := str "p", sep := str ", ",
            features := [(str "pkg p, func G()", 12), (str "pkg p, func F()", 10)] }),
          by simp, by decide, by decide, by decide⟩
    have hlen : names.length ≠ 2 := by
      intro h2
      have hall := (hcov (by decide) (fun c hc => by rw [(hG c).mp hc]; decide)).mp h2
      have h1 := hall { GOOS := str "linux", GOARCH := str "amd64", CgoEnabled := false }
        (by simp)
      have := (example_produced _ _ h1).2.2 rfl
      exact absurd this (by decide)
    refine ⟨L, names, hL, ?_, hnd, hG, hlen⟩
    have : mergeContexts false
        [{ GOOS := str "linux", GOARCH := str "amd64", CgoEnabled := false },
          { GOOS := str "windows", GOARCH := str "amd64", CgoEnabled := false }]
        [str "p"]
        [(str "linux-amd64:p",
            { name := str "p", sep := str ", ", features := [(str "pkg p, func F()", 10)] }),
          (str "windows-amd64:p",
            { name := str "p", sep := str ", ",
              features := [(str "pkg p, func G()", 12), (str "pkg p, func F()", 10)] })] =
        some [str "pkg p (windows-amd64), func G()", str "pkg p, func F()"] := by decide
    rw [this] at hL
    exact (Option.some.inj hL).symm
  · obtain ⟨L, names, hL, hnd, hiff, _, hne, _⟩ := mergeContexts_fanout false
      [{ GOOS := str "linux", GOARCH := str "amd64", CgoEnabled := true }]
      [str "p"] osArchPackageMap (str "pkg p, func F()")
      (fun f c h => by
        obtain ⟨hf, hc⟩ := (osArch_produced f c).mp h
        refine ⟨⟨str "pkg p", str " func F()", by rw [hf]; decide, by decide,
          by decide⟩, ?_⟩
        rcases hc with e | e <;> subst e <;> decide)
      ⟨str "linux-amd64", (osArch_produced _ _).mpr ⟨rfl, Or.inl rfl⟩⟩
    have hN : ∀ c, c ∈ names ↔ c = str "linux-amd64" ∨ c = str "linux-amd64-cgo" := by
      intro c
      rw [hiff, osArch_produced]
      simp
    have hlen : names.length ≠ 1 := by
      intro h1
      obtain ⟨x, hx⟩ := List.length_eq_one.mp h1
      have a1 : str "linux-amd64" ∈ names := (hN _).mpr (Or.inl rfl)
      have a2 : str "linux-amd64-cgo" ∈ names := (hN _).mpr (Or.inr rfl)
      rw [hx, List.mem_singleton] at a1 a2
      exact absurd (a1.trans a2.symm) (by decide)
    have hm : mergeContexts false
        [{ GOOS := str "linux", GOARCH := str "amd64", CgoEnabled := true }]
        [str "p"] osArchPackageMap =
        some [str "pkg p (linux-amd64), func F()", str "pkg p (linux-amd64-cgo), func F()"] := by
      decide
    rw [hm] at hL
    have eL := (Option.some.inj hL).symm
    exact ⟨L, names, hm.trans (by rw [eL]), eL, hnd, hN, hlen, (hne hlen).1⟩

/-- C5 as stated fails.  With two contexts of the same label `linux-386`, a
feature listed under every context of the run is merged into its variant for
`linux-386`, and the merged list does not contain the feature itself.  In a
run with the one context linux/amd64 with cgo, the package `p` with an OS/arch
file and no cgo file is stored under the keys `linux-amd64:p` and
`linux-amd64-cgo:p`, and its feature, produced under the only context of the
run, is merged into two variants, one of them for `linux-amd64`, which is no
context of the run; with the context without cgo, alone or after the one with
cgo, the feature is listed once.  A feature without a comma that is not
recorded for as many names as there are contexts makes the merge panic.  A
context name with a comma, or a feature with a parenthesis before its first
comma, makes two entries of the merged list equal. -/
theorem mergeContexts_not_per_context :
    ((∀ c ∈ [({ GOOS := str "linux", GOARCH := str "386", CgoEnabled := false } : Context),
          { GOOS := str "linux", GOARCH := str "386", CgoEnabled := false }],
        ProducedUnder false [str "p"]
          [(str "linux-386:p",
            { name := str "p", sep := str ", ", features := [(str "pkg p, func F()", 10)] })]
          (str "pkg p, func F()") (contextName c)) ∧
      mergeContexts false
          [{ GOOS := str "linux", GOARCH := str "386", CgoEnabled := false },
            { GOOS := str "linux", GOARCH := str "386", CgoEnabled := false }]
          [str "p"]
          [(str "linux-386:p",
            { name := str "p", sep := str ", ", features := [(str "pkg p, func F()", 10)] })] =
        some [str "pkg p (linux-386), func F()"] ∧
      str "pkg p, func F()" ∉ [str "pkg p (linux-386), func F()"]) ∧
    (∀ fuel,
      ((walkContexts (fuel + 3) [str "p"] [osArchWorld true]
          (newWalker (str ", ") [str "p"])).bind fun w =>
        .ok (w.packageMap.map (fun kv => (kv.1, kv.2.name, kv.2.Features false)))) =
        .ok [(str "linux-amd64:p", str "p", [str "pkg p, func F()"]),
          (str "linux-amd64-cgo:p", str "p", [str "pkg p, func F()"])] ∧
      goApiFeatures false (str ", ") (fuel + 3) [str "p"] [osArchWorld true] =
        .ok [str "pkg p (linux-amd64), func F()", str "pkg p (linux-amd64-cgo), func F()"] ∧
      goApiFeatures false (str ", ") (fuel + 3) [str "p"] [osArchWorld false] =
        .ok [str "pkg p, func F()"] ∧
      goApiFeatures false (str ", ") (fuel + 3) [str "p"]
          [osArchWorld true, osArchWorld false] =
        .ok [str "pkg p, func F()"]) ∧
    (∀ c ∈ [({ GOOS := str "linux", GOARCH := str "amd64", CgoEnabled := true } : Context)],
      ProducedUnder false [str "p"] osArchPackageMap (str "pkg p, func F()") (contextName c)) ∧
    mergeContexts false
        [{ GOOS := str "linux", GOARCH := str "386", CgoEnabled := false },
          { GOOS := str "linux", GOARCH := str "amd64", CgoEnabled := false }]
        [str "p"]
        [(str "linux-386:p",
          { name := str "p", sep := str "; ", features := [(str "pkg p; func F()", 10)] })] =
      none ∧
    mergeContexts false
        [{ GOOS := str "a", GOARCH := str "b), y (a-b", CgoEnabled := false },
          { GOOS := str "a", GOARCH := str "b", CgoEnabled := false },
          { GOOS := str "linux", GOARCH := str "386", CgoEnabled := false }]
        [str "p"]
        [(str "a-b), y (a-b:p",
            { name := str "p", sep := str ", ", features := [(str "pkg p, x", 10)] }),
          (str "a-b:p",
            { name := str "p", sep := str ", ", features := [(str "pkg p, y (a-b), x", 12)] })] =
      some [str "pkg p (a-b), y (a-b), x", str "pkg p (a-b), y (a-b), x"] ∧
    mergeContexts false
        [{ GOOS := str "linux", GOARCH := str "386", CgoEnabled := false },
          { GOOS := str "linux", GOARCH := str "amd64", CgoEnabled := false }]
        [str "p", str "p (linux-386)"]
        [(str "linux-386:p",
            { name := str "p", sep := str ", ", features := [(str "pkg p, A", 10)] }),
          (str "linux-386:p (linux-386)",
            { name := str "p (linux-386)", sep := str ", ",
              features := [(str "pkg p (linux-386), A", 12)] }),
          (str "linux-amd64:p (linux-386)",
            { name := str "p (linux-386)", sep := str ", ",
              features := [(str "pkg p (linux-386), A", 12)] })] =
      some [str "pkg p (linux-386), A", str "pkg p (linux-386), A"] := by
  refine ⟨⟨?_, by decide, by decide⟩, fun fuel => ⟨rfl, rfl, rfl, rfl⟩, ?_, by decide,
    by decide, by decide⟩
  swap
  · intro c hc
    simp only [List.mem_singleton] at hc
    subst hc
    exact (osArch_produced _ _).mpr ⟨rfl, Or.inr (by decide)⟩
  intro c hc
  have hcn : contextName c = str "linux-386" := by
    simp only [List.mem_cons, List.mem_singleton, List.not_mem_nil, or_false, or_self] at hc
    subst hc
    decide
  rw [hcn]
  exact ⟨(str "linux-386:p",
    { name := str "p", sep := str ", ", features := [(str "pkg p, func F()", 10)] }),
    by simp, by decide, by decide, by decide⟩

/-! ## `namelessType` and `constTypePriority` -/

/-- C16: `constTypePriority` is strictly decreasing along complex128,
ideal-imag, complex64, float64, ideal-float, float32, int64, int, ideal-int,
int16, ideal-char, equal on int, uint, uintptr and on int16, uint16, int8,
uint8, byte, and 101, above all of them, on every string that is not in the
table. -/
theorem constTypePriority_table :
    [str "complex128", str "ideal-imag", str "complex64", str "float64", str "ideal-float",
        str "float32", str "int64", str "int", str "ideal-int", str "int16",
        str "ideal-char"].map constTypePriority =
        [100, 99, 98, 97, 96, 95, 94, 93, 92, 91, 90] ∧
      [str "int", str "uint", str "uintptr"].map constTypePriority = [93, 93, 93] ∧
      [str "int16", str "uint16", str "int8", str "uint8", str "byte"].map constTypePriority =
        [91, 91, 91, 91, 91] ∧
      (∀ typ : GoString,
        typ ∉ [str "complex128", str "ideal-imag", str "complex64", str "float64",
          str "ideal-float", str "float32", str "int64", str "int", str "uint", str "uintptr",
          str "ideal-int", str "int16", str "uint16", str "int8", str "uint8", str "byte",
          str "ideal-char"] →
        constTypePriority typ = 101) ∧
      (∀ typ : GoString, constTypePriority typ ≤ 101 ∧
        (constTypePriority typ = 101 ∨ (90 ≤ constTypePriority typ ∧ constTypePriority typ ≤ 100))) := by
  refine ⟨by decide, by decide, by decide, ?_, ?_⟩
  · intro typ h
    have hne : ∀ t ∈ [str "complex128", str "ideal-imag", str "complex64", str "float64",
          str "ideal-float", str "float32", str "int64", str "int", str "uint", str "uintptr",
          str "ideal-int", str "int16", str "uint16", str "int8", str "uint8", str "byte",
          str "ideal-char"], typ ≠ t := fun t ht e => h (e ▸ ht)
    unfold constTypePriority
    rw [if_neg (hne _ (by decide)), if_neg (hne _ (by decide)), if_neg (hne _ (by decide)),
      if_neg (hne _ (by decide)), if_neg (hne _ (by decide)), if_neg (hne _ (by decide)),
      if_neg (hne _ (by decide)),
      if_neg (not_or.mpr ⟨hne _ (by decide), not_or.mpr ⟨hne _ (by decide), hne _ (by decide)⟩⟩),
      if_neg (hne _ (by decide)),
      if_neg (not_or.mpr ⟨hne _ (by decide), not_or.mpr ⟨hne _ (by decide),
        not_or.mpr ⟨hne _ (by decide), not_or.mpr ⟨hne _ (by decide), hne _ (by decide)⟩⟩⟩⟩),
      if_neg (hne _ (by decide))]
  · intro typ
    unfold constTypePriority
    by_cases h0 : typ = str "complex128"
    · rw [if_pos h0]; omega
    rw [if_neg h0]
    by_cases h1 : typ = str "ideal-imag"
    · rw [if_pos h1]; omega
    rw [if_neg h1]
    by_cases h2 : typ = str "complex64"
    · rw [if_pos h2]; omega
    rw [if_neg h2]
    by_cases h3 : typ = str "float64"
    · rw [if_pos h3]; omega
    rw [if_neg h3]
    by_cases h4 : typ = str "ideal-float"
    · rw [if_pos h4]; omega
    rw [if_neg h4]
    by_cases h5 : typ = str "float32"
    · rw [if_pos h5]; omega
    rw [if_neg h5]
    by_cases h6 : typ = str "int64"
    · rw [if_pos h6]; omega
    rw [if_neg h6]
    by_cases h7 : typ = str "int" ∨ typ = str "uint" ∨ typ = str "uintptr"
    · rw [if_pos h7]; omega
    rw [if_neg h7]
    by_cases h8 : typ = str "ideal-int"
    · rw [if_pos h8]; omega
    rw [if_neg h8]
    by_cases h9 : typ = str "int16" ∨ typ = str "uint16" ∨ typ = str "int8" ∨ typ = str "uint8" ∨
      typ = str "byte"
    · rw [if_pos h9]; omega
    rw [if_neg h9]
    by_cases h10 : typ = str "ideal-char"
    · rw [if_pos h10]; omega
    rw [if_neg h10]
    omega

/-- Witness of C16: `int32` is not in the table and ranks 101. -/
theorem constTypePriority_table_witness :
    str "int32" ∉ [str "complex128", str "ideal-imag", str "complex64", str "float64",
          str "ideal-float", str "float32", str "int64", str "int", str "uint", str "uintptr",
          str "ideal-int", str "int16", str "uint16", str "int8", str "uint8", str "byte",
          str "ideal-char"] ∧ constTypePriority (str "int32") = 101 :=
  ⟨by decide, constTypePriority_table.2.2.2.1 (str "int32") (by decide)⟩

/-- C11: for `func(cb func(x int) bool)`, `namelessType` removes the name
`cb` and keeps the function type of the callback as it is, so that the
parameter name `x` remains in the result. -/
theorem namelessType_keeps_nested_names :
    namelessType
        (.funcType
          (some [.mk [str "cb"]
            (.funcType (some [.mk [str "x"] (.ident (str "int"))])
              (some [.mk [] (.ident (str "bool"))]))])
          none) =
        .funcType
          (some [.mk []
            (.funcType (some [.mk [str "x"] (.ident (str "int"))])
              (some [.mk [] (.ident (str "bool"))]))])
          (some []) ∧
      variableNames (namelessType
        (.funcType
          (some [.mk [str "cb"]
            (.funcType (some [.mk [str "x"] (.ident (str "int"))])
              (some [.mk [] (.ident (str "bool"))]))])
          none)) = [str "x"] := by
  constructor
  · rfl
  · decide

/-! ## `resolveConstantDeps` -/

theorem findConstType_self (constDep consts : GoMap ExprType) (a : GoString) (x : Expr)
    (h : constDep.get a = some ⟨x, a⟩) : ∀ fuel, findConstType constDep consts fuel a = none := by
  intro fuel
  induction fuel with
  | zero => rfl
  | succ n ih => rw [findConstType, h]; exact ih

theorem findConstType_pair (constDep consts : GoMap ExprType) (a b : GoString) (x y : Expr)
    (ha : constDep.get a = some ⟨x, b⟩) (hb : constDep.get b = some ⟨y, a⟩) :
    ∀ fuel, findConstType constDep consts fuel a = none ∧
      findConstType constDep consts fuel b = none := by
  intro fuel
  induction fuel with
  | zero => exact ⟨rfl, rfl⟩
  | succ n ih =>
    constructor
    · rw [findConstType, ha]; exact ih.2
    · rw [findConstType, hb]; exact ih.1

/-- C14: for `const A = A`, `walkConst` records the dependency of `A` on `A`,
and `resolveConstantDeps` does not return then, whatever the depth allowed to
`findConstType`. -/
theorem resolveConstantDeps_cycle_diverges :
    (walkConst exampleEnv
        { scope := [str "pkg p"], sep := str ", ",
          curPackage := { name := str "p", sep := str ", ", features := [] },
          wantedPkg := [str "p"] }
        { names := [str "A"], type := none, values := [.ident (str "A")] }).constDep.map
          (fun kv => (kv.1, kv.2.T)) = [(str "A", str "A")] ∧
      ∀ fuel : Nat,
        (resolveConstantDeps exampleEnv fuel
          (walkConst exampleEnv
            { scope := [str "pkg p"], sep := str ", ",
              curPackage := { name := str "p", sep := str ", ", features := [] },
              wantedPkg := [str "p"] }
            { names := [str "A"], type := none, values := [.ident (str "A")] })).isNone =
          true := by
  constructor
  · decide
  · intro fuel
    have hw : walkConst exampleEnv
        { scope := [str "pkg p"], sep := str ", ",
          curPackage := { name := str "p", sep := str ", ", features := [] },
          wantedPkg := [str "p"] }
        { names := [str "A"], type := none, values := [.ident (str "A")] } =
        { scope := [str "pkg p"], sep := str ", ",
          curPackage := { name := str "p", sep := str ", ", features := [] },
          wantedPkg := [str "p"],
          constDep := [(str "A", { X := .ident (str "A"), T := str "A" })] } := by
      rfl
    rw [hw]
    have hf := findConstType_self [(str "A", { X := .ident (str "A"), T := str "A" })] []
      (str "A") (.ident (str "A")) (by rfl) fuel
    have hx : exampleEnv.isExtract (str "A") = true := by decide
    simp only [resolveConstantDeps, List.foldlM, resolveConstantDep, hx, hf]
    rfl

/-! ## `constValueType` and `varValueType` -/

/-- C18, amended: for an equality or ordering operator (`==`, `!=`, `<`,
`<=`, `>`, `>=`), `constValueType` and `varValueType` return `bool`, whatever
the operands are. -/
theorem comparison_is_bool (env : Env) (other : Expr → Int → Outcome StrErr) (w : Walker)
    (x y : Expr) (op : Token) (index : Int) (fuel : Nat)
    (hop : op ∈ [Token.EQL, Token.NEQ, Token.LSS, Token.LEQ, Token.GTR, Token.GEQ]) :
    constValueType env w (.binary x op y) = ⟨str "bool", false⟩ ∧
      varValueType env other w (fuel + 1) (some (.binary x op y)) index =
        .ok ⟨str "bool", false⟩ := by
  simp only [List.mem_cons, List.mem_singleton, List.not_mem_nil, or_false] at hop
  rcases hop with h | h | h | h | h | h <;> subst h <;> exact ⟨rfl, rfl⟩

/-- Witness of C18: `a <= b` for two names that are not known. -/
theorem comparison_is_bool_witness :
    Token.LEQ ∈ [Token.EQL, Token.NEQ, Token.LSS, Token.LEQ, Token.GTR, Token.GEQ] ∧
      constValueType exampleEnv
          { scope := [str "pkg p"], sep := str ", ",
            curPackage := { name := str "p", sep := str ", ", features := [] },
            wantedPkg := [str "p"] }
          (.binary (.ident (str "a")) .LEQ (.ident (str "b"))) = ⟨str "bool", false⟩ :=
  ⟨by decide, (comparison_is_bool exampleEnv (fun _ _ => .panic)
    { scope := [str "pkg p"], sep := str ", ",
      curPackage := { name := str "p", sep := str ", ", features := [] },
      wantedPkg := [str "p"] }
    (.ident (str "a")) (.ident (str "b")) .LEQ 0 0 (by decide)).1⟩

/-- C18 as stated fails for `&&` and `||`: for two names that are not known,
`constValueType` of `a && b` is the dependency on `a`, and `varValueType` of
`a || b` is an error. -/
theorem logical_is_not_bool :
    constValueType exampleEnv
        { scope := [str "pkg p"], sep := str ", ",
          curPackage := { name := str "p", sep := str ", ", features := [] },
          wantedPkg := [str "p"] }
        (.binary (.ident (str "a")) .LAND (.ident (str "b"))) =
        ⟨str "const-dependency:a", false⟩ ∧
      ∀ (other : Expr → Int → Outcome StrErr) (fuel : Nat),
        varValueType exampleEnv other
          { scope := [str "pkg p"], sep := str ", ",
            curPackage := { name := str "p", sep := str ", ", features := [] },
            wantedPkg := [str "p"] }
          (fuel + 2) (some (.binary (.ident (str "a")) .LOR (.ident (str "b")))) 0 =
          .ok ⟨[], true⟩ := by
  constructor
  · decide
  · intro other fuel
    rfl

/-- The arithmetic case of `constValueType`. -/
theorem constValueType_arith (env : Env) (w : Walker) (x y : Expr) (op : Token)
    (hop : isBoolOp op = false) (h1 : op ≠ .SHL) (h2 : op ≠ .SHR) :
    constValueType env w (.binary x op y) =
      if (constValueType env w x).err then ⟨[], true⟩
      else if (constValueType env w y).err then ⟨[], true⟩
      else if (constValueType env w x).s ≠ (constValueType env w y).s then
        if hasPrefix (constValueType env w x).s constDepPrefix &&
            hasPrefix (constValueType env w y).s constDepPrefix then
          ⟨(constValueType env w x).s, false⟩
        else if constTypePriority (constRealType env w (constValueType env w x).s) ≥
            constTypePriority (constRealType env w (constValueType env w y).s) then
          ⟨(constValueType env w x).s, false⟩
        else ⟨(constValueType env w y).s, false⟩
      else ⟨(constValueType env w x).s, false⟩ := by
  cases op
  all_goals first
    | rfl
    | exact absurd hop (by decide)
    | exact absurd rfl h1
    | exact absurd rfl h2

/-- C17: for a binary constant expression whose operator is neither a
comparison nor a shift and whose operands resolve, not both to constant
dependencies: equal operand types give that type, different ones give the type
whose `constTypePriority`, after `constRealType`, is higher, and when the two
priorities differ the result is the same for both orders of the operands;
`constRealType` replaces a named type of the current package, or of a package
found through its qualifier, by the text of the type that its declaration
gives it, without the names of parameters, leaves a name without a qualifier
that is not a declared type as it is, and makes a type of the pseudo-package
`C` an `int`. -/
theorem constValueType_binary_priority (env : Env) (w : Walker) (x y : Expr) (op : Token)
    (hop : isBoolOp op = false) (h1 : op ≠ .SHL) (h2 : op ≠ .SHR)
    (hx : (constValueType env w x).err = false) (hy : (constValueType env w y).err = false)
    (hdep : ¬ (hasPrefix (constValueType env w x).s constDepPrefix = true ∧
      hasPrefix (constValueType env w y).s constDepPrefix = true)) :
    ((constValueType env w x).s = (constValueType env w y).s →
        constValueType env w (.binary x op y) = ⟨(constValueType env w x).s, false⟩) ∧
      ((constValueType env w x).s ≠ (constValueType env w y).s →
        constTypePriority (constRealType env w (constValueType env w x).s) >
          constTypePriority (constRealType env w (constValueType env w y).s) →
        constValueType env w (.binary x op y) = ⟨(constValueType env w x).s, false⟩) ∧
      ((constValueType env w x).s ≠ (constValueType env w y).s →
        constTypePriority (constRealType env w (constValueType env w x).s) <
          constTypePriority (constRealType env w (constValueType env w y).s) →
        constValueType env w (.binary x op y) = ⟨(constValueType env w y).s, false⟩) ∧
      (constTypePriority (constRealType env w (constValueType env w x).s) ≠
          constTypePriority (constRealType env w (constValueType env w y).s) →
        constValueType env w (.binary x op y) = constValueType env w (.binary y op x)) ∧
      (∀ typ ret, indexByte typ 46 < 0 → w.curPackage.findType typ = some ret →
        constRealType env w typ = env.nodeString (namelessType ret)) ∧
      (∀ typ, indexByte typ 46 < 0 → w.curPackage.findType typ = none →
        constRealType env w typ = typ) ∧
      (∀ typ p ret, 0 ≤ indexByte typ 46 →
        typ.take (indexByte typ 46).toNat ≠ str "C" →
        findPackage w (typ.take (indexByte typ 46).toNat) = some p →
        p.findType (typ.drop ((indexByte typ 46).toNat + 1)) = some ret →
        constRealType env w typ = env.nodeString (namelessType ret)) ∧
      (∀ typ, 0 ≤ indexByte typ 46 → typ.take (indexByte typ 46).toNat = str "C" →
        constRealType env w typ = str "int") := by
  have hd : (hasPrefix (constValueType env w x).s constDepPrefix &&
      hasPrefix (constValueType env w y).s constDepPrefix) = false := by
    rw [← Bool.not_eq_true, Bool.and_eq_true]; exact hdep
  have hd2 : (hasPrefix (constValueType env w y).s constDepPrefix &&
      hasPrefix (constValueType env w x).s constDepPrefix) = false := by
    rw [Bool.and_comm]; exact hd
  rw [constValueType_arith env w x y op hop h1 h2, constValueType_arith env w y x op hop h1 h2]
  simp only [hx, hy, hd, hd2, Bool.false_eq_true, if_false]
  refine ⟨?_, ?_, ?_, ?_, ?_, ?_, ?_, ?_⟩
  · intro e
    rw [if_neg (not_not.mpr e)]
  · intro hne hgt
    rw [if_pos hne, if_pos (le_of_lt hgt)]
  · intro hne hlt
    rw [if_pos hne, if_neg (not_le.mpr hlt)]
  · intro hp
    have hne : (constValueType env w x).s ≠ (constValueType env w y).s :=
      fun e => hp (by rw [e])
    rw [if_pos hne, if_pos (Ne.symm hne)]
    rcases lt_or_gt_of_ne hp with h | h
    · rw [if_neg (not_le.mpr h), if_pos (le_of_lt h)]
    · rw [if_pos (le_of_lt h), if_neg (not_le.mpr h)]
  · intro typ ret hpos hf
    unfold constRealType
    simp only [if_neg (not_le.mpr hpos), hf]
  · intro typ hpos hf
    unfold constRealType
    simp only [if_neg (not_le.mpr hpos), hf]
  · intro typ p ret hpos hC hp hf
    unfold constRealType
    simp only [if_pos hpos, if_neg hC, hp, hf]
  · intro typ hpos hC
    unfold constRealType
    simp only [if_pos hpos, if_pos hC]

/-- Witness of C17: `1 + 2.0` and `2.0 + 1` are both ideal-float; with
`type T int8; const x T = 1` the type of `x` is `T`, which `constRealType`
replaces by `int8`, so that `x + 2.0` and `2.0 + x` are both ideal-float, and
`x + '1'` is `T`. -/
theorem constValueType_binary_priority_witness :
    constValueType exampleEnv namedConstWalker
        (.binary (.basicLit .INT (str "1")) .ADD (.basicLit .FLOAT (str "2.0"))) =
        ⟨str "ideal-float", false⟩ ∧
      constValueType exampleEnv namedConstWalker
        (.binary (.basicLit .FLOAT (str "2.0")) .ADD (.basicLit .INT (str "1"))) =
        ⟨str "ideal-float", false⟩ ∧
      constValueType exampleEnv namedConstWalker (.ident (str "x")) = ⟨str "T", false⟩ ∧
      constRealType exampleEnv namedConstWalker (str "T") = str "int8" ∧
      constValueType exampleEnv namedConstWalker
        (.binary (.ident (str "x")) .ADD (.basicLit .FLOAT (str "2.0"))) =
        ⟨str "ideal-float", false⟩ ∧
      constValueType exampleEnv namedConstWalker
        (.binary (.basicLit .FLOAT (str "2.0")) .ADD (.ident (str "x"))) =
        ⟨str "ideal-float", false⟩ ∧
      constValueType exampleEnv namedConstWalker
        (.binary (.ident (str "x")) .ADD (.basicLit .CHAR (str "1"))) =
        ⟨str "T", false⟩ :=
  ⟨(constValueType_binary_priority exampleEnv namedConstWalker
      (.basicLit .INT (str "1")) (.basicLit .FLOAT (str "2.0")) .ADD
      (by decide) (by decide) (by decide) (by decide) (by decide) (by decide)).2.2.1
      (by decide) (by decide),
    (constValueType_binary_priority exampleEnv namedConstWalker
      (.basicLit .FLOAT (str "2.0")) (.basicLit .INT (str "1")) .ADD
      (by decide) (by decide) (by decide) (by decide) (by decide) (by decide)).2.1
      (by decide) (by decide),
    by decide,
    (constValueType_binary_priority exampleEnv namedConstWalker
      (.ident (str "x")) (.basicLit .FLOAT (str "2.0")) .ADD
      (by decide) (by decide) (by decide) (by decide) (by decide) (by decide)).2.2.2.2.1
      (str "T") (.ident (str "int8")) (by decide) rfl,
    (constValueType_binary_priority exampleEnv namedConstWalker
      (.ident (str "x")) (.basicLit .FLOAT (str "2.0")) .ADD
      (by decide) (by decide) (by decide) (by decide) (by decide) (by decide)).2.2.1
      (by decide) (by decide),
    (constValueType_binary_priority exampleEnv namedConstWalker
      (.basicLit .FLOAT (str "2.0")) (.ident (str "x")) .ADD
      (by decide) (by decide) (by decide) (by decide) (by decide) (by decide)).2.1
      (by decide) (by decide),
    (constValueType_binary_priority exampleEnv namedConstWalker
      (.ident (str "x")) (.basicLit .CHAR (str "1")) .ADD
      (by decide) (by decide) (by decide) (by decide) (by decide) (by decide)).2.1
      (by decide) (by decide)⟩

/-- C19: for a local variable `x` of type `uint8`, `varValueType` of `x << 1`
is a type mismatch error and not `uint8`, the type of `x`; `constValueType` of
the same expression for a constant `x` is `uint8`. -/
theorem varValueType_shift_mismatch :
    (∀ (other : Expr → Int → Outcome StrErr) (fuel : Nat),
        varValueType exampleEnv other
            { scope := [str "pkg p"], sep := str ", ",
              curPackage := { name := str "p", sep := str ", ", features := [] },
              wantedPkg := [str "p"],
              localvar := [(str "x", { X := .ident (str "x"), T := str "uint8" })] }
            (fuel + 2) (some (.ident (str "x"))) 0 = .ok ⟨str "uint8", false⟩ ∧
          varValueType exampleEnv other
            { scope := [str "pkg p"], sep := str ", ",
              curPackage := { name := str "p", sep := str ", ", features := [] },
              wantedPkg := [str "p"],
              localvar := [(str "x", { X := .ident (str "x"), T := str "uint8" })] }
            (fuel + 2) (some (.binary (.ident (str "x")) .SHL (.basicLit .INT (str "1")))) 0 =
            .ok ⟨[], true⟩) ∧
      constValueType exampleEnv
          { scope := [str "pkg p"], sep := str ", ",
            curPackage := { name := str "p", sep := str ", ", features := [],
                            consts := [(str "x", { X := .ident (str "x"), T := str "uint8" })] },
            wantedPkg := [str "p"] }
          (.binary (.ident (str "x")) .SHL (.basicLit .INT (str "1"))) =
        ⟨str "uint8", false⟩ := by
  refine ⟨fun other fuel => ⟨rfl, rfl⟩, by decide⟩

/-- C20: integer, float, string, char and imaginary literals are int, float64,
string, rune, complex128 for `varValueType` and for `lookupExpr` (which returns
that type with a builtin info whose name is the literal text, cut after 128
bytes, and no error), and ideal-int, ideal-float, ideal-string, ideal-char,
ideal-imag for `constValueType`; the declaration `const K = 1` of package `p`
gives exactly the feature `pkg p, const K ideal-int`. -/
theorem basicLit_types (env : Env) (other : Expr → Int → Outcome StrErr)
    (otherExpr : Expr → Outcome (GoString × Option TypeInfo × Bool))
    (lookupFunction : GoString → GoString → Option TypeInfo × Bool)
    (inRange : Expr → Bool) (w : Walker)
    (value : GoString) (index : Int) (fuel : Nat) :
    ([Token.INT, Token.FLOAT, Token.STRING, Token.CHAR, Token.IMAG].map (fun kind =>
          varValueType env other w (fuel + 1) (some (.basicLit kind value)) index) =
        [.ok ⟨str "int", false⟩, .ok ⟨str "float64", false⟩, .ok ⟨str "string", false⟩,
          .ok ⟨str "rune", false⟩, .ok ⟨str "complex128", false⟩]) ∧
      ([Token.INT, Token.FLOAT, Token.STRING, Token.CHAR, Token.IMAG].map (fun kind =>
          lookupExpr env other otherExpr lookupFunction inRange w (fuel + 1)
            (.basicLit kind value)) =
        [(Token.INT, str "int"), (Token.FLOAT, str "float64"), (Token.STRING, str "string"),
          (Token.CHAR, str "rune"), (Token.IMAG, str "complex128")].map (fun kt =>
          .ok (kt.2,
            some { Kind := .KindBuiltin, X := some (.basicLit kt.1 value),
                   Name := if value.length ≥ 128 then value.take 128 ++ str "..." else value,
                   T := some (.basicLit kt.1 value), Type_ := kt.2 },
            false))) ∧
      ([Token.INT, Token.FLOAT, Token.STRING, Token.CHAR, Token.IMAG].map (fun kind =>
          constValueType env w (.basicLit kind value)) =
        [⟨str "ideal-int", false⟩, ⟨str "ideal-float", false⟩, ⟨str "ideal-string", false⟩,
          ⟨str "ideal-char", false⟩, ⟨str "ideal-imag", false⟩]) ∧
      (walkConst exampleEnv
          { scope := [str "pkg p"], sep := str ", ",
            curPackage := { name := str "p", sep := str ", ", features := [] },
            wantedPkg := [str "p"] }
          { names := [str "K"], type := none,
            values := [.basicLit .INT (str "1")] }).curPackage.features =
        [(str "pkg p, const K ideal-int", 0)] := by
  refine ⟨rfl, rfl, rfl, by decide⟩

/-! ## Struct types -/

theorem emitAll_nil (w : Walker) : emitAll w [] = w := rfl

theorem emitAll_cons (w : Walker) (l : GoString × Int) (ls : List (GoString × Int)) :
    emitAll w (l :: ls) = emitAll (emitFeature w l.1 l.2) ls := rfl

theorem emitAll_append (w : Walker) (l1 l2 : List (GoString × Int)) :
    emitAll w (l1 ++ l2) = emitAll (emitAll w l1) l2 := by
  unfold emitAll
  rw [List.foldl_append]

theorem emitAll_scope (w : Walker) (ls : List (GoString × Int)) :
    (emitAll w ls).scope = w.scope := by
  induction ls generalizing w with
  | nil => rfl
  | cons l ls ih => rw [emitAll_cons, ih, (emitFeature_scope w l.1 l.2).1]

theorem foldl_named_fields (env : Env) (typ : Expr) (names : List GoString) (w : Walker) :
    names.foldl (fun w name =>
        if env.isExtract name then
          emitFeature w (name ++ str " " ++ env.nodeString (namelessType typ))
            (env.pos (.ident name))
        else w) w =
      emitAll w ((names.filter env.isExtract).map (fun name =>
        (name ++ str " " ++ env.nodeString (namelessType typ), env.pos (.ident name)))) := by
  induction names generalizing w with
  | nil => rfl
  | cons n ns ih =>
    rw [List.foldl_cons, ih]
    by_cases h : env.isExtract n = true
    · rw [if_pos h, List.filter_cons_of_pos h, List.map_cons, emitAll_cons]
    · rw [if_neg h, List.filter_cons_of_neg h]

theorem walkStructField_eq (env : Env) (w : Walker) (f : Field) :
    walkStructField env w f = emitAll w (structFieldLines env f) := by
  obtain ⟨names, typ⟩ := f
  unfold walkStructField structFieldLines
  simp only [Field.names, Field.type]
  rw [foldl_named_fields, emitAll_append]
  by_cases hn : names = []
  · subst hn
    simp only [if_true]
    unfold embeddedLine
    cases typ with
    | ident v => simp only; split_ifs <;> rfl
    | star x =>
      cases x with
      | ident vv => simp only; split_ifs <;> rfl
      | selector a b => rfl
      | _ => rfl
    | selector a b => rfl
    | _ => rfl
  · simp only [if_neg hn]
    rfl

theorem foldl_walkStructField (env : Env) (fields : List Field) (w : Walker) :
    fields.foldl (walkStructField env) w = emitAll w (structLines env fields) := by
  induction fields generalizing w with
  | nil => rfl
  | cons f fs ih =>
    rw [List.foldl_cons, ih, walkStructField_eq]
    unfold structLines
    rw [List.flatMap_cons, emitAll_append]

/-- C13: `walkStructType` emits `type A struct` and then, in the nested scope
`type A struct`, the lines of the fields: `FIELD TYPE` for every exported
named field, `embedded TYPE` for every exported embedded type and nothing for
the other fields; the scope stack is afterwards the one before the call.  For
`type A struct{ X int; Y string }` in package `p` the features are exactly
`pkg p, type A struct`, `pkg p, type A struct, X int` and
`pkg p, type A struct, Y string`. -/
theorem walkStructType_emits (env : Env) (w : Walker) (name : GoString) (fields : List Field) :
    walkStructType env w name fields =
        some { emitAll
            (pushScope
              (emitFeature w (str "type " ++ name ++ str " struct")
                (env.pos (.structType fields) - (name.length + 1)))
              (str "type " ++ name ++ str " struct"))
            (structLines env fields) with scope := w.scope } ∧
      (walkStructType exampleEnv
          { scope := [str "pkg p"], sep := str ", ",
            curPackage := { name := str "p", sep := str ", ", features := [] },
            wantedPkg := [str "p"] }
          (str "A")
          [.mk [str "X"] (.ident (str "int")), .mk [str "Y"] (.ident (str "string"))]).map
          (fun w => (w.scope, w.curPackage.features.keys)) =
        some ([str "pkg p"],
          [str "pkg p, type A struct", str "pkg p, type A struct, X int",
            str "pkg p, type A struct, Y string"]) := by
  constructor
  · unfold walkStructType
    simp only
    rw [foldl_walkStructField]
    unfold popScope
    have hs : (emitAll
        (pushScope
          (emitFeature w (str "type " ++ name ++ str " struct")
            (env.pos (.structType fields) - (name.length + 1)))
          (str "type " ++ name ++ str " struct"))
        (structLines env fields)).scope = w.scope ++ [str "type " ++ name ++ str " struct"] := by
      rw [emitAll_scope]
      simp only [pushScope]
      rw [(emitFeature_scope _ _ _).1]
    rw [if_neg (by rw [hs]; simp)]
    rw [hs, List.dropLast_concat]
  · decide

/-! ## Interface types -/

theorem foldl_declared_methods (env : Env) (f : Field) (params results : Option (List Field))
    (names : List GoString) (acc : List Method × Bool) :
    names.foldl (fun (acc : List Method × Bool) mname =>
        if env.isExtract mname then
          (acc.1 ++ [{ name := mname, sig := funcSigString env.nodeString params results,
                       params := params, results := results, pos := env.fieldPos f }],
            acc.2)
        else (acc.1, false)) acc =
      (acc.1 ++ (names.filter env.isExtract).map (fun mname =>
          ({ name := mname, sig := funcSigString env.nodeString params results,
             params := params, results := results, pos := env.fieldPos f } : Method)),
        acc.2 && names.all env.isExtract) := by
  induction names generalizing acc with
  | nil => simp
  | cons n ns ih =>
    rw [List.foldl_cons, ih]
    by_cases h : env.isExtract n = true
    · simp [h, List.filter_cons_of_pos]
    · have h2 : env.isExtract n = false := by rw [← Bool.not_eq_true]; exact h
      simp [h2]

/-- The methods that `interfaceMethods` lists are the exported ones among all
the methods, and the list is complete exactly when all of them are
exported. -/
theorem interfaceMethods_spec (env : Env) (w : Walker)
    (hErr : env.isExtract (str "Error") = true) :
    ∀ (fuel : Nat) (pkg iname : GoString) (names : List GoString),
      allMethodNames env w fuel pkg iname = some names →
      ∃ methods, interfaceMethods env w fuel pkg iname =
          some (methods, names.all env.isExtract) ∧
        methods.map (fun m => m.name) = names.filter env.isExtract := by
  intro fuel
  induction fuel with
  | zero => intro pkg iname names h; simp [allMethodNames] at h
  | succ n ih =>
    intro pkg iname names h
    rw [allMethodNames] at h
    rw [interfaceMethods]
    cases hl : lookupInterface w pkg iname with
    | none => rw [hl] at h; simp at h
    | some list =>
      rw [hl] at h
      simp only at h ⊢
      -- the loop over the fields, from any state
      have loop : ∀ (l : List Field) (ns0 : List GoString) (ms0 : List Method) (c0 : Bool)
          (names : List GoString),
          ms0.map (fun m => m.name) = ns0.filter env.isExtract →
          c0 = ns0.all env.isExtract →
          l.foldlM (fun (acc : List GoString) f =>
            match f.type with
            | .funcType _ _ => some (acc ++ f.names)
            | .ident embedded =>
              if embedded = str "error" then some (acc ++ [str "Error"])
              else
                match allMethodNames env w n pkg embedded with
                | none => none
                | some names => some (acc ++ names)
            | .selector x sel =>
              match allMethodNames env w n
                  ((w.selectorFullPkg.get (env.nodeString x)).getD [])
                  (env.nodeString (.ident sel)) with
              | none => none
              | some names => some (acc ++ names)
            | _ => some acc) ns0 = some names →
          ∃ methods, l.foldlM (fun (acc : List Method × Bool) f =>
            match f.type with
            | .funcType params results =>
              some (f.names.foldl (fun (acc : List Method × Bool) mname =>
                if env.isExtract mname then
                  (acc.1 ++ [{ name := mname,
                               sig := funcSigString env.nodeString params results,
                               params := params, results := results,
                               pos := env.fieldPos f }],
                    acc.2)
                else (acc.1, false)) acc)
            | .ident embedded =>
              if embedded = str "error" then
                some (acc.1 ++ [errorMethod (env.fieldPos f)], acc.2)
              else
                match interfaceMethods env w n pkg embedded with
                | none => none
                | some mc => some (acc.1 ++ mc.1, acc.2 && mc.2)
            | .selector x sel =>
              let lhs := env.nodeString x
              let rhs := env.nodeString (.ident sel)
              let fpkg := (w.selectorFullPkg.get lhs).getD []
              match interfaceMethods env w n fpkg rhs with
              | none => none
              | some mc => some (acc.1 ++ mc.1, acc.2 && mc.2)
            | _ => some acc) (ms0, c0) = some (methods, names.all env.isExtract) ∧
            methods.map (fun m => m.name) = names.filter env.isExtract := by
        intro l
        induction l with
        | nil =>
          intro ns0 ms0 c0 names hm hc hf
          simp only [List.foldlM_nil, Option.pure_def, Option.some.injEq] at hf
          subst hf
          exact ⟨ms0, by simp [hc], hm⟩
        | cons f rest ihl =>
          intro ns0 ms0 c0 names hm hc hf
          rw [List.foldlM_cons] at hf ⊢
          obtain ⟨fnames, ftype⟩ := f
          cases ftype with
          | funcType params results =>
            simp only [Field.type, Field.names, Option.bind_eq_bind, Option.some_bind] at hf ⊢
            rw [foldl_declared_methods]
            refine ihl (ns0 ++ fnames) _ _ names ?_ ?_ hf
            · rw [List.map_append, hm, List.filter_append, List.map_map]
              congr 1
              exact List.map_id'' (fun _ => rfl) _
            · simp [hc, List.all_append]
          | ident embedded =>
            simp only [Field.type, Option.bind_eq_bind] at hf ⊢
            by_cases he : embedded = str "error"
            · simp only [he, if_true, Option.some_bind] at hf ⊢
              refine ihl (ns0 ++ [str "Error"]) _ _ names ?_ ?_ hf
              · simp [hm, List.filter_append, hErr, errorMethod]
              · simp [hc, List.all_append, hErr]
            · simp only [he, if_false] at hf ⊢
              cases ha : allMethodNames env w n pkg embedded with
              | none => rw [ha] at hf; simp at hf
              | some enames =>
                rw [ha] at hf
                simp only [Option.some_bind] at hf
                obtain ⟨ems, hem1, hem2⟩ := ih pkg embedded enames ha
                rw [hem1]
                simp only [Option.some_bind]
                refine ihl (ns0 ++ enames) _ _ names ?_ ?_ hf
                · simp [hm, hem2, List.filter_append]
                · simp [hc, List.all_append]
          | selector x sel =>
            simp only [Field.type, Option.bind_eq_bind] at hf ⊢
            cases ha : allMethodNames env w n
                ((w.selectorFullPkg.get (env.nodeString x)).getD [])
                (env.nodeString (.ident sel)) with
            | none => rw [ha] at hf; simp at hf
            | some enames =>
              rw [ha] at hf
              simp only [Option.some_bind] at hf
              obtain ⟨ems, hem1, hem2⟩ := ih _ _ enames ha
              rw [hem1]
              simp only [Option.some_bind]
              refine ihl (ns0 ++ enames) _ _ names ?_ ?_ hf
              · simp [hm, hem2, List.filter_append]
              · simp [hc, List.all_append]
          | _ =>
            simp only [Field.type, Option.bind_eq_bind, Option.some_bind] at hf ⊢
            exact ihl ns0 ms0 c0 names hm hc hf
      exact loop list [] [] true names rfl rfl h

/-- The scope stack has no part in `interfaceMethods`. -/
theorem interfaceMethods_pushScope (env : Env) (w : Walker) (s : GoString) :
    ∀ (fuel : Nat) (pkg iname : GoString),
      interfaceMethods env (pushScope w s) fuel pkg iname =
        interfaceMethods env w fuel pkg iname := by
  intro fuel
  induction fuel with
  | zero => intro pkg iname; rfl
  | succ n ih =>
    intro pkg iname
    rw [interfaceMethods, interfaceMethods]
    have hl : lookupInterface (pushScope w s) pkg iname = lookupInterface w pkg iname := rfl
    rw [hl]
    cases lookupInterface w pkg iname with
    | none => rfl
    | some list =>
      simp only
      congr 1
      funext acc f
      obtain ⟨fnames, ftype⟩ := f
      cases ftype <;> simp only [Field.type, ih] <;> rfl

theorem filter_eq_self_of_all (p : GoString → Bool) (l : List GoString)
    (h : l.all p = true) : l.filter p = l := by
  rw [List.filter_eq_self]
  intro a ha
  exact (List.all_eq_true.mp h) a ha

/-- The function returned by `pushScope` removes the scope that was pushed. -/
theorem popScope_pushed (w : Walker) (scope : List GoString) (s : GoString)
    (h : w.scope = scope ++ [s]) : popScope w = some { w with scope := scope } := by
  unfold popScope
  rw [if_neg (by rw [h]; simp), h, List.dropLast_concat]

/-- When the interface `N` and the interfaces that it embeds are found in the
table `w.interfaces`, and `names` are all its methods, declared or obtained
through embedding,
`walkInterfaceType` emits, in the scope `type N interface`, one `M SIGNATURE`
feature for every exported method; when every method is exported it then
emits `type N interface { M1, ..., Mk }` with the names sorted
(`type N interface {}` when there is none), and otherwise it emits the
sentinel `unexported methods` in the scope `type N interface` and no list of
names.  The scope stack is afterwards the one before the call. -/
theorem walkInterfaceType_emits (env : Env) (fuel : Nat) (w : Walker) (name : GoString)
    (t : Expr) (names : List GoString) (hErr : env.isExtract (str "Error") = true)
    (h : allMethodNames env w fuel w.curPackageName name = some names) :
    ∃ methods, interfaceMethods env w fuel w.curPackageName name =
          some (methods, names.all env.isExtract) ∧
        methods.map (fun m => m.name) = names.filter env.isExtract ∧
        (names.all env.isExtract = true →
          walkInterfaceType env fuel w name t =
            some (emitFeature
              { emitAll
                  { pushScope w (str "type " ++ name ++ str " interface") with
                    curPackage := { w.curPackage with
                      interfaceMethods := w.curPackage.interfaceMethods.put name methods } }
                  (methods.map (fun m => (m.name ++ m.sig, m.pos))) with scope := w.scope }
              (if names = [] then str "type " ++ name ++ str " interface {}"
                else str "type " ++ name ++ str " interface \x7b " ++
                  join (sortStrings names) (str ", ") ++ str " \x7d")
              (env.pos t - (name.length + 1)))) ∧
        (names.all env.isExtract = false →
          walkInterfaceType env fuel w name t =
            some { emitFeature
                (emitAll
                  { pushScope w (str "type " ++ name ++ str " interface") with
                    curPackage := { w.curPackage with
                      interfaceMethods := w.curPackage.interfaceMethods.put name methods } }
                  (methods.map (fun m => (m.name ++ m.sig, m.pos))))
                (str "unexported methods") 0 with scope := w.scope }) := by
  obtain ⟨methods, hm1, hm2⟩ := interfaceMethods_spec env w hErr fuel _ _ names h
  refine ⟨methods, hm1, hm2, ?_, ?_⟩
  · intro hall
    have hnames : methods.map (fun m => m.name) = names := by
      rw [hm2, filter_eq_self_of_all _ _ hall]
    unfold walkInterfaceType
    simp only
    rw [interfaceMethods_pushScope]
    have hcur : (pushScope w (str "type " ++ name ++ str " interface")).curPackageName =
        w.curPackageName := rfl
    rw [hcur, hm1]
    simp only [hall, Bool.not_true, Bool.false_eq_true, if_false]
    rw [popScope_pushed _ w.scope (str "type " ++ name ++ str " interface")
      (by rw [emitAll_scope]; rfl)]
    simp only [hnames]
    by_cases hn : names = []
    · subst hn
      rfl
    · have hlen : ¬ (sortStrings names).length = 0 := by
        rw [(sortStrings_perm names).length_eq]
        exact fun e => hn (List.length_eq_zero.mp e)
      rw [if_neg hlen, if_neg hn]
      rfl
  · intro hall
    unfold walkInterfaceType
    simp only
    rw [interfaceMethods_pushScope]
    have hcur : (pushScope w (str "type " ++ name ++ str " interface")).curPackageName =
        w.curPackageName := rfl
    rw [hcur, hm1]
    simp only [hall, Bool.not_false, if_true]
    rw [popScope_pushed _ w.scope (str "type " ++ name ++ str " interface")
      (by rw [(emitFeature_scope _ _ _).1, emitAll_scope]; rfl)]
    rfl

set_option maxRecDepth 20000 in
/-- The interface `type R interface{ Read([]byte) (int, error) }` of package
`p`: the features are `pkg p, type R interface, Read([]byte) (int, error)` and
`pkg p, type R interface { Read }`. -/
theorem walkInterfaceType_emits_witness :
    exampleEnv.isExtract (str "Error") = true ∧
      allMethodNames exampleEnv readerWalker 1 (str "p") (str "R") = some [str "Read"] ∧
      (∃ methods, interfaceMethods exampleEnv readerWalker 1 (str "p") (str "R") =
          some (methods, true) ∧ methods.map (fun m => m.name) = [str "Read"]) ∧
      (walkInterfaceType exampleEnv 1 readerWalker (str "R") (.interfaceType [])).map
          (fun w => (w.scope, w.curPackage.features.keys)) =
        some ([str "pkg p"],
          [str "pkg p, type R interface, Read([]byte) (int, error)",
            str "pkg p, type R interface { Read }"]) := by
  have hE : exampleEnv.isExtract (str "Error") = true := by decide
  have hN : allMethodNames exampleEnv readerWalker 1 (str "p") (str "R") =
      some [str "Read"] := by decide
  obtain ⟨methods, hm1, hm2, _, _⟩ :=
    walkInterfaceType_emits exampleEnv 1 readerWalker (str "R") (.interfaceType [])
      [str "Read"] hE hN
  exact ⟨hE, hN, ⟨methods, hm1, hm2⟩, by decide⟩

set_option maxRecDepth 20000 in
/-- C12: in `package p; type inner interface{ M() }; type N interface{ inner }`
the only method of the exported interface `N` is `M`, obtained through
embedding, and it is exported; `recordTypes` notes `N` and not `inner` in the
table of interfaces, so `interfaceMethods` returns no method with
`complete = false`, and `walkInterfaceType` emits only
`pkg p, type N interface, unexported methods`: neither the feature `M()` of the
scope `type N interface` nor `type N interface { M }`.  With the embedded
interface exported, `type Inner interface{ M() }; type N interface{ Inner }`,
both are emitted. -/
theorem walkInterfaceType_embedded_unexported :
    embedsUnexportedWalker.curPackage.interfaces =
        [(str "inner", [.mk [str "M"] (.funcType (some []) none)]),
          (str "N", [.mk [] (.ident (str "inner"))])] ∧
      exampleEnv.isExtract (str "N") = true ∧
      exampleEnv.isExtract (str "M") = true ∧
      exampleEnv.isExtract (str "inner") = false ∧
      embedsUnexportedWalker.interfaces = [((str "p", str "N"), [.mk [] (.ident (str "inner"))])] ∧
      (∀ fuel, interfaceMethods exampleEnv embedsUnexportedWalker (fuel + 2) (str "p") (str "N") =
        some ([], false)) ∧
      (∀ fuel, (walkInterfaceType exampleEnv (fuel + 2) embedsUnexportedWalker (str "N")
            (.interfaceType [.mk [] (.ident (str "inner"))])).map
          (fun w => w.curPackage.features) =
        some [(str "pkg p, type N interface, unexported methods", 0)]) ∧
      (∀ fuel, (walkInterfaceType exampleEnv (fuel + 2) embedsExportedWalker (str "N")
            (.interfaceType [.mk [] (.ident (str "Inner"))])).map
          (fun w => w.curPackage.features.map Prod.fst) =
        some [str "pkg p, type N interface, M()", str "pkg p, type N interface \x7b M \x7d"]) := by
  refine ⟨rfl, by decide, by decide, by decide, rfl, fun fuel => rfl, fun fuel => ?_, fun fuel => ?_⟩
  · rfl
  · rfl

/-! ## The dependencies of constants -/

theorem GoMap.get_nil {V : Type} (k : GoString) : GoMap.get ([] : GoMap V) k = none := rfl

theorem GoMap.get_cons {V : Type} (kv : GoString × V) (m : GoMap V) (k : GoString) :
    GoMap.get (kv :: m) k = if kv.1 = k then some kv.2 else GoMap.get m k := by
  unfold GoMap.get
  rw [List.find?_cons]
  by_cases h : kv.1 = k
  · simp [h]
  · simp [h]

theorem GoMap.get_append_singleton {V : Type} (m : GoMap V) (k : GoString) (v : V)
    (k2 : GoString) :
    GoMap.get (m ++ [(k, v)]) k2 =
      match GoMap.get m k2 with
      | some x => some x
      | none => if k = k2 then some v else none := by
  induction m with
  | nil => simp [GoMap.get_cons, GoMap.get_nil]
  | cons kv m ih =>
    rw [List.cons_append, GoMap.get_cons, GoMap.get_cons, ih]
    by_cases h : kv.1 = k2
    · simp [h]
    · simp [h]

theorem GoMap.get_eq_none_iff {V : Type} (m : GoMap V) (k : GoString) :
    m.get k = none ↔ k ∉ m.keys := by
  induction m with
  | nil => simp [GoMap.get_nil, GoMap.keys]
  | cons kv m ih =>
    rw [GoMap.get_cons]
    by_cases h : kv.1 = k
    · simp [h, GoMap.keys]
    · simp only [if_neg h, ih, GoMap.keys, List.map_cons, List.mem_cons, not_or]
      constructor
      · intro hm; exact ⟨fun e => h e.symm, hm⟩
      · intro hm; exact hm.2

theorem GoMap.get_map_replace {V : Type} (m : GoMap V) (k : GoString) (v : V) (k2 : GoString) :
    GoMap.get (m.map (fun kv => if kv.1 = k then (k, v) else kv)) k2 =
      if k2 = k then (if k ∈ m.keys then some v else none) else GoMap.get m k2 := by
  induction m with
  | nil => simp [GoMap.get_nil, GoMap.keys]
  | cons kv m ih =>
    rw [List.map_cons, GoMap.get_cons, ih, GoMap.get_cons]
    by_cases h1 : kv.1 = k
    · by_cases h2 : k2 = k
      · simp [h1, h2, GoMap.keys]
      · have h3 : ¬ k = k2 := fun e => h2 e.symm
        have h4 : ¬ kv.1 = k2 := fun e => h2 (by rw [← e, h1])
        simp [h1, h2, h3, h4]
    · by_cases h2 : k2 = k
      · have h4 : ¬ kv.1 = k2 := fun e => h1 (by rw [e, h2])
        have h5 : ¬ k = kv.1 := fun e => h1 e.symm
        have hm : (k ∈ kv.1 :: List.map Prod.fst m) ↔ k ∈ List.map Prod.fst m := by
          rw [List.mem_cons]
          exact ⟨fun h => h.resolve_left h5, Or.inr⟩
        simp only [h1, h2, h4, if_false, if_true, GoMap.keys, List.map_cons, hm]
      · simp [h1, h2]

/-- Reading a map after `m[k] = v`. -/
theorem GoMap.get_put {V : Type} (m : GoMap V) (k : GoString) (v : V) (k2 : GoString) :
    (m.put k v).get k2 = if k2 = k then some v else m.get k2 := by
  by_cases hk : k ∈ m.keys
  · rw [GoMap.put_old m k v hk, GoMap.get_map_replace]
    simp [hk]
  · rw [GoMap.put_new m k v hk, GoMap.get_append_singleton]
    by_cases h2 : k2 = k
    · subst h2
      rw [(GoMap.get_eq_none_iff m k2).mpr hk]
    · have h3 : ¬ k = k2 := fun e => h2 e.symm
      simp only [h2, h3, if_false]
      cases m.get k2 <;> rfl

theorem emitFeature_consts (w : Walker) (feature : GoString) (pos : Int) :
    (emitFeature w feature pos).curPackage.consts = w.curPackage.consts ∧
      (emitFeature w feature pos).constDep = w.constDep := by
  simp only [emitFeature]
  split_ifs <;> exact ⟨rfl, rfl⟩

/-- The closure `findConstType` reads `consts` only at names that are not keys
of `constDep`. -/
theorem findConstType_congr (cd c1 c2 : GoMap ExprType)
    (h : ∀ k, k ∉ cd.keys → c1.get k = c2.get k) :
    ∀ (fuel : Nat) (ident : GoString),
      findConstType cd c1 fuel ident = findConstType cd c2 fuel ident := by
  intro fuel
  induction fuel with
  | zero => intro ident; rfl
  | succ n ih =>
    intro ident
    rw [findConstType, findConstType]
    cases hg : cd.get ident with
    | some dep => exact ih dep.T
    | none =>
      simp only
      rw [h ident ((GoMap.get_eq_none_iff cd ident).mp hg)]

theorem foldlM_resolve (env : Env) (fuel : Nat) (cd c0 : GoMap ExprType)
    (l : List (GoString × ExprType)) :
    ∀ w1 : Walker, w1.constDep = cd →
      (∀ k, k ∉ cd.keys → w1.curPackage.consts.get k = c0.get k) →
      (∀ e ∈ l, e.1 ∈ cd.keys) →
      (∀ e ∈ l, env.isExtract e.1 = true → findConstType cd c0 fuel e.1 ≠ none) →
      (l.map Prod.fst).Nodup →
      ∃ w2, l.foldlM (resolveConstantDep env fuel) w1 = some w2 ∧ w2.constDep = cd ∧
        (∀ k, k ∉ l.map Prod.fst → w2.curPackage.consts.get k = w1.curPackage.consts.get k) ∧
        (∀ e ∈ l, env.isExtract e.1 = true → ∀ T, findConstType cd c0 fuel e.1 = some T →
          T ≠ [] → (w2.curPackage.consts.get e.1).map (fun t => t.T) = some T) := by
  induction l with
  | nil =>
    intro w1 h1 _ _ _ _
    exact ⟨w1, rfl, h1, fun _ _ => rfl, fun e he => absurd he (List.not_mem_nil e)⟩
  | cons e rest ih =>
    intro w1 h1 hagree hkeys hfuel hnd
    rw [List.map_cons, List.nodup_cons] at hnd
    obtain ⟨he_rest, hnd_rest⟩ := hnd
    -- the step at `e`
    have hstep : ∃ w1', resolveConstantDep env fuel w1 e = some w1' ∧ w1'.constDep = cd ∧
        (∀ k, k ≠ e.1 → w1'.curPackage.consts.get k = w1.curPackage.consts.get k) ∧
        (env.isExtract e.1 = true → ∀ T, findConstType cd c0 fuel e.1 = some T → T ≠ [] →
          (w1'.curPackage.consts.get e.1).map (fun t => t.T) = some T) := by
      unfold resolveConstantDep
      by_cases hx : env.isExtract e.1 = true
      · have hf := hfuel e (List.mem_cons_self _ _) hx
        rw [h1, findConstType_congr cd _ c0 hagree fuel e.1]
        cases hfc : findConstType cd c0 fuel e.1 with
        | none => exact absurd hfc hf
        | some t =>
          simp only [hx, Bool.not_true, Bool.false_eq_true, if_false]
          by_cases ht : t = []
          · rw [if_pos ht]
            refine ⟨w1, rfl, h1, fun _ _ => rfl, ?_⟩
            intro _ T hT hTne
            rw [Option.some.injEq] at hT
            exact absurd (hT ▸ ht) hTne
          · rw [if_neg ht]
            refine ⟨_, rfl, ?_, ?_, ?_⟩
            · rw [(emitFeature_consts _ _ _).2]
            · intro k hk
              rw [(emitFeature_consts _ _ _).1]
              simp only
              rw [GoMap.get_put, if_neg hk]
            · intro _ T hT _
              rw [Option.some.injEq] at hT
              rw [(emitFeature_consts _ _ _).1]
              simp only
              rw [GoMap.get_put, if_pos rfl, hT]
              rfl
      · have hx2 : env.isExtract e.1 = false := by
          rw [← Bool.not_eq_true]; exact hx
        simp only [hx2, Bool.not_false, if_true]
        exact ⟨w1, rfl, h1, fun _ _ => rfl, fun h => absurd h (by simp)⟩
    obtain ⟨w1', hs1, hs2, hs3, hs4⟩ := hstep
    have hagree' : ∀ k, k ∉ cd.keys → w1'.curPackage.consts.get k = c0.get k := by
      intro k hk
      rw [hs3 k (fun ek => hk (ek ▸ hkeys e (List.mem_cons_self _ _))), hagree k hk]
    obtain ⟨w2, hr1, hr2, hr3, hr4⟩ := ih w1' hs2 hagree'
      (fun e' he' => hkeys e' (List.mem_cons_of_mem _ he'))
      (fun e' he' => hfuel e' (List.mem_cons_of_mem _ he')) hnd_rest
    refine ⟨w2, ?_, hr2, ?_, ?_⟩
    · rw [List.foldlM_cons, hs1]; exact hr1
    · intro k hk
      rw [List.map_cons, List.mem_cons, not_or] at hk
      rw [hr3 k hk.2, hs3 k hk.1]
    · intro e' he' hx T hT hTne
      rcases List.mem_cons.mp he' with rfl | he'
      · rw [hr3 e'.1 he_rest]
        exact hs4 hx T hT hTne
      · exact hr4 e' he' hx T hT hTne

/-- C15, for exported constants: when the keys of `constDep` are distinct and
the chain of every exported one ends within `fuel` steps,
`resolveConstantDeps` returns, and every exported constant of `constDep`
whose chain ends at a type `T` that is not empty is afterwards an entry of
`consts` with type `T`. -/
theorem resolveConstantDeps_exported (env : Env) (fuel : Nat) (w : Walker)
    (hk : w.constDep.keys.Nodup)
    (hfuel : ∀ ident ∈ w.constDep.keys, env.isExtract ident = true →
      findConstType w.constDep w.curPackage.consts fuel ident ≠ none) :
    ∃ w2, resolveConstantDeps env fuel w = some w2 ∧
      ∀ ident ∈ w.constDep.keys, env.isExtract ident = true →
        ∀ T, findConstType w.constDep w.curPackage.consts fuel ident = some T → T ≠ [] →
          (w2.curPackage.consts.get ident).map (fun t => t.T) = some T := by
  obtain ⟨w2, h1, _, _, h4⟩ := foldlM_resolve env fuel w.constDep w.curPackage.consts
    w.constDep w rfl (fun _ _ => rfl)
    (fun e he => List.mem_map_of_mem Prod.fst he)
    (fun e he => hfuel e.1 (List.mem_map_of_mem Prod.fst he)) hk
  refine ⟨w2, h1, ?_⟩
  intro ident hi hx T hT hTne
  simp only [GoMap.keys, List.mem_map] at hi
  obtain ⟨e, he, rfl⟩ := hi
  exact h4 e he hx T hT hTne

/-- C15 at `const a = B; const C = B` with `B` of type `int`: the exported `C`
becomes an entry of `consts` with type `int`. -/
theorem resolveConstantDeps_exported_witness :
    ∃ w2, resolveConstantDeps exampleEnv 2
        { scope := [str "pkg p"], sep := str ", ",
          curPackage := { name := str "p", sep := str ", ", features := [],
                          consts := [(str "B", { X := .ident (str "B"), T := str "int" })] },
          wantedPkg := [str "p"],
          constDep := [(str "a", { X := .ident (str "a"), T := str "B" }),
                       (str "C", { X := .ident (str "C"), T := str "B" })] } = some w2 ∧
      (w2.curPackage.consts.get (str "C")).map (fun t => t.T) = some (str "int") := by
  obtain ⟨w2, h1, h2⟩ := resolveConstantDeps_exported exampleEnv 2
    { scope := [str "pkg p"], sep := str ", ",
      curPackage := { name := str "p", sep := str ", ", features := [],
                      consts := [(str "B", { X := .ident (str "B"), T := str "int" })] },
      wantedPkg := [str "p"],
      constDep := [(str "a", { X := .ident (str "a"), T := str "B" }),
                   (str "C", { X := .ident (str "C"), T := str "B" })] }
    (by decide)
    (by
      intro ident hi _
      simp only [GoMap.keys, List.map_cons, List.map_nil, List.mem_cons, List.mem_singleton,
        List.not_mem_nil, or_false] at hi
      rcases hi with rfl | rfl <;> decide)
  exact ⟨w2, h1, h2 (str "C") (by decide) (by decide) (str "int") (by decide) (by decide)⟩

/-- C15 as stated fails for a constant that is not exported: for `const a = B`
with `B` of type `int` the chain of `a` ends at `int`, and after
`resolveConstantDeps` the only entry of `consts` is still `B`. -/
theorem resolveConstantDeps_skips_unexported :
    exampleEnv.isExtract (str "a") = false ∧
      ∀ fuel : Nat,
        findConstType [(str "a", { X := .ident (str "a"), T := str "B" })]
            [(str "B", { X := .ident (str "B"), T := str "int" })] (fuel + 2) (str "a") =
          some (str "int") ∧
        (resolveConstantDeps exampleEnv (fuel + 2)
            { scope := [str "pkg p"], sep := str ", ",
              curPackage := { name := str "p", sep := str ", ", features := [],
                              consts := [(str "B", { X := .ident (str "B"), T := str "int" })] },
              wantedPkg := [str "p"],
              constDep := [(str "a", { X := .ident (str "a"), T := str "B" })] }).map
            (fun w => w.curPackage.consts.keys) = some [str "B"] := by
  refine ⟨by decide, ?_⟩
  intro fuel
  exact ⟨rfl, rfl⟩

/-! ## `funcRetType` -/

/-- The loop of `funcRetType` over the names of a field, in closed form. -/
theorem funcRetTypeNames_eq (typ : Expr) (index : Int) (names : List GoString) (pos : Int) :
    funcRetTypeNames typ index names pos =
      if pos ≤ index ∧ index < pos + names.length then (some typ, index)
      else (none, pos + names.length) := by
  induction names generalizing pos with
  | nil =>
    simp only [funcRetTypeNames, List.length_nil, Int.Nat.cast_ofNat_Int, add_zero]
    rw [if_neg (by omega)]
  | cons n ns ih =>
    rw [funcRetTypeNames]
    by_cases h : pos = index
    · subst h
      rw [if_pos rfl, if_pos]
      simp only [List.length_cons, Nat.cast_add, Nat.cast_one]
      omega
    · rw [if_neg h, ih]
      simp only [List.length_cons, Nat.cast_add, Nat.cast_one]
      by_cases h2 : pos + 1 ≤ index ∧ index < pos + 1 + ns.length
      · rw [if_pos h2, if_pos (by omega)]
      · rw [if_neg h2, if_neg (by omega)]
        congr 1
        omega

/-- Indexing in a list that starts with `k` copies of a type. -/
theorem getElem?_replicate_append (typ : Expr) (k : Nat) (rest : List Expr) (i : Nat) :
    (List.replicate k typ ++ rest)[i]? = if i < k then some typ else rest[i - k]? := by
  by_cases h : i < k
  · rw [if_pos h, List.getElem?_append_left (by simpa using h)]
    simp [List.getElem?_replicate, h]
  · rw [if_neg h, List.getElem?_append_right (by simpa using h)]
    simp

/-- The loop of `funcRetType` over the fields, in closed form. -/
theorem funcRetTypeFields_eq (index : Int) (l : List Field) (pos : Int) :
    funcRetTypeFields index l pos =
      if pos ≤ index then (flattenTypes l)[(index - pos).toNat]? else none := by
  induction l generalizing pos with
  | nil =>
    simp [funcRetTypeFields, flattenTypes]
  | cons fi rest ih =>
    rw [funcRetTypeFields]
    have hfl : flattenTypes (fi :: rest) =
        (if fi.names.length ≥ 1 then List.replicate fi.names.length fi.type else [fi.type]) ++
          flattenTypes rest := by
      simp [flattenTypes, List.flatMap_cons]
    rw [hfl]
    by_cases hn : fi.names = []
    · rw [if_pos hn]
      have h0 : ¬ fi.names.length ≥ 1 := by rw [hn]; simp
      rw [if_neg h0]
      by_cases h : pos = index
      · subst h
        simp
      · rw [if_neg h, ih]
        by_cases h2 : pos + 1 ≤ index
        · rw [if_pos h2, if_pos (by omega)]
          have e : (index - pos).toNat = (index - (pos + 1)).toNat + 1 := by omega
          rw [e]
          simp
        · rw [if_neg h2, if_neg (by omega)]
    · rw [if_neg hn]
      have h1 : fi.names.length ≥ 1 := by
        cases hns : fi.names with
        | nil => exact absurd hns hn
        | cons a b => simp
      rw [if_pos h1, funcRetTypeNames_eq]
      by_cases h : pos ≤ index ∧ index < pos + fi.names.length
      · rw [if_pos h, if_pos h.1, getElem?_replicate_append, if_pos (by omega)]
      · rw [if_neg h]
        simp only
        rw [ih]
        by_cases h2 : pos + ↑fi.names.length ≤ index
        · rw [if_pos h2, if_pos (by omega), getElem?_replicate_append, if_neg (by omega)]
          congr 1
          omega
        · rw [if_neg h2, if_neg (by omega)]

/-- C22: `funcRetType` returns the type at the index in the flattened list of
the results, in which a field with `k` names stands `k` times and a field
without names once, and `nil` when there are no results or the index is
outside the list; for `(a, b int, error)` the indices 0 and 1 give `int`,
2 gives `error`, and 3 and -1 give `nil`. -/
theorem funcRetType_flattened (results : Option (List Field)) (index : Int) :
    funcRetType results index =
        (if 0 ≤ index then (fieldListTypes results)[index.toNat]? else none) ∧
      (results = none → funcRetType results index = none) ∧
      [0, 1, 2, 3, -1].map (funcRetType
          (some [.mk [str "a", str "b"] (.ident (str "int")), .mk [] (.ident (str "error"))])) =
        [some (.ident (str "int")), some (.ident (str "int")), some (.ident (str "error")),
          none, none] := by
  refine ⟨?_, ?_, rfl⟩
  · cases results with
    | none => simp [funcRetType, fieldListTypes]
    | some l =>
      simp only [funcRetType, fieldListTypes]
      rw [funcRetTypeFields_eq]
      simp
  · intro h
    subst h
    rfl

/-! ## Pointers in `varValueType` -/

/-- C21, amended: when `varValueType` gives the type `T` for `X`, it gives
`*T` for the star expression `*X`, which it reads as a pointer type, and `*T`
for `&X`. -/
theorem varValueType_star_address (env : Env) (other : Expr → Int → Outcome StrErr)
    (w : Walker) (x : Expr) (index : Int) (fuel : Nat) (T : GoString)
    (h : varValueType env other w fuel (some x) index = .ok ⟨T, false⟩) :
    varValueType env other w (fuel + 1) (some (.star x)) index = .ok ⟨str "*" ++ T, false⟩ ∧
      varValueType env other w (fuel + 1) (some (.unary .AND x)) index =
        .ok ⟨str "*" ++ T, false⟩ := by
  have e1 : varValueType env other w (fuel + 1) (some (.star x)) index =
      (match varValueType env other w fuel (some x) index with
        | .ok r => if r.err then .ok ⟨[], true⟩ else .ok ⟨str "*" ++ r.s, false⟩
        | .panic => .panic
        | .diverge => .diverge) := rfl
  have e2 : varValueType env other w (fuel + 1) (some (.unary .AND x)) index =
      (match varValueType env other w fuel (some x) index with
        | .ok r => .ok ⟨str "*" ++ r.s, r.err⟩
        | .panic => .panic
        | .diverge => .diverge) := rfl
  rw [e1, e2, h]
  exact ⟨rfl, rfl⟩

/-- Witness of C21: for a local variable `p` of type `*T`, both `*p` and `&p`
get the type `**T`. -/
theorem varValueType_star_address_witness :
    varValueType exampleEnv (fun _ _ => .panic)
        { scope := [str "pkg p"], sep := str ", ",
          curPackage := { name := str "p", sep := str ", ", features := [] },
          wantedPkg := [str "p"],
          localvar := [(str "p", { X := .ident (str "p"), T := str "*T" })] }
        2 (some (.star (.ident (str "p")))) 0 = .ok ⟨str "*" ++ str "*T", false⟩ ∧
      varValueType exampleEnv (fun _ _ => .panic)
        { scope := [str "pkg p"], sep := str ", ",
          curPackage := { name := str "p", sep := str ", ", features := [] },
          wantedPkg := [str "p"],
          localvar := [(str "p", { X := .ident (str "p"), T := str "*T" })] }
        2 (some (.unary .AND (.ident (str "p")))) 0 = .ok ⟨str "*" ++ str "*T", false⟩ :=
  varValueType_star_address exampleEnv (fun _ _ => .panic)
    { scope := [str "pkg p"], sep := str ", ",
      curPackage := { name := str "p", sep := str ", ", features := [] },
      wantedPkg := [str "p"],
      localvar := [(str "p", { X := .ident (str "p"), T := str "*T" })] }
    (.ident (str "p")) 0 1 (str "*T") rfl

/-- C21 as stated fails for a dereference: for a local variable `p` of type
`*T`, `varValueType` of `*p` is `**T` and not `T`. -/
theorem varValueType_star_not_deref :
    (∀ (other : Expr → Int → Outcome StrErr) (fuel : Nat),
        varValueType exampleEnv other
            { scope := [str "pkg p"], sep := str ", ",
              curPackage := { name := str "p", sep := str ", ", features := [] },
              wantedPkg := [str "p"],
              localvar := [(str "p", { X := .ident (str "p"), T := str "*T" })] }
            (fuel + 2) (some (.ident (str "p"))) 0 = .ok ⟨str "*T", false⟩ ∧
          varValueType exampleEnv other
            { scope := [str "pkg p"], sep := str ", ",
              curPackage := { name := str "p", sep := str ", ", features := [] },
              wantedPkg := [str "p"],
              localvar := [(str "p", { X := .ident (str "p"), T := str "*T" })] }
            (fuel + 2) (some (.star (.ident (str "p")))) 0 = .ok ⟨str "**T", false⟩) ∧
      str "**T" ≠ str "T" := by
  refine ⟨fun other fuel => ⟨rfl, rfl⟩, by decide⟩

/-! ## `findStructField` -/

/-- C24: for the struct `struct{ q.T; X int }`, where `q.T` is a struct of the
loaded package `q` without a field `X`, `findStructField` does not find the
field `X` that the struct declares; after the anonymous field `T` of the
current package it does. -/
theorem findStructField_stops_at_imported :
    ∀ fuel : Nat,
      findStructField exampleEnv
          { scope := [str "pkg p"], sep := str ", ",
            curPackage := { name := str "p", sep := str ", ", features := [],
                            structs := [(str "T", [.mk [str "Y"] (.ident (str "int"))])] },
            wantedPkg := [str "p"],
            selectorFullPkg := [(str "q", str "q")],
            packageMap := [(str "q",
              { name := str "q", sep := str ", ", features := [],
                structs := [(str "T", [.mk [str "Y"] (.ident (str "int"))])] })] }
          (fuel + 2)
          (.structType [.mk [] (.selector (.ident (str "q")) (str "T")),
            .mk [str "X"] (.ident (str "int"))])
          (str "X") = .ok none ∧
        findStructField exampleEnv
          { scope := [str "pkg p"], sep := str ", ",
            curPackage := { name := str "p", sep := str ", ", features := [],
                            structs := [(str "T", [.mk [str "Y"] (.ident (str "int"))])] },
            wantedPkg := [str "p"],
            selectorFullPkg := [(str "q", str "q")],
            packageMap := [(str "q",
              { name := str "q", sep := str ", ", features := [],
                structs := [(str "T", [.mk [str "Y"] (.ident (str "int"))])] })] }
          (fuel + 2)
          (.structType [.mk [] (.ident (str "T")), .mk [str "X"] (.ident (str "int"))])
          (str "X") = .ok (some (.ident (str "X"), .ident (str "int"))) := by
  intro fuel
  exact ⟨rfl, rfl⟩

/-! ## Identifiers in `lookupExpr` -/

/-- C23, amended: `lookupExpr` on an identifier returns the first hit in the
order local bindings, then the interfaces, structs, types, vars, consts and
functions of the current package, then an imported package, then a builtin
type name; a name that is in none of them is an error.  The kind and the type
string of the info are listed for every table. -/
theorem lookupExprIdent_first_hit (w : Walker) (name : GoString) :
    (∀ lv, w.localvar.get name = some lv →
        lookupExprIdent w name =
          (lv.T, some { Kind := .KindVar, X := some (.ident name), Name := name,
                        T := some lv.X, Type_ := lv.T }, false)) ∧
      (w.localvar.get name = none →
        (∀ t, w.curPackage.interfaces.get name = some t →
          (lookupExprIdent w name).2.1.map (fun i => (i.Kind, i.Type_)) =
            some (.KindInterface, str "interface")) ∧
        (w.curPackage.interfaces.get name = none →
          (∀ t, w.curPackage.structs.get name = some t →
            (lookupExprIdent w name).2.1.map (fun i => (i.Kind, i.Type_)) =
              some (.KindStruct, str "struct")) ∧
          (w.curPackage.structs.get name = none →
            (∀ t, w.curPackage.types.get name = some t →
              (lookupExprIdent w name).2.1.map (fun i => (i.Kind, i.Type_)) =
                some (.KindType, name)) ∧
            (w.curPackage.types.get name = none →
              (∀ t, w.curPackage.vars.get name = some t →
                (lookupExprIdent w name).2.1.map (fun i => (i.Kind, i.Type_)) =
                  some (.KindVar, t.T)) ∧
              (w.curPackage.vars.get name = none →
                (∀ t, w.curPackage.consts.get name = some t →
                  (lookupExprIdent w name).2.1.map (fun i => (i.Kind, i.Type_)) =
                    some (.KindConst, t.T)) ∧
                (w.curPackage.consts.get name = none →
                  (∀ t, w.curPackage.functions.get name = some t →
                    (lookupExprIdent w name).2.1.map (fun i => (i.Kind, i.Type_)) =
                      some (.KindFunc, t.sig)) ∧
                  (w.curPackage.functions.get name = none →
                    (∀ p, findPackage w name = some p →
                      (lookupExprIdent w name).2.1.map (fun i => (i.Kind, i.Type_)) =
                        some (.KindImport, p.name)) ∧
                    (findPackage w name = none →
                      (isBuiltinType name = true →
                        (lookupExprIdent w name).2.1.map (fun i => (i.Kind, i.Type_)) =
                          some (.KindBuiltin, [])) ∧
                      (isBuiltinType name = false →
                        lookupExprIdent w name = ([], none, true)))))))))) := by
  refine ⟨fun lv h => ?_, fun h0 => ⟨fun t h => ?_, fun h1 => ⟨fun t h => ?_, fun h2 =>
    ⟨fun t h => ?_, fun h3 => ⟨fun t h => ?_, fun h4 => ⟨fun t h => ?_, fun h5 =>
    ⟨fun t h => ?_, fun h6 => ⟨fun p h => ?_, fun h7 => ⟨fun h => ?_, fun h => ?_⟩⟩⟩⟩⟩⟩⟩⟩⟩
  · simp only [lookupExprIdent, h]
  · simp only [lookupExprIdent, h0, h, Option.map_some']
  · simp only [lookupExprIdent, h0, h1, h, Option.map_some']
  · simp only [lookupExprIdent, h0, h1, h2, h, Option.map_some']
  · simp only [lookupExprIdent, h0, h1, h2, h3, h, Option.map_some']
  · simp only [lookupExprIdent, h0, h1, h2, h3, h4, h, Option.map_some']
  · simp only [lookupExprIdent, h0, h1, h2, h3, h4, h5, h, Option.map_some']
  · simp only [lookupExprIdent, h0, h1, h2, h3, h4, h5, h6, h, Option.map_some']
  · simp only [lookupExprIdent, h0, h1, h2, h3, h4, h5, h6, h7, h, if_true, Option.map_some']
  · simp only [lookupExprIdent, h0, h1, h2, h3, h4, h5, h6, h7, h, Bool.false_eq_true, if_false]

/-- Witness of C23: a name that is only a variable of the package is a
variable with the type of the table `vars`. -/
theorem lookupExprIdent_first_hit_witness :
    (lookupExprIdent
        { scope := [str "pkg p"], sep := str ", ",
          curPackage := { name := str "p", sep := str ", ", features := [],
                          vars := [(str "X", { X := .ident (str "X"), T := str "int" })] },
          wantedPkg := [str "p"] }
        (str "X")).2.1.map (fun i => (i.Kind, i.Type_)) = some (.KindVar, str "int") :=
  ((((((lookupExprIdent_first_hit
      { scope := [str "pkg p"], sep := str ", ",
        curPackage := { name := str "p", sep := str ", ", features := [],
                        vars := [(str "X", { X := .ident (str "X"), T := str "int" })] },
        wantedPkg := [str "p"] }
      (str "X")).2 rfl).2 rfl).2 rfl).2 rfl).1
    { X := .ident (str "X"), T := str "int" } rfl)

/-- C23 as stated fails: a name that is in the tables `vars` and `structs` of
the current package is a struct for `lookupExpr`, not a variable. -/
theorem lookupExprIdent_struct_before_var :
    (lookupExprIdent
        { scope := [str "pkg p"], sep := str ", ",
          curPackage := { name := str "p", sep := str ", ", features := [],
                          vars := [(str "X", { X := .ident (str "X"), T := str "int" })],
                          structs := [(str "X", [])] },
          wantedPkg := [str "p"] }
        (str "X")).2.1.map (fun i => (i.Kind, i.Type_)) = some (.KindStruct, str "struct") ∧
      (Kind.KindStruct, str "struct") ≠ (Kind.KindVar, str "int") := by
  refine ⟨rfl, by decide⟩

/-! ## Methods with a pointer receiver -/

/-- The key under which `peekFuncDecl` registers a method with the receiver
`*T`. -/
theorem peekFuncDecl_pointer_receiver (env : Env) (w : Walker) (T m : GoString)
    (params results : Option (List Field)) (pos : Int) :
    (peekFuncDecl env w
        { name := m, recv := some (.star (.ident T)), params := params, results := results,
          pos := pos }).curPackage.functions.get (T ++ str "." ++ m) =
      some { name := T ++ str "." ++ m, sig := funcSigString env.nodeString params results,
             params := params, results := results, pos := pos,
             recv := some (.star (.ident T)) } := by
  simp only [peekFuncDecl, baseTypeName, Bool.false_eq_true, if_false]
  rw [GoMap.get_put, if_pos rfl]

/-- The method `peekFuncDecl` writes the table of functions only. -/
theorem peekFuncDecl_tables (env : Env) (w : Walker) (f : FuncDecl) :
    (peekFuncDecl env w f).localvar = w.localvar ∧
      (peekFuncDecl env w f).curPackage.interfaces = w.curPackage.interfaces ∧
      (peekFuncDecl env w f).curPackage.structs = w.curPackage.structs ∧
      (peekFuncDecl env w f).curPackage.types = w.curPackage.types ∧
      (peekFuncDecl env w f).curPackage.vars = w.curPackage.vars := by
  unfold peekFuncDecl
  cases f.recv with
  | none => exact ⟨rfl, rfl, rfl, rfl, rfl⟩
  | some rt =>
    simp only
    split <;> exact ⟨rfl, rfl, rfl, rfl, rfl⟩

/-- The step of `lookupExpr` at a call `v.m(args)` whose receiver is an
identifier, when the cursor is neither in an argument nor in `v`. -/
theorem lookupExpr_call_method (env : Env) (other : Expr → Int → Outcome StrErr)
    (otherExpr : Expr → Outcome (GoString × Option TypeInfo × Bool))
    (lookupFunction : GoString → GoString → Option TypeInfo × Bool)
    (inRange : Expr → Bool) (w : Walker) (fuel : Nat) (v m T s : GoString)
    (args : List Expr) (info : TypeInfo) (fn : Method)
    (hargs : args.find? inRange = none) (hv : inRange (.ident v) = false)
    (hid : lookupExprIdent w v = (s, some info, false))
    (htyp : (if info.Type_ = [] then s else info.Type_) = T)
    (hfn : w.curPackage.functions.get (T ++ str "." ++ m) = some fn) :
    lookupExpr env other otherExpr lookupFunction inRange w (fuel + 2)
        (.call (.selector (.ident v) m) args) =
      .ok (T ++ str "." ++ m,
        some { Kind := .KindMethod, X := some (.ident v), Name := T ++ str "." ++ m,
               T := some fn.ft, Type_ := env.nodeString (namelessType fn.ft) }, false) := by
  have e : lookupExpr env other otherExpr lookupFunction inRange w (fuel + 2)
      (.call (.selector (.ident v) m) args) =
      (match args.find? inRange with
      | some arg => lookupExpr env other otherExpr lookupFunction inRange w (fuel + 1) arg
      | none =>
        if inRange (.ident v) then
          lookupExpr env other otherExpr lookupFunction inRange w (fuel + 1) (.ident v)
        else
          (Outcome.ok (lookupExprIdent w v)).bind fun r =>
            if r.2.2 then .ok ([], none, true)
            else
              match r.2.1 with
              | none => .panic
              | some info =>
                let typ := if info.Type_ = [] then r.1 else info.Type_
                let fname := typ ++ str "." ++ m
                match w.curPackage.functions.get fname with
                | some fn =>
                  .ok (fname, some { Kind := .KindMethod, X := some (.ident v), Name := fname,
                                     T := some fn.ft,
                                     Type_ := env.nodeString (namelessType fn.ft) }, false)
                | none =>
                  let ie := lookupFunction (trimLeftStar typ) m
                  if ie.2 then .ok ([], none, true) else .ok (fname, ie.1, false)) := rfl
  rw [e, hargs]
  simp only [hv, Bool.false_eq_true, if_false, Outcome.bind, hid, htyp, hfn]

/-- C26: after `peekFuncDecl` has met the method `m` with the receiver `*T`,
which it registers under the key `T.m`, `lookupExpr` on the call `v.m(args)`,
for a variable `v` of type `T` that is local or of the package and a cursor
that is neither in `v` nor in an argument, returns the kind method and the
name `T.m`. -/
theorem lookupExpr_pointer_method (env : Env) (other : Expr → Int → Outcome StrErr)
    (otherExpr : Expr → Outcome (GoString × Option TypeInfo × Bool))
    (lookupFunction : GoString → GoString → Option TypeInfo × Bool)
    (inRange : Expr → Bool) (w : Walker) (fuel : Nat) (v m T : GoString)
    (args : List Expr) (params results : Option (List Field)) (pos : Int)
    (hargs : args.find? inRange = none) (hv : inRange (.ident v) = false)
    (hvar : (∃ lv, w.localvar.get v = some lv ∧ lv.T = T) ∨
      (w.localvar.get v = none ∧ w.curPackage.interfaces.get v = none ∧
        w.curPackage.structs.get v = none ∧ w.curPackage.types.get v = none ∧
        T ≠ [] ∧ ∃ t, w.curPackage.vars.get v = some t ∧ t.T = T)) :
    (peekFuncDecl env w
        { name := m, recv := some (.star (.ident T)), params := params, results := results,
          pos := pos }).curPackage.functions.keys.filter
        (fun k => decide (k ∉ w.curPackage.functions.keys)) ⊆ [T ++ str "." ++ m] ∧
      ((peekFuncDecl env w
        { name := m, recv := some (.star (.ident T)), params := params, results := results,
          pos := pos }).curPackage.functions.get (T ++ str "." ++ m)).map
        (fun fn => (fn.name, fn.ft)) =
        some (T ++ str "." ++ m, .funcType params results) ∧
      ∃ info, lookupExpr env other otherExpr lookupFunction inRange
          (peekFuncDecl env w
            { name := m, recv := some (.star (.ident T)), params := params,
              results := results, pos := pos })
          (fuel + 2) (.call (.selector (.ident v) m) args) =
          .ok (T ++ str "." ++ m, some info, false) ∧
        info.Kind = .KindMethod ∧ info.Name = T ++ str "." ++ m ∧
        info.T = some (.funcType params results) := by
  obtain ⟨hl, hi, hs, ht, hvs⟩ := peekFuncDecl_tables env w
    { name := m, recv := some (.star (.ident T)), params := params, results := results,
      pos := pos }
  have hfn := peekFuncDecl_pointer_receiver env w T m params results pos
  refine ⟨?_, by rw [hfn]; rfl, ?_⟩
  · intro k hk
    simp only [List.mem_filter, decide_eq_true_eq] at hk
    simp only [peekFuncDecl, baseTypeName, Bool.false_eq_true, if_false] at hk
    rw [List.mem_singleton]
    by_contra hne
    apply hk.2
    have := hk.1
    simp only [GoMap.keys, List.mem_map] at this ⊢
    obtain ⟨e, he, rfl⟩ := this
    unfold GoMap.put at he
    split at he
    · simp only [List.mem_map] at he
      obtain ⟨e0, he0, rfl⟩ := he
      by_cases hk0 : e0.1 = T ++ str "." ++ m
      · rw [if_pos hk0] at hne
        exact absurd rfl hne
      · rw [if_neg hk0] at hne ⊢
        exact ⟨e0, he0, rfl⟩
    · rcases List.mem_append.mp he with he | he
      · exact ⟨e, he, rfl⟩
      · rw [List.mem_singleton] at he
        rw [he] at hne
        exact absurd rfl hne
  · rcases hvar with ⟨lv, hlv, hT⟩ | ⟨h0, h1, h2, h3, hTne, t, hvt, hT⟩
    · refine ⟨_, lookupExpr_call_method env other otherExpr lookupFunction inRange _ fuel v m T
        lv.T args
        { Kind := .KindVar, X := some (.ident v), Name := v, T := some lv.X, Type_ := lv.T }
        _ hargs hv ?_ ?_ hfn, rfl, rfl, rfl⟩
      · simp only [lookupExprIdent, hl, hlv]
      · simp only [hT, ite_self]
    · refine ⟨_, lookupExpr_call_method env other otherExpr lookupFunction inRange _ fuel v m T
        v args
        { Kind := .KindVar, X := some (.ident v), Name := v, T := some t.X, Type_ := t.T }
        _ hargs hv ?_ ?_ hfn, rfl, rfl, rfl⟩
      · simp only [lookupExprIdent, hl, hi, hs, ht, hvs, h0, h1, h2, h3, hvt]
      · simp only [hT, hTne, if_false]

/-- Witness of C26: `func (t *T) m()` and a local `var v T`; the call `v.m()`
resolves to the method `T.m`. -/
theorem lookupExpr_pointer_method_witness :
    ∃ info, lookupExpr exampleEnv (fun _ _ => .panic) (fun _ => .panic)
        (fun _ _ => (none, true)) (fun _ => false)
        (peekFuncDecl exampleEnv
          { emptyWalker with
            localvar := [(str "v", { X := .ident (str "v"), T := str "T" })] }
          { name := str "m", recv := some (.star (.ident (str "T"))), params := some [],
            results := none, pos := 0 })
        2 (.call (.selector (.ident (str "v")) (str "m")) []) =
        .ok (str "T" ++ str "." ++ str "m", some info, false) ∧
      info.Kind = .KindMethod ∧ info.Name = str "T" ++ str "." ++ str "m" := by
  obtain ⟨info, h1, h2, h3, _⟩ :=
    (lookupExpr_pointer_method exampleEnv (fun _ _ => .panic) (fun _ => .panic)
      (fun _ _ => (none, true)) (fun _ => false)
      { emptyWalker with localvar := [(str "v", { X := .ident (str "v"), T := str "T" })] }
      0 (str "v") (str "m") (str "T") [] (some []) none 0 rfl rfl
      (Or.inl ⟨{ X := .ident (str "v"), T := str "T" }, rfl, rfl⟩)).2.2
  exact ⟨info, h1, h2, h3⟩

/-! ## Selectors -/

/-- C25: for `type T struct{ X int }` and `var v T`, `lookupExpr` on `v.X`,
the cursor being on `X`, returns the kind field and the type `int`; the name
is `T.X` when `v` is declared inside the function, and `v.X` when `v` is
declared at package level. -/
theorem lookupSelector_package_var_name :
    ∀ (other : Expr → Int → Outcome StrErr)
      (otherExpr : Expr → Outcome (GoString × Option TypeInfo × Bool))
      (lookupFunction : GoString → GoString → Option TypeInfo × Bool) (fuel : Nat),
      (lookupVar exampleEnv other otherExpr lookupFunction (fun _ => false) fuel
          (structWalker false)
          { names := [str "v"], type := some (.ident (str "T")), values := [] } true).bind
          (fun r => lookupExpr exampleEnv other otherExpr lookupFunction (fun _ => false) r.1
            (fuel + 4) (.selector (.ident (str "v")) (str "X"))) =
        .ok (str "v.X",
          some { Kind := .KindField, X := some (.ident (str "int")), Name := str "T.X",
                 T := some (.ident (str "int")), Type_ := str "int" }, false) ∧
      (walkVar exampleEnv other fuel (structWalker true)
          { names := [str "v"], type := some (.ident (str "T")), values := [] }).bind
          (fun w => lookupExpr exampleEnv other otherExpr lookupFunction (fun _ => false) w
            (fuel + 4) (.selector (.ident (str "v")) (str "X"))) =
        .ok (str "v.X",
          some { Kind := .KindField, X := some (.ident (str "int")), Name := str "v.X",
                 T := some (.ident (str "int")), Type_ := str "int" }, false) := by
  intro other otherExpr lookupFunction fuel
  exact ⟨rfl, rfl⟩

/-! ## Defining assignments -/

/-- C27: after `lookupStmt` has met `string := 1`, whose right-hand side has
the type `int`, `lookupExpr` on the identifier `string` reports a variable of
type `int`, and `varValueType` on it returns `string`. -/
theorem varValueType_shadowed_builtin :
    ∀ (other : Expr → Int → Outcome StrErr)
      (otherExpr : Expr → Outcome (GoString × Option TypeInfo × Bool))
      (lookupFunction : GoString → GoString → Option TypeInfo × Bool) (fuel : Nat),
      varValueType exampleEnv other emptyWalker (fuel + 1)
          (some (.basicLit .INT (str "1"))) 0 = .ok ⟨str "int", false⟩ ∧
      lookupStmtAssign exampleEnv other otherExpr lookupFunction (fun _ => false)
          (fun _ => false) (fun _ => false) (fuel + 1) emptyWalker
          { lhs := [.ident (str "string")], define := true,
            rhs := [.basicLit .INT (str "1")] } =
        .ok ({ emptyWalker with
                localvar := [(str "string", { X := .ident (str "string"), T := str "int" })] },
          none, false) ∧
      (lookupExprIdent
          { emptyWalker with
            localvar := [(str "string", { X := .ident (str "string"), T := str "int" })] }
          (str "string")).2.1.map (fun i => (i.Kind, i.Type_)) = some (.KindVar, str "int") ∧
      varValueType exampleEnv other
          { emptyWalker with
            localvar := [(str "string", { X := .ident (str "string"), T := str "int" })] }
          (fuel + 1) (some (.ident (str "string"))) 0 = .ok ⟨str "string", false⟩ := by
  intro other otherExpr lookupFunction fuel
  exact ⟨rfl, rfl, rfl, rfl⟩

/-- C28: with `x` of type `int` before the statement `x := x == 1`, the cursor
being on the `x` of the right-hand side, `lookupStmt` reports for `x` the
type `bool` that the statement gives it; and after `a, b := b, a`, with `a`
of type `int` and `b` of type `string` before, both `a` and `b` have the type
`string`. -/
theorem lookupStmtAssign_binds_before_rhs :
    ∀ (other : Expr → Int → Outcome StrErr)
      (otherExpr : Expr → Outcome (GoString × Option TypeInfo × Bool))
      (lookupFunction : GoString → GoString → Option TypeInfo × Bool) (fuel : Nat),
      (lookupExprIdent
          { emptyWalker with
            localvar := [(str "x", { X := .ident (str "x"), T := str "int" })] }
          (str "x")).2.1.map (fun i => (i.Kind, i.Type_)) = some (.KindVar, str "int") ∧
      (lookupStmtAssign exampleEnv other otherExpr lookupFunction
          (fun e => match e with
            | .ident n => decide (n = str "x")
            | _ => false)
          (fun _ => false) (fun i => decide (i = 0)) (fuel + 3)
          { emptyWalker with
            localvar := [(str "x", { X := .ident (str "x"), T := str "int" })] }
          { lhs := [.ident (str "x")], define := true,
            rhs := [.binary (.ident (str "x")) .EQL (.basicLit .INT (str "1"))] }).bind
          (fun r => .ok (r.2.1.map (fun i => (i.Kind, i.Name, i.Type_)), r.2.2)) =
        .ok (some (.KindVar, str "x", str "bool"), false) ∧
      (lookupStmtAssign exampleEnv other otherExpr lookupFunction (fun _ => false)
          (fun _ => false) (fun _ => false) (fuel + 2)
          { emptyWalker with
            localvar := [(str "a", { X := .ident (str "a"), T := str "int" }),
                         (str "b", { X := .ident (str "b"), T := str "string" })] }
          { lhs := [.ident (str "a"), .ident (str "b")], define := true,
            rhs := [.ident (str "b"), .ident (str "a")] }).bind
          (fun r => .ok (r.1.localvar.map (fun kv => (kv.1, kv.2.T)))) =
        .ok [(str "a", str "string"), (str "b", str "string")] := by
  intro other otherExpr lookupFunction fuel
  exact ⟨rfl, rfl, rfl⟩

/-! ## Imports -/

/-- C29: with the imports `"a/x"` and `"b/x"` and the cursor in the first,
the defining node after the loop of `WalkPackageDir` is the path literal of
the second; and for the import `f "fmt"` it is the identifier `f`, not the
path literal. -/
theorem importFixup_wrong_literal :
    lookupDeclImport unquotePlain (fun spec => decide (spec.path = quoted (str "a/x")))
        [{ name := none, path := quoted (str "a/x") },
          { name := none, path := quoted (str "b/x") }] =
        (some { Kind := .KindImport, X := none, Name := str "x", T := none,
                Type_ := str "a/x" }, false) ∧
      importFixup unquotePlain
        [{ name := none, path := quoted (str "a/x") },
          { name := none, path := quoted (str "b/x") }]
        { Kind := .KindImport, X := none, Name := str "x", T := none, Type_ := str "a/x" } =
        { Kind := .KindImport, X := none, Name := str "x",
          T := some (.basicLit .STRING (quoted (str "b/x"))), Type_ := str "a/x" } ∧
      lookupDeclImport unquotePlain (fun _ => true)
        [{ name := some (str "f"), path := quoted (str "fmt") }] =
        (some { Kind := .KindImport, X := some (.ident (str "f")), Name := str "f",
                T := some (.ident (str "f")), Type_ := str "fmt" }, false) ∧
      importFixup unquotePlain [{ name := some (str "f"), path := quoted (str "fmt") }]
        { Kind := .KindImport, X := some (.ident (str "f")), Name := str "f",
          T := some (.ident (str "f")), Type_ := str "fmt" } =
        { Kind := .KindImport, X := some (.ident (str "f")), Name := str "f",
          T := some (.ident (str "f")), Type_ := str "fmt" } ∧
      importFixup unquotePlain [{ name := none, path := quoted (str "fmt") }]
        { Kind := .KindImport, X := none, Name := str "fmt", T := none, Type_ := str "fmt" } =
        { Kind := .KindImport, X := none, Name := str "fmt",
          T := some (.basicLit .STRING (quoted (str "fmt"))), Type_ := str "fmt" } := by
  refine ⟨rfl, rfl, rfl, rfl, rfl⟩

/-! ## Embedding across packages -/

/-- C30: in the context `linux-amd64`, when the package `q` has a file for one
system only, `noteInterface` records `J` under the package name
`linux-amd64:q`, `interfaceMethods` looks `q.J` up under `q`, and the methods
of `type I interface{ q.J }` are the empty list, reported incomplete; when
`q` is stored under its own name they are the method `Read`, complete. -/
theorem interfaceMethods_context_key :
    (embeddingWalker (str "linux-amd64:") true).interfaces.map (fun e => e.1) =
        [(str "linux-amd64:q", str "J"), (str "p", str "I")] ∧
      (embeddingWalker (str "linux-amd64:") true).selectorFullPkg.get (str "q") =
        some (str "q") ∧
      ∀ fuel : Nat,
        interfaceMethods exampleEnv (embeddingWalker (str "linux-amd64:") true) (fuel + 2)
            (str "p") (str "I") = some ([], false) ∧
          (interfaceMethods exampleEnv (embeddingWalker (str "linux-amd64:") false) (fuel + 2)
            (str "p") (str "I")).map (fun r => (r.1.map (fun m => m.name), r.2)) =
            some ([str "Read"], true) := by
  refine ⟨by decide, by decide, fun fuel => ⟨rfl, rfl⟩⟩

/-! ## The states of the loader -/

/-- Nothing is lost when nothing is done. -/
theorem Grows.refl (w : Walker) : Grows w w := ⟨rfl, fun _ h => h⟩

/-- Calls of the loader in sequence. -/
theorem Grows.trans {a b c : Walker} (h1 : Grows a b) (h2 : Grows b c) : Grows a c :=
  ⟨h2.1.trans h1.1, fun k h => h2.2 k (h1.2 k h)⟩

/-- A walker with the same `ctxName` and the same `packageState`. -/
theorem Grows.of_eq {a b : Walker} (h1 : b.ctxName = a.ctxName)
    (h2 : b.packageState = a.packageState) : Grows a b :=
  ⟨h1, fun k h => by rw [h2]; exact h⟩

/-- A sequence that returns: both parts return. -/
theorem Outcome.bind_eq_ok {α β : Type} (o : Outcome α) (f : α → Outcome β) (b : β)
    (h : o.bind f = .ok b) : ∃ a, o = .ok a ∧ f a = .ok b := by
  cases o with
  | ok a => exact ⟨a, rfl, h⟩
  | panic => simp [Outcome.bind] at h
  | diverge => simp [Outcome.bind] at h

/-- The loop over the dependencies keeps the loaded packages. -/
theorem walkDeps_grows (walkPackage : Walker → GoString → Outcome Walker)
    (hp : ∀ w p w1, walkPackage w p = .ok w1 → Grows w w1) :
    ∀ (deps : List GoString) (w w1 : Walker),
      walkDeps walkPackage deps w = .ok w1 → Grows w w1 := by
  intro deps
  induction deps with
  | nil =>
    intro w w1 h
    simp only [walkDeps, Outcome.ok.injEq] at h
    subst h
    exact Grows.refl _
  | cons dep rest ih =>
    intro w w1 h
    rw [walkDeps] at h
    split at h
    · exact ih _ _ h
    · obtain ⟨wa, h1, h2⟩ := Outcome.bind_eq_ok _ _ _ h
      exact (hp _ _ _ h1).trans (ih _ _ h2)

/-- The loop over the files keeps the loaded packages. -/
theorem walkFiles_grows (world : World) (walkPackage : Walker → GoString → Outcome Walker)
    (hp : ∀ w p w1, walkPackage w p = .ok w1 → Grows w w1) (name sname dir : GoString) :
    ∀ (files : List GoString) (st st1 : Walker × GoMap File × List GoString),
      walkFiles world walkPackage name sname dir files st = .ok st1 → Grows st.1 st1.1 := by
  intro files
  induction files with
  | nil =>
    intro st st1 h
    simp only [walkFiles, Outcome.ok.injEq] at h
    subst h
    exact Grows.refl _
  | cons file rest ih =>
    intro st st1 h
    obtain ⟨w, fs, deps⟩ := st
    rw [walkFiles] at h
    split at h
    · simp at h
    · split at h
      · exact ih _ _ h
      · split at h
        · obtain ⟨wa, h1, h2⟩ := Outcome.bind_eq_ok _ _ _ h
          have g2 := ih _ _ h2
          exact (walkDeps_grows walkPackage hp _ _ _ h1).trans g2
        · have g2 := ih _ _ h
          exact g2

/-- Reading `packageState` after `w.packageState[k] = s`. -/
theorem setPackageState_get (w : Walker) (k : GoString) (s : LoadState) (k2 : GoString) :
    (setPackageState w k s).packageState.get k2 =
      if k2 = k then some s else w.packageState.get k2 := by
  simp only [setPackageState]
  exact GoMap.get_put _ _ _ _

/-- The walk of the files of a package keeps the loaded packages: the state
of `cur` is `loaded` again at the end. -/
theorem walkPackageFiles_grows (world : World)
    (walkPackage : Walker → GoString → Outcome Walker)
    (hp : ∀ w p w1, walkPackage w p = .ok w1 → Grows w w1)
    (name dir ctxName cur : GoString) (files : List GoString) (w w1 : Walker)
    (h : walkPackageFiles world walkPackage name dir ctxName cur files w = .ok w1) :
    Grows w w1 := by
  unfold walkPackageFiles at h
  split at h
  · simp only [Outcome.ok.injEq] at h
    subst h
    exact Grows.refl _
  · obtain ⟨st, h1, h2⟩ := Outcome.bind_eq_ok _ _ _ h
    have g1 := walkFiles_grows world walkPackage hp _ _ _ _ _ _ h1
    simp only at g1
    refine g1.trans ?_
    simp only at h2
    obtain ⟨w2, _, h4⟩ := Outcome.bind_eq_ok _ _ _ h2
    simp only [Outcome.ok.injEq] at h4
    subst h4
    by_cases hc : cur = ctxName
    · simp only [hc, ne_eq, not_true_eq_false, if_false]
      exact ⟨rfl, fun k hk => hk⟩
    · simp only [ne_eq, hc, not_false_eq_true, if_true]
      refine ⟨rfl, fun k hk => ?_⟩
      rw [setPackageState_get]
      by_cases hk2 : k = cur
      · rw [if_pos hk2]
      · rw [if_neg hk2]
        show (setPackageState st.1 cur .loading).packageState.get k = _
        rw [setPackageState_get, if_neg hk2]
        exact hk

/-- The body of `WalkPackage` keeps the loaded packages. -/
theorem walkPackageBody_grows (world : World)
    (walkDir : Walker → GoString → GoString → Option BuildPackage → Outcome Walker)
    (hd : ∀ w n d b w1, walkDir w n d b = .ok w1 → Grows w w1)
    (w : Walker) (pkg : GoString) (w1 : Walker)
    (h : walkPackageBody world walkDir w pkg = .ok w1) : Grows w w1 := by
  unfold walkPackageBody at h
  split at h
  · split at h
    · simp only [Outcome.ok.injEq] at h
      subst h
      exact Grows.refl _
    · refine Grows.trans ?_ (hd _ _ _ _ _ h)
      apply Grows.of_eq
      · simp only; split <;> rfl
      · simp only; split <;> rfl
  · split at h
    · refine Grows.trans ?_ (hd _ _ _ _ _ h)
      apply Grows.of_eq
      · simp only; split <;> rfl
      · simp only; split <;> rfl
    · split at h
      · simp only [Outcome.ok.injEq] at h
        subst h
        exact Grows.refl _
      · exact hd _ _ _ _ _ h

/-- The body of `WalkPackageDir` after its first assignments keeps the loaded
packages. -/
theorem walkDirLoad_grows (world : World) (walkPackage : Walker → GoString → Outcome Walker)
    (walkDir : Walker → GoString → GoString → Option BuildPackage → Outcome Walker)
    (hp : ∀ w p w1, walkPackage w p = .ok w1 → Grows w w1)
    (hd : ∀ w n d b w1, walkDir w n d b = .ok w1 → Grows w w1)
    (w : Walker) (name dir : GoString) (bp0 : Option BuildPackage) (w1 : Walker)
    (h : walkDirLoad world walkPackage walkDir w name dir bp0 = .ok w1) : Grows w w1 := by
  unfold walkDirLoad at h
  split at h
  · simp only [Outcome.ok.injEq] at h
    subst h
    exact Grows.refl _
  · simp only at h
    split at h
    · obtain ⟨wa, h1, h2⟩ := Outcome.bind_eq_ok _ _ _ h
      simp only [Outcome.ok.injEq] at h2
      subst h2
      have g : Grows w wa := by
        split at h1
        · exact walkDeps_grows walkPackage hp _ _ _ h1
        · simp only [Outcome.ok.injEq] at h1
          subst h1
          exact Grows.refl _
      exact g.trans (Grows.of_eq rfl rfl)
    · obtain ⟨wf, h1, h2⟩ := Outcome.bind_eq_ok _ _ _ h
      have g : Grows w wf.1 := by
        split at h1
        · split at h1
          · split at h1
            · obtain ⟨wa, h3, h4⟩ := Outcome.bind_eq_ok _ _ _ h1
              simp only [Outcome.ok.injEq] at h4
              subst h4
              have g3 := hd _ _ _ _ _ h3
              exact Grows.trans (Grows.of_eq rfl rfl) g3
            · simp only [Outcome.ok.injEq] at h1
              subst h1
              exact Grows.refl _
          · simp only [Outcome.ok.injEq] at h1
            subst h1
            exact Grows.refl _
        · simp only [Outcome.ok.injEq] at h1
          subst h1
          exact Grows.refl _
      exact g.trans (walkPackageFiles_grows world walkPackage hp _ _ _ _ _ _ _ h2)

/-- The guard at the start of `WalkPackageDir`, and what the body gives when
the guard does not hold. -/
theorem walkDirBody_spec (world : World) (walkPackage : Walker → GoString → Outcome Walker)
    (walkDir : Walker → GoString → GoString → Option BuildPackage → Outcome Walker)
    (hp : ∀ w p w1, walkPackage w p = .ok w1 → Grows w w1)
    (hd : ∀ w n d b w1, walkDir w n d b = .ok w1 → Grows w w1)
    (w : Walker) (name dir : GoString) (bp0 : Option BuildPackage) (w1 : Walker)
    (h : walkDirBody world walkPackage walkDir w name dir bp0 = .ok w1) :
    Grows w w1 ∧
      (w1.packageState.get (w.ctxName ++ name) = some .loading ∨
        w1.packageState.get (w.ctxName ++ name) = some .loaded) := by
  unfold walkDirBody at h
  split at h
  · rename_i hg
    simp only [Outcome.ok.injEq] at h
    subst h
    exact ⟨Grows.refl _, hg⟩
  · obtain ⟨wa, h1, h2⟩ := Outcome.bind_eq_ok _ _ _ h
    simp only [Outcome.ok.injEq] at h2
    subst h2
    have g := walkDirLoad_grows world walkPackage walkDir hp hd _ _ _ _ _ h1
    refine ⟨⟨g.1, fun k hk => ?_⟩, Or.inr ?_⟩
    · rw [setPackageState_get]
      by_cases hk2 : k = w.ctxName ++ name
      · rw [if_pos hk2]
      · rw [if_neg hk2]
        apply g.2
        show (setPackageState w (w.ctxName ++ name) .loading).packageState.get k = _
        rw [setPackageState_get, if_neg hk2]
        exact hk
    · rw [setPackageState_get, if_pos rfl]

/-- The loader keeps the loaded packages. -/
theorem walk_grows (world : World) :
    ∀ (fuel : Nat) (w : Walker) (call : WalkCall) (w1 : Walker),
      walk world fuel w call = .ok w1 → Grows w w1 := by
  intro fuel
  induction fuel with
  | zero =>
    intro w call w1 h
    cases call <;> simp [walk] at h
  | succ n ih =>
    intro w call w1 h
    cases call with
    | package pkg =>
      have e : walk world (n + 1) w (.package pkg) =
          walkPackageBody world (fun w n1 d b => walk world n w (.packageDir n1 d b)) w pkg :=
        rfl
      rw [e] at h
      exact walkPackageBody_grows world _ (fun w n1 d b w1 h1 => ih w _ w1 h1) _ _ _ h
    | packageDir name dir bp =>
      have e : walk world (n + 1) w (.packageDir name dir bp) =
          walkDirBody world (fun w p => walk world n w (.package p))
            (fun w n1 d b => walk world n w (.packageDir n1 d b)) w name dir bp := rfl
      rw [e] at h
      exact (walkDirBody_spec world _ _ (fun w p w1 h1 => ih w _ w1 h1)
        (fun w n1 d b w1 h1 => ih w _ w1 h1) _ _ _ _ _ h).1

/-- C33: a call of `WalkPackageDir` for a package whose state under the
context is `loading` or `loaded` returns the walker as it is; so a second
call after one that has returned gives the walker of the first; and a package
that is `loaded` before a call is `loaded` after it. -/
theorem WalkPackageDir_idempotent (world : World) (fuel : Nat) (w : Walker)
    (name dir : GoString) (bp : Option BuildPackage) :
    (w.packageState.get (w.ctxName ++ name) = some .loading ∨
        w.packageState.get (w.ctxName ++ name) = some .loaded →
      WalkPackageDir world (fuel + 1) w name dir bp = .ok w) ∧
      ∀ w1, WalkPackageDir world fuel w name dir bp = .ok w1 →
        (∀ fuel2, WalkPackageDir world (fuel2 + 1) w1 name dir bp = .ok w1) ∧
          ∀ k, w.packageState.get k = some .loaded →
            w1.packageState.get k = some .loaded := by
  have guard : ∀ (f : Nat) (v : Walker),
      (v.packageState.get (v.ctxName ++ name) = some .loading ∨
        v.packageState.get (v.ctxName ++ name) = some .loaded) →
      WalkPackageDir world (f + 1) v name dir bp = .ok v := by
    intro f v hg
    have e : WalkPackageDir world (f + 1) v name dir bp =
        walkDirBody world (fun w p => walk world f w (.package p))
          (fun w n1 d b => walk world f w (.packageDir n1 d b)) v name dir bp := rfl
    rw [e]
    unfold walkDirBody
    rw [if_pos hg]
  refine ⟨guard fuel w, fun w1 h => ?_⟩
  cases fuel with
  | zero => simp [WalkPackageDir, walk] at h
  | succ n =>
    have e : WalkPackageDir world (n + 1) w name dir bp =
        walkDirBody world (fun w p => walk world n w (.package p))
          (fun w n1 d b => walk world n w (.packageDir n1 d b)) w name dir bp := rfl
    rw [e] at h
    obtain ⟨g, hs⟩ := walkDirBody_spec world _ _ (fun w p w1 h1 => walk_grows world n w _ w1 h1)
      (fun w n1 d b w1 h1 => walk_grows world n w _ w1 h1) _ _ _ _ _ h
    refine ⟨fun fuel2 => guard fuel2 w1 ?_, g.2⟩
    rw [g.1]
    exact hs

/-! ## Files with a parse error -/

/-- C31: when the parser returns for `b.go` an error and a file of the package
`p` that imports `os`, the file `b.go` is among the files of the package and
its import is in `deps`; and when the parser returns no file, `WalkPackageDir`
ends in a panic. -/
theorem WalkPackageDir_keeps_failed_file :
    (twoFileWorld
        (some { name := str "p", imports := [{ name := none, path := quoted (str "os") }] })
        true).parseFile false (str "/p") (str "b.go") =
        (some { name := str "p", imports := [{ name := none, path := quoted (str "os") }] },
          true) ∧
      (∀ fuel : Nat,
        (WalkPackageDir
            (twoFileWorld
              (some { name := str "p",
                      imports := [{ name := none, path := quoted (str "os") }] }) true)
            (fuel + 2) emptyWalker (str "p") (str "/p") none).bind
            (fun w => .ok ((w.packageMap.get (str "p")).map
              (fun p => (p.files.keys, p.deps)))) =
          .ok (some ([str "a.go", str "b.go"], [str "os"]))) ∧
      ∀ fuel : Nat,
        WalkPackageDir (twoFileWorld none true) (fuel + 2) emptyWalker (str "p") (str "/p")
          none = .panic := by
  refine ⟨rfl, fun fuel => rfl, fun fuel => rfl⟩

/-! ## The dependencies of a package -/

/-- C32: for the package `p` whose file `a.go` imports `fmt` and whose file
`b.go` imports `os`, the field `deps` after `WalkPackageDir` is `os` alone,
the imports of the file parsed last, and not the union `fmt`, `os`. -/
theorem WalkPackageDir_deps_last_file :
    fileDeps unquotePlain
          { name := str "p", imports := [{ name := none, path := quoted (str "fmt") }] } ++
        fileDeps unquotePlain
          { name := str "p", imports := [{ name := none, path := quoted (str "os") }] } =
        [str "fmt", str "os"] ∧
      ∀ fuel : Nat,
        (WalkPackageDir
            (twoFileWorld
              (some { name := str "p",
                      imports := [{ name := none, path := quoted (str "os") }] }) false)
            (fuel + 2) emptyWalker (str "p") (str "/p") none).bind
            (fun w => .ok ((w.packageMap.get (str "p")).map
              (fun p => (p.files.keys, p.deps)))) =
          .ok (some ([str "a.go", str "b.go"], [str "os"])) := by
  refine ⟨by decide, fun fuel => rfl⟩

/-! ## Contexts of the command line -/

/-- C34: `parseContext` never enables cgo: for `linux-386-cgo` it gives the
context of `linux-386`, whose name is not the string it was given.  It
returns no context exactly when the string has fewer than two parts. -/
theorem parseContext_drops_cgo :
    (∀ s c, parseContext s = some c → c.CgoEnabled = false) ∧
      (∀ s, parseContext s = none ↔ (splitByte 45 s).length < 2) ∧
      parseContext (str "linux-386-cgo") =
        some { GOOS := str "linux", GOARCH := str "386", CgoEnabled := false } ∧
      (parseContext (str "linux-386-cgo")).map contextName = some (str "linux-386") ∧
      (parseContext (str "linux-386")).map contextName = some (str "linux-386") := by
  refine ⟨?_, ?_, by decide, by decide, by decide⟩
  · intro s c h
    unfold parseContext at h
    split at h
    · simp only [Option.some.injEq] at h
      rw [← h]
    · simp at h
  · intro s
    unfold parseContext
    split
    · rename_i p0 p1 rest heq
      rw [heq]
      simp
    · rename_i hne
      simp only [true_iff]
      match hs : splitByte 45 s with
      | [] => simp
      | [_] => simp
      | p0 :: p1 :: rest => exact absurd hs (hne p0 p1 rest)

/-! ## Builtin functions without an argument -/

/-- C35: `varValueType` on the calls `make()`, `new()` and `append()`, which
have no argument, reads `v.Args[0]` and ends in a panic. -/
theorem varValueType_builtin_no_argument (env : Env) (other : Expr → Int → Outcome StrErr)
    (w : Walker) (fuel : Nat) (index : Int) :
    varValueType env other w (fuel + 1) (some (.call (.ident (str "make")) [])) index =
        .panic ∧
      varValueType env other w (fuel + 1) (some (.call (.ident (str "new")) [])) index =
        .panic ∧
      varValueType env other w (fuel + 1) (some (.call (.ident (str "append")) [])) index =
        .panic ∧
      varValueType env other w (fuel + 1)
          (some (.call (.ident (str "make")) [.arrayType none (.ident (str "int"))])) index =
        .ok ⟨env.nodeString (namelessType (.arrayType none (.ident (str "int")))), false⟩ :=
  ⟨rfl, rfl, rfl, rfl⟩

/-! ## Absent nodes -/

/-- C36: `inRange` answers false for the `nil` interface and ends in a panic
for a pointer that is `nil`; so `lookupStmt` on a `break` without a label,
and `lookupDecl` on a function declaration without a body whose name is under
the cursor, end in a panic.  With a body that the cursor is not in,
`lookupDecl` returns the info of the function. -/
theorem inRange_nil_pointer (p : Int) :
    inRange .nilInterface p = .ok false ∧
      inRange (.pointer none) p = .panic ∧
      lookupStmtBranch none p = .panic ∧
      (∀ (other : Expr → Int → Outcome StrErr)
        (otherExpr : Expr → Outcome (GoString × Option TypeInfo × Bool))
        (lookupFunction : GoString → GoString → Option TypeInfo × Bool)
        (lookupBody : Walker → Outcome (Walker × Option TypeInfo × Bool)) (fuel : Nat),
        lookupDeclFunc exampleEnv other otherExpr lookupFunction (fun _ => false)
            (fun _ => false) lookupBody fuel emptyWalker
            { name := str "f", recv := none, params := some [], results := none, pos := 0,
              body := none } p = .panic ∧
          lookupDeclFunc exampleEnv other otherExpr lookupFunction (fun _ => false)
            (fun _ => false) lookupBody fuel emptyWalker
            { name := str "f", recv := none, params := some [], results := none, pos := 0,
              body := some (p + 1, p + 2) } p =
            .ok (emptyWalker,
              some { Kind := .KindFunc, X := some (.ident (str "f")), Name := str "f",
                     T := some (.funcType (some []) none),
                     Type_ := exampleEnv.nodeString
                       (namelessType (.funcType (some []) none)) }, false)) := by
  refine ⟨rfl, rfl, rfl, fun other otherExpr lookupFunction lookupBody fuel => ⟨rfl, ?_⟩⟩
  simp only [lookupDeclFunc, lookupDeclFields, Option.getD_some, Option.getD_none, Outcome.bind,
    inRange]
  have h : ¬ (p ≥ p + 1 ∧ p ≤ p + 2) := by omega
  simp [h]

/-! ## A lookup that returns neither an info nor an error -/

/-- C37: `lookupExpr` on a function type without parameters and results
returns neither an info nor an error, and so does a binary expression with
the cursor in neither operand; on the array type `[]func()`, on `...func()`
and on `*(a + b)` the enclosing case then reads a field of the missing info,
which is a panic. -/
theorem lookupExpr_missing_info :
    ∀ (other : Expr → Int → Outcome StrErr)
      (lookupFunction : GoString → GoString → Option TypeInfo × Bool) (fuel : Nat),
      lookupExprFuncType exampleEnv other (fun _ _ => .panic) (fun _ => false) fuel
          emptyWalker (some []) none = .ok (emptyWalker, [], none, false) ∧
      lookupExpr exampleEnv other
          (fun _ => (lookupExprFuncType exampleEnv other (fun _ _ => .panic) (fun _ => false)
            fuel emptyWalker (some []) none).bind fun r => .ok r.2)
          lookupFunction (fun _ => false) emptyWalker (fuel + 2)
          (.arrayType none (.funcType (some []) none)) = .panic ∧
      lookupExpr exampleEnv other
          (fun _ => (lookupExprFuncType exampleEnv other (fun _ _ => .panic) (fun _ => false)
            fuel emptyWalker (some []) none).bind fun r => .ok r.2)
          lookupFunction (fun _ => false) emptyWalker (fuel + 2)
          (.ellipsis (some (.funcType (some []) none))) = .panic ∧
      lookupExpr exampleEnv other (fun _ => .panic) lookupFunction (fun _ => false)
          emptyWalker (fuel + 2)
          (.binary (.ident (str "a")) .ADD (.ident (str "b"))) = .ok ([], none, false) ∧
      lookupExpr exampleEnv other (fun _ => .panic) lookupFunction (fun _ => false)
          emptyWalker (fuel + 3)
          (.star (.paren (.binary (.ident (str "a")) .ADD (.ident (str "b"))))) = .panic := by
  intro other lookupFunction fuel
  exact ⟨rfl, rfl, rfl, rfl, rfl⟩

/-! ## A local variable whose type has its name -/

/-- C38: after `config := config{}` the local variable `config` has the type
string `config`, and `lookupSelector` and `varSelectorType` on `config.X` do
not return, whatever the depth allowed to the recursion. -/
theorem lookupSelector_self_named (other : Expr → Int → Outcome StrErr)
    (otherExpr : Expr → Outcome (GoString × Option TypeInfo × Bool))
    (lookupFunction : GoString → GoString → Option TypeInfo × Bool) :
    lookupStmtAssign exampleEnv other otherExpr lookupFunction (fun _ => false)
        (fun _ => false) (fun _ => false) 1 emptyWalker
        { lhs := [.ident (str "config")], define := true,
          rhs := [.compositeLit (some (.ident (str "config"))) []] } =
        .ok ({ emptyWalker with
                localvar := [(str "config", { X := .ident (str "config"),
                                               T := str "config" })] },
          none, false) ∧
      ∀ fuel : Nat,
        lookupSelector exampleEnv other
            { emptyWalker with
              localvar := [(str "config", { X := .ident (str "config"), T := str "config" })] }
            fuel (str "config") (str "X") = .diverge ∧
          varSelectorType exampleEnv other
            { emptyWalker with
              localvar := [(str "config", { X := .ident (str "config"), T := str "config" })] }
            fuel (str "config") (str "X") = .diverge := by
  refine ⟨rfl, fun fuel => ?_⟩
  induction fuel with
  | zero => exact ⟨rfl, rfl⟩
  | succ n ih =>
    have e1 : lookupSelector exampleEnv other
        { emptyWalker with
          localvar := [(str "config", { X := .ident (str "config"), T := str "config" })] }
        (n + 1) (str "config") (str "X") =
        lookupSelector exampleEnv other
        { emptyWalker with
          localvar := [(str "config", { X := .ident (str "config"), T := str "config" })] }
        n (str "config") (str "X") := rfl
    have e2 : varSelectorType exampleEnv other
        { emptyWalker with
          localvar := [(str "config", { X := .ident (str "config"), T := str "config" })] }
        (n + 1) (str "config") (str "X") =
        varSelectorType exampleEnv other
        { emptyWalker with
          localvar := [(str "config", { X := .ident (str "config"), T := str "config" })] }
        n (str "config") (str "X") := rfl
    rw [e1, e2]
    exact ih

/-! ## A struct that embeds a pointer to itself -/

/-- C39: for `type Node struct { *Node }`, `findStructField` with a name that
no field has does not return, whatever the depth allowed to the recursion. -/
theorem findStructField_self_embedding :
    ∀ fuel : Nat,
      findStructField exampleEnv
        { emptyWalker with
          curPackage := { name := str "p", sep := str ", ", features := [],
                          structs := [(str "Node", [.mk [] (.star (.ident (str "Node")))])] } }
        fuel (.structType [.mk [] (.star (.ident (str "Node")))]) (str "x") = .diverge := by
  intro fuel
  induction fuel with
  | zero => rfl
  | succ n ih =>
    have e : findStructField exampleEnv
        { emptyWalker with
          curPackage := { name := str "p", sep := str ", ", features := [],
                          structs := [(str "Node", [.mk [] (.star (.ident (str "Node")))])] } }
        (n + 1) (.structType [.mk [] (.star (.ident (str "Node")))]) (str "x") =
        (match findStructField exampleEnv
          { emptyWalker with
            curPackage := { name := str "p", sep := str ", ", features := [],
                            structs := [(str "Node", [.mk [] (.star (.ident (str "Node")))])] } }
          n (.structType [.mk [] (.star (.ident (str "Node")))]) (str "x") with
        | .ok (some r) => .ok (some r)
        | .ok none => .ok none
        | .panic => .panic
        | .diverge => .diverge) := rfl
    rw [e, ih]

/-! ## Several names with their values -/

/-- C40: for `var m = []T{}` and `var a, b = m[0], m[1]`, `walkVar` records
the type `T` for `a` and the type `bool` for `b`, whose value it types with
the index 1 of the name; with the index 0, `varValueType` gives `T` for
`m[1]`.  `lookupVar` does the same with a local `m` of type `[]T`. -/
theorem walkVar_index_of_name :
    ∀ (other : Expr → Int → Outcome StrErr)
      (otherExpr : Expr → Outcome (GoString × Option TypeInfo × Bool))
      (lookupFunction : GoString → GoString → Option TypeInfo × Bool) (fuel : Nat),
      varValueType exampleEnv other
          sliceVarWalker
          (fuel + 4)
          (some (.index (.ident (str "m")) (.basicLit .INT (str "1")))) 0 =
        .ok ⟨str "T", false⟩ ∧
      (walkVar exampleEnv other (fuel + 4)
          sliceVarWalker
          { names := [str "a", str "b"], type := none,
            values := [.index (.ident (str "m")) (.basicLit .INT (str "0")),
                       .index (.ident (str "m")) (.basicLit .INT (str "1"))] }).bind
          (fun w => .ok (w.curPackage.vars.map (fun kv => (kv.1, kv.2.T)))) =
        .ok [(str "a", str "T"), (str "b", str "bool")] ∧
      (lookupVar exampleEnv other otherExpr lookupFunction (fun _ => false) (fuel + 2)
          { emptyWalker with
            localvar := [(str "m", { X := .ident (str "m"), T := str "[]T" })] }
          { names := [str "a", str "b"], type := none,
            values := [.index (.ident (str "m")) (.basicLit .INT (str "0")),
                       .index (.ident (str "m")) (.basicLit .INT (str "1"))] } true).bind
          (fun r => .ok (r.1.localvar.map (fun kv => (kv.1, kv.2.T)))) =
        .ok [(str "m", str "[]T"), (str "a", str "T"), (str "b", str "bool")] := by
  intro other otherExpr lookupFunction fuel
  exact ⟨rfl, rfl, rfl⟩

/-- Witness of C33: the package `p` of two files is loaded, and a second call
of `WalkPackageDir` returns the walker of the first. -/
theorem WalkPackageDir_idempotent_witness :
    ∃ w1,
      WalkPackageDir
          (twoFileWorld
            (some { name := str "p", imports := [{ name := none, path := quoted (str "os") }] })
            false)
          2 emptyWalker (str "p") (str "/p") none = .ok w1 ∧
        w1.packageState.get (str "p") = some .loaded ∧
        ∀ fuel2, WalkPackageDir
          (twoFileWorld
            (some { name := str "p", imports := [{ name := none, path := quoted (str "os") }] })
            false)
          (fuel2 + 1) w1 (str "p") (str "/p") none = .ok w1 :=
  ⟨_, rfl, rfl,
    ((WalkPackageDir_idempotent
      (twoFileWorld
        (some { name := str "p", imports := [{ name := none, path := quoted (str "os") }] })
        false)
      2 emptyWalker (str "p") (str "/p") none).2 _ rfl).1⟩

end GoApi
